import Mathlib

/-!
# Classification engine of pulseaudio-policy-enforcement (`src/classify.c`)

A shallow embedding of `classify.c`: the predicate library, the PID registry
(`pid_hash_*`), the stream rule list (`streams_*`), the classifier entry point
`find_group_for_client`, the device and card rule tables (`devices_*`,
`cards_*`), and of the group store of `policy-group.c`, followed by theorems
about them.

Conventions of the embedding.

* A C string (`char *`) is an `Option String`: `none` is the NULL pointer, and a
  `String` stands for the bytes of the C string, one `Char` per byte, so `strcmp`
  equality is equality, `strlen` is `String.length`, a `strncmp` prefix test is a
  prefix test on the characters, and a write truncated to `n` bytes keeps the
  first `n` characters.
* A singly linked list (bucket chain, rule list) is a `List` in link order; a
  node pointer returned by a `*_find` function is the position of the node.
* `pid_t` is `Int`, `uid_t` is `Nat` with `(uid_t)-1 = 2^32 - 1`.
* Logging has no effect on the state and is left out.
-/

namespace Classify

/-! ## Predicate library -/

/-- One `regmatch_t` of `<regex.h>`: the byte offsets of a (sub)match, `-1` when
the group took no part in the match. -/
structure regmatch_t where
  rm_so : Int
  rm_eo : Int

/-- A compiled `regex_t`. The regex engine belongs to libc, so a compiled
expression is represented by its behaviour under
`regexec(&re, string, MAX_MATCH, m, 0)`: `none` for a non-zero return
(no match), `some m` for a zero return that filled the array `m`. -/
structure regex_t where
  regexec : String → Option (Nat → regmatch_t)

/-- The `union pa_classify_arg`: a string (NULL after `memset`) or a compiled
regular expression. -/
inductive pa_classify_arg where
  | string (s : Option String)
  | rexp (r : regex_t)

/-- The `strlen` of a C string. -/
def strlen (s : String) : Nat := s.length

/-- The `pa_classify_method_equals` of classify.c:
`!string || !arg || !arg->string` gives FALSE, otherwise `!strcmp`. The rules
always pair this method with a string argument; on a regex argument the model
answers FALSE. -/
def pa_classify_method_equals (string : Option String) (arg : pa_classify_arg) : Bool :=
  match string, arg with
  | some s, pa_classify_arg.string (some a) => decide (s = a)
  | _, _ => false

/-- The `pa_classify_method_startswith` of classify.c:
`!strncmp(string, arg->string, strlen(arg->string))`, FALSE on a NULL. -/
def pa_classify_method_startswith (string : Option String) (arg : pa_classify_arg) : Bool :=
  match string, arg with
  | some s, pa_classify_arg.string (some a) => a.data.isPrefixOf s.data
  | _, _ => false

/-- The `pa_classify_method_matches` of classify.c: `regexec` must succeed with
`m[0].rm_so == 0 && m[0].rm_eo == strlen(string) && m[1].rm_so == -1`. -/
def pa_classify_method_matches (string : Option String) (arg : pa_classify_arg) : Bool :=
  match string, arg with
  | some s, pa_classify_arg.rexp re =>
    match re.regexec s with
    | some m =>
      decide ((m 0).rm_so = 0) && decide ((m 0).rm_eo = (strlen s : Int)) &&
        decide ((m 1).rm_so = -1)
    | none => false
  | _, _ => false

/-- The `pa_classify_method_true` of classify.c: constant TRUE. -/
def pa_classify_method_true (_string : Option String) (_arg : pa_classify_arg) : Bool :=
  true

/-- The type of the `method` function pointer of a rule. -/
abbrev pa_classify_method_fn := Option String → pa_classify_arg → Bool

/-- The `enum pa_classify_method` of the configuration interface, in the order
the range test `method > pa_method_min && method < pa_method_max` of
`streams_add` relies on; `pa_method_min` is the value of `pa_method_unknown`,
which is zero (`prop && method && arg` tests it as a truth value). -/
inductive pa_classify_method where
  | pa_method_unknown
  | pa_method_equals
  | pa_method_startswith
  | pa_method_matches
  | pa_method_true
  | pa_method_max
  deriving DecidableEq, Repr

/-- Numeric value of an enumerator. -/
def pa_classify_method.toNat : pa_classify_method → Nat
  | pa_method_unknown => 0
  | pa_method_equals => 1
  | pa_method_startswith => 2
  | pa_method_matches => 3
  | pa_method_true => 4
  | pa_method_max => 5

/-- The enumerator `pa_method_min`. -/
def pa_method_min : pa_classify_method := pa_classify_method.pa_method_unknown

/-! ## Host property lists -/

/-- A host property list (`pa_proplist`) as far as classify.c uses it: a finite
map from keys to string values, read with `pa_proplist_gets`. -/
abbrev pa_proplist := List (String × String)

/-- The `pa_proplist_new` of the host: the empty property list. -/
def pa_proplist_new : pa_proplist := []

/-- The `pa_proplist_gets` of the host: the value stored under `key`, NULL when
there is none. -/
def pa_proplist_gets (p : pa_proplist) (key : String) : Option String :=
  match p with
  | [] => none
  | (k, v) :: rest => if k = key then some v else pa_proplist_gets rest key

/-- The `pa_proplist_sets` of the host: store `value` under `key`. The host
validates the pair and stores nothing when it rejects it; `accepts` is that
validation. -/
def pa_proplist_sets (accepts : String → String → Bool) (p : pa_proplist)
    (key value : String) : pa_proplist :=
  if accepts key value then (key, value) :: p.filter (fun kv => decide (kv.1 ≠ key)) else p

/-- The property key `PA_PROP_MEDIA_NAME` of the host. -/
def PA_PROP_MEDIA_NAME : String := "media.name"

/-! ## PID registry -/

/-- One node of a bucket chain (`struct pa_classify_pid_hash` without its
`next` link). -/
structure pa_classify_pid_hash where
  pid : Int
  stnam : Option String
  group : String
  deriving DecidableEq

/-- The bucket array `hash[PA_POLICY_PID_HASH_MAX]`: bucket index to chain. -/
abbrev pid_hash_table := Nat → List pa_classify_pid_hash

/-- The bucket index `pid & PA_POLICY_PID_HASH_MASK`. The mask is
`PA_POLICY_PID_HASH_MAX - 1` for a table of `2^bits` buckets (`bits` is a
build-time constant), so the two's-complement AND is the non-negative
remainder of `pid` modulo `2^bits`. -/
def pid_hash_idx (bits : Nat) (pid : Int) : Nat :=
  (pid % ((2 ^ bits : Nat) : Int)).toNat

/-- The test inside the loop of `pid_hash_find`:
`pid && pid == st->pid` and
`(!stnam && !st->stnam) || (stnam && st->stnam && !strcmp(stnam, st->stnam))`. -/
def pid_hash_key_eq (pid : Int) (stnam : Option String) (st : pa_classify_pid_hash) : Bool :=
  decide (pid ≠ 0) && decide (pid = st.pid) &&
    ((stnam.isNone && st.stnam.isNone) ||
      (match stnam, st.stnam with
        | some a, some b => decide (a = b)
        | _, _ => false))

/-- The loop of `pid_hash_find` over one chain: the position of the first node
that passes the test, `none` when the loop runs off the end (then `st` is NULL
and `prev` is the last node, or the bucket head for an empty chain). -/
def pid_hash_find_loop (pid : Int) (stnam : Option String) :
    List pa_classify_pid_hash → Option Nat
  | [] => none
  | st :: rest =>
    if pid_hash_key_eq pid stnam st then some 0
    else (pid_hash_find_loop pid stnam rest).map (fun i => i + 1)

/-- The `pid_hash_find` of classify.c: search the chain of bucket
`pid & PA_POLICY_PID_HASH_MASK`. -/
def pid_hash_find (bits : Nat) (hash : pid_hash_table) (pid : Int) (stnam : Option String) :
    Option Nat :=
  pid_hash_find_loop pid stnam (hash (pid_hash_idx bits pid))

/-- The `pid_hash_insert` of classify.c: overwrite the group of the node found,
otherwise link a new node after `prev`, the last node of the chain. -/
def pid_hash_insert (bits : Nat) (hash : pid_hash_table) (pid : Int) (stnam : Option String)
    (group : String) : pid_hash_table :=
  let idx := pid_hash_idx bits pid
  match pid_hash_find bits hash pid stnam with
  | some i =>
    Function.update hash idx ((hash idx).modify (fun st => { st with group := group }) i)
  | none =>
    Function.update hash idx (hash idx ++ [{ pid := pid, stnam := stnam, group := group }])

/-- The `pid_hash_remove` of classify.c: unlink the node found, if any. -/
def pid_hash_remove (bits : Nat) (hash : pid_hash_table) (pid : Int) (stnam : Option String) :
    pid_hash_table :=
  let idx := pid_hash_idx bits pid
  match pid_hash_find bits hash pid stnam with
  | some i => Function.update hash idx ((hash idx).eraseIdx i)
  | none => hash

/-- The `pid_hash_get_group` of classify.c: NULL for pid 0 or when nothing is
found, otherwise the group of the node found. -/
def pid_hash_get_group (bits : Nat) (hash : pid_hash_table) (pid : Int)
    (stnam : Option String) : Option String :=
  if pid = 0 then none
  else
    match pid_hash_find bits hash pid stnam with
    | none => none
    | some i => ((hash (pid_hash_idx bits pid)).get? i).map (fun st => st.group)

/-! ## Stream rules -/

/-- The value `(uid_t)-1`, to which the `-1` of `ID_MATCH_OF` converts. -/
def uid_minus1 : Nat := 4294967295

/-- One stream rule (`struct pa_classify_stream_def` without its `next` link).
A zeroed node has NULL `prop`, `method`, `clnam`, `exe` and a NULL string
argument. -/
structure pa_classify_stream_def where
  prop : Option String
  method : Option pa_classify_method_fn
  arg : pa_classify_arg
  clnam : Option String
  uid : Nat
  exe : Option String
  group : String

/-- The subject `prv` that the loop of `streams_find` computes for a rule: the
value of the rule's property in the property list, replaced by `"<unknown>"`
when the list or the rule's property is NULL, the property is missing, or its
value is the empty string. -/
def streams_find_prv (d : pa_classify_stream_def) (proplist : Option pa_proplist) : String :=
  match proplist, d.prop with
  | some pl, some prop =>
    match pa_proplist_gets pl prop with
    | some v => if v = "" then "<unknown>" else v
    | none => "<unknown>"
  | _, _ => "<unknown>"

/-- The macro `PROPERTY_MATCH` of `streams_find`:
`!d->prop || !d->method || (d->method && d->method(prv, &d->arg))`. -/
def PROPERTY_MATCH (d : pa_classify_stream_def) (prv : String) : Bool :=
  d.prop.isNone || d.method.isNone ||
    (match d.method with
      | some m => m (some prv) d.arg
      | none => false)

/-- The macro `STRING_MATCH_OF(m)` of `streams_find`, with `m` the candidate's
field and `dm` the rule's: `!d->m || (m && d->m && !strcmp(m, d->m))`. -/
def STRING_MATCH_OF (m dm : Option String) : Bool :=
  dm.isNone ||
    (match m, dm with
      | some a, some b => decide (a = b)
      | _, _ => false)

/-- The macro `ID_MATCH_OF(m)` of `streams_find`: `d->m == -1 || m == d->m`. -/
def ID_MATCH_OF (m dm : Nat) : Bool :=
  decide (dm = uid_minus1) || decide (m = dm)

/-- The condition under which the loop of `streams_find` breaks at rule `d`. -/
def streams_find_test (d : pa_classify_stream_def) (proplist : Option pa_proplist)
    (clnam : Option String) (uid : Nat) (exe : Option String) : Bool :=
  PROPERTY_MATCH d (streams_find_prv d proplist) && STRING_MATCH_OF clnam d.clnam &&
    ID_MATCH_OF uid d.uid && STRING_MATCH_OF exe d.exe

/-- The loop of `streams_find`: the position of the first rule at which the
loop breaks, `none` when it runs off the end (then `d` is NULL and `prev` is
the last rule, or the list head for an empty list). -/
def streams_find (defs : List pa_classify_stream_def) (proplist : Option pa_proplist)
    (clnam : Option String) (uid : Nat) (exe : Option String) : Option Nat :=
  match defs with
  | [] => none
  | d :: rest =>
    if streams_find_test d proplist clnam uid exe then some 0
    else (streams_find rest proplist clnam uid exe).map (fun i => i + 1)

/-- The `streams_get_group` of classify.c: the group of the rule found, NULL
when none is found. -/
def streams_get_group (defs : List pa_classify_stream_def) (proplist : Option pa_proplist)
    (clnam : Option String) (uid : Nat) (exe : Option String) : Option String :=
  match streams_find defs proplist clnam uid exe with
  | none => none
  | some i => (defs.get? i).map (fun d => d.group)

/-- The property list `streams_add` builds to look for a rule to redefine: it
holds `prop = arg` when `prop && arg && method == pa_method_equals`, and is
empty otherwise. -/
def streams_add_proplist (accepts : String → String → Bool) (prop : Option String)
    (method : pa_classify_method) (arg : Option String) : pa_proplist :=
  match prop, arg with
  | some p, some a =>
    if method = pa_classify_method.pa_method_equals then
      pa_proplist_sets accepts pa_proplist_new p a
    else pa_proplist_new
  | _, _ => pa_proplist_new

/-- The node `streams_add` allocates when it found no rule to redefine:
zeroed, then `prop`, `method` and `arg` are set when
`prop && arg && method > pa_method_min && method < pa_method_max`, and `uid`,
`exe`, `clnam`, `group` are copied. The result is `none` when the function
aborts in `pa_assert_se(0)` because `regcomp` (given as a parameter, `none`
for a non-zero return) rejects the argument of a `matches` rule. -/
def streams_add_node (regcomp : String → Option regex_t) (prop : Option String)
    (method : pa_classify_method) (arg : Option String) (clnam : Option String) (uid : Nat)
    (exe : Option String) (group : String) : Option pa_classify_stream_def :=
  let d : pa_classify_stream_def :=
    { prop := none, method := none, arg := pa_classify_arg.string none,
      clnam := clnam, uid := uid, exe := exe, group := group }
  match prop, arg with
  | some p, some a =>
    if pa_method_min.toNat < method.toNat ∧
        method.toNat < pa_classify_method.pa_method_max.toNat then
      match method with
      | pa_classify_method.pa_method_equals =>
        some { d with prop := some p, method := some pa_classify_method_equals,
                      arg := pa_classify_arg.string (some a) }
      | pa_classify_method.pa_method_startswith =>
        some { d with prop := some p, method := some pa_classify_method_startswith,
                      arg := pa_classify_arg.string (some a) }
      | pa_classify_method.pa_method_matches =>
        match regcomp a with
        | some re =>
          some { d with prop := some p, method := some pa_classify_method_matches,
                        arg := pa_classify_arg.rexp re }
        | none => none
      | pa_classify_method.pa_method_true =>
        some { d with prop := some p, method := some pa_classify_method_true,
                      arg := pa_classify_arg.string none }
      | _ => none
    else some d
  | _, _ => some d

/-- The `streams_add` of classify.c: look for a rule that `streams_find`
reports for the property list built from the new rule and the new rule's
`clnam`, `uid`, `exe`; when one is found only its group is replaced, otherwise
a new node is linked after `prev`, the last rule. `none` is the abort of
`streams_add_node`. -/
def streams_add (regcomp : String → Option regex_t) (accepts : String → String → Bool)
    (defs : List pa_classify_stream_def) (prop : Option String) (method : pa_classify_method)
    (arg : Option String) (clnam : Option String) (uid : Nat) (exe : Option String)
    (group : String) : Option (List pa_classify_stream_def) :=
  let proplist := streams_add_proplist accepts prop method arg
  match streams_find defs (some proplist) clnam uid exe with
  | some i => some (defs.modify (fun d => { d with group := group }) i)
  | none =>
    match streams_add_node regcomp prop method arg clnam uid exe group with
    | some d => some (defs ++ [d])
    | none => none

/-! ## Classifier state and entry points -/

/-- The stream part of `struct pa_classify`: the PID registry and the rule
list. -/
structure pa_classify_stream where
  pid_hash : pid_hash_table
  defs : List pa_classify_stream_def

/-- The `struct pa_classify`, as far as stream classification uses it. -/
structure pa_classify where
  streams : pa_classify_stream

/-- The `pa_classify_new` of classify.c: a zeroed structure, that is an empty
registry and an empty rule list. -/
def pa_classify_new : pa_classify :=
  { streams := { pid_hash := fun _ => [], defs := [] } }

/-- The `pa_classify_add_stream` of classify.c: `streams_add` runs when
`((prop && method && arg) || uid != (uid_t)-1 || exe) && group`; otherwise
nothing happens. -/
def pa_classify_add_stream (regcomp : String → Option regex_t)
    (accepts : String → String → Bool) (classify : pa_classify) (prop : Option String)
    (method : pa_classify_method) (arg : Option String) (clnam : Option String) (uid : Nat)
    (exe : Option String) (group : Option String) : Option pa_classify :=
  match group with
  | some g =>
    if (prop.isSome && decide (method.toNat ≠ 0) && arg.isSome) ||
        decide (uid ≠ uid_minus1) || exe.isSome then
      (streams_add regcomp accepts classify.streams.defs prop method arg clnam uid exe g).map
        (fun defs => { classify with streams := { classify.streams with defs := defs } })
    else some classify
  | none => some classify

/-- The `pa_classify_register_pid` of classify.c: `pid_hash_insert` runs when
`pid && group`. -/
def pa_classify_register_pid (bits : Nat) (classify : pa_classify) (pid : Int)
    (stnam : Option String) (group : Option String) : pa_classify :=
  match group with
  | some g =>
    if pid ≠ 0 then
      { classify with
        streams := { classify.streams with
          pid_hash := pid_hash_insert bits classify.streams.pid_hash pid stnam g } }
    else classify
  | none => classify

/-- The `pa_classify_unregister_pid` of classify.c: `pid_hash_remove` runs when
`pid` is non-zero. -/
def pa_classify_unregister_pid (bits : Nat) (classify : pa_classify) (pid : Int)
    (stnam : Option String) : pa_classify :=
  if pid ≠ 0 then
    { classify with
      streams := { classify.streams with
        pid_hash := pid_hash_remove bits classify.streams.pid_hash pid stnam } }
  else classify

/-- Modelled from the spec: the accessors `pa_client_ext_pid`,
`pa_client_ext_name`, `pa_client_ext_uid`, `pa_client_ext_exe` and
`pa_client_ext_arg0` of client-ext.c are not among the sources; a client is
the record of what they return (spec, section 6: pid, name, uid, executable
path, argv[0]). -/
structure pa_client where
  pid : Int
  name : Option String
  uid : Nat
  exe : Option String
  arg0 : Option String

/-- The `find_group_for_client` of classify.c. Without a client the rule list
is searched with `clnam = ""`, `uid = (uid_t)-1`, `exe = ""`; with a client the
registry is asked first, with the client's pid and the `media.name` of the
property list (NULL without a property list), and the rule list only when the
registry gives NULL. A NULL result becomes `PA_POLICY_DEFAULT_GROUP_NAME`, a
string constant of a header that is not among the sources and is taken as a
parameter. -/
def find_group_for_client (PA_POLICY_DEFAULT_GROUP_NAME : String) (bits : Nat)
    (classify : pa_classify) (client : Option pa_client) (proplist : Option pa_proplist) :
    Option String :=
  let hash := classify.streams.pid_hash
  let defs := classify.streams.defs
  let group : Option String :=
    match client with
    | none => streams_get_group defs proplist (some "") uid_minus1 (some "")
    | some c =>
      let pid := c.pid
      let stnam : Option String :=
        match proplist with
        | some pl => pa_proplist_gets pl PA_PROP_MEDIA_NAME
        | none => none
      match pid_hash_get_group bits hash pid stnam with
      | some g => some g
      | none => streams_get_group defs proplist c.name c.uid c.exe
  match group with
  | none => some PA_POLICY_DEFAULT_GROUP_NAME
  | some g => some g

/-! ## Auxiliary definitions for the proofs -/

/-- Position of the first element of a list that satisfies `p`: the common
shape of the loops of `pid_hash_find` and `streams_find`. -/
def first_index {α : Type} (p : α → Bool) : List α → Option Nat
  | [] => none
  | x :: rest => if p x then some 0 else (first_index p rest).map (fun i => i + 1)

/-- Apply `f` to the element at the position `first_index` reports, or append
`new` when it reports none: the common shape of `pid_hash_insert` and
`streams_add` on one list. -/
def update_or_append {α : Type} (p : α → Bool) (f : α → α) (new : α) (l : List α) : List α :=
  match first_index p l with
  | some i => l.modify f i
  | none => l ++ [new]

/-- The `media.name` that `find_group_for_client` reads from the property list
of a stream (NULL without a property list). -/
def stream_media_name (proplist : Option pa_proplist) : Option String :=
  match proplist with
  | some pl => pa_proplist_gets pl PA_PROP_MEDIA_NAME
  | none => none

/-- Two registry nodes carry different keys `(pid, stnam)`. -/
def pid_hash_key_ne (a b : pa_classify_pid_hash) : Prop :=
  ¬ (a.pid = b.pid ∧ a.stnam = b.stnam)

/-- Well-formedness of a registry: every node sits in the bucket of its pid,
has a non-zero pid, and no chain holds two nodes with the same key. -/
def pid_hash_wf (bits : Nat) (hash : pid_hash_table) : Prop :=
  ∀ i : Nat, (∀ e ∈ hash i, e.pid ≠ 0 ∧ pid_hash_idx bits e.pid = i) ∧
    (hash i).Pairwise pid_hash_key_ne

/-- The classifier states reachable from `pa_classify_new` through the public
operations that change the stream part. -/
inductive pa_classify_reachable (regcomp : String → Option regex_t)
    (accepts : String → String → Bool) (bits : Nat) : pa_classify → Prop where
  | new : pa_classify_reachable regcomp accepts bits pa_classify_new
  | add_stream (c c2 : pa_classify) (prop : Option String) (method : pa_classify_method)
      (arg clnam : Option String) (uid : Nat) (exe group : Option String) :
      pa_classify_reachable regcomp accepts bits c →
      pa_classify_add_stream regcomp accepts c prop method arg clnam uid exe group = some c2 →
      pa_classify_reachable regcomp accepts bits c2
  | register_pid (c : pa_classify) (pid : Int) (stnam group : Option String) :
      pa_classify_reachable regcomp accepts bits c →
      pa_classify_reachable regcomp accepts bits (pa_classify_register_pid bits c pid stnam group)
  | unregister_pid (c : pa_classify) (pid : Int) (stnam : Option String) :
      pa_classify_reachable regcomp accepts bits c →
      pa_classify_reachable regcomp accepts bits (pa_classify_unregister_pid bits c pid stnam)

/-- The arguments of one call of `streams_add`. -/
structure streams_add_args where
  prop : Option String
  method : pa_classify_method
  arg : Option String
  clnam : Option String
  uid : Nat
  exe : Option String
  group : String

/-- A sequence of `streams_add` calls on a rule list; `none` when one of them
aborts. -/
def streams_add_seq (regcomp : String → Option regex_t) (accepts : String → String → Bool) :
    List pa_classify_stream_def → List streams_add_args → Option (List pa_classify_stream_def)
  | defs, [] => some defs
  | defs, r :: rest =>
    match streams_add regcomp accepts defs r.prop r.method r.arg r.clnam r.uid r.exe r.group with
    | some defs2 => streams_add_seq regcomp accepts defs2 rest
    | none => none

/-- Every call of a sequence of `streams_add` calls finds no rule to redefine,
that is `streams_find` reports none for the property list built from the new
rule and the new rule's `clnam`, `uid`, `exe`. -/
def streams_add_seq_appends (regcomp : String → Option regex_t)
    (accepts : String → String → Bool) :
    List pa_classify_stream_def → List streams_add_args → Prop
  | _, [] => True
  | defs, r :: rest =>
    streams_find defs (some (streams_add_proplist accepts r.prop r.method r.arg))
        r.clnam r.uid r.exe = none ∧
      match streams_add regcomp accepts defs r.prop r.method r.arg r.clnam r.uid r.exe
          r.group with
      | some defs2 => streams_add_seq_appends regcomp accepts defs2 rest
      | none => True

/-! ## Device and card rules -/

/-- The payload `struct pa_classify_device_data` of a device rule: a 32-bit
flag word. -/
structure pa_classify_device_data where
  flags : Nat
  deriving DecidableEq

/-- One entry `struct pa_classify_device_def` of a device rule array. A zeroed
entry (NULL `type`) is the sentinel that ends the array. -/
structure pa_classify_device_def where
  type : Option String
  prop : Option String
  method : Option pa_classify_method_fn
  arg : pa_classify_arg
  data : pa_classify_device_data

/-- A zeroed array entry (`memset(d, 0, sizeof(*d))`). -/
def pa_classify_device_def_zero : pa_classify_device_def :=
  { type := none, prop := none, method := none, arg := pa_classify_arg.string none,
    data := { flags := 0 } }

/-- The `struct pa_classify_device`: the rule count `ndef` and the array
`defs`, which holds the rules followed by the sentinel. -/
structure pa_classify_device where
  ndef : Nat
  defs : List pa_classify_device_def

/-- The table `pa_xnew0(struct pa_classify_device, 1)` that `pa_classify_new`
allocates for sinks and for sources: no rule, one zeroed entry. -/
def pa_classify_device_new : pa_classify_device :=
  { ndef := 0, defs := [pa_classify_device_def_zero] }

/-- The `get_property` of classify.c: with `propname`, `proplist` and `name`
all non-NULL the value is `name` for the property name `"name"` and the
property-list value otherwise; a NULL or empty value becomes `"<unknown>"`. -/
def get_property (propname : Option String) (proplist : Option pa_proplist)
    (name : Option String) : String :=
  let propval : Option String :=
    match propname, proplist, name with
    | some pn, some pl, some n => if pn = "name" then some n else pa_proplist_gets pl pn
    | _, _, _ => none
  match propval with
  | none => "<unknown>"
  | some v => if v = "" then "<unknown>" else v

/-- The call `d->method(propval, &d->arg)`. Every rule entry carries a method;
for a NULL pointer the model answers FALSE. -/
def method_call (method : Option pa_classify_method_fn) (propval : Option String)
    (arg : pa_classify_arg) : Bool :=
  match method with
  | some m => m propval arg
  | none => false

/-- The statement `p += snprintf(p, (size_t)(e-p), "%s%s", s, d->type)` of the
classification loops, on a buffer of `len` bytes whose string content is `buf`
and with `p` the offset of the write position: with room for `e - p > 0` bytes
the text is stored at offset `p`, cut to `e - p - 1` bytes and terminated; with
no room nothing is stored; the offset advances by the full length of the
text. -/
def snprintf_tag (buf : String) (p len : Nat) (s type : String) : String × Nat :=
  let text := s ++ type
  let size := len - p
  let buf2 := if size = 0 then buf else String.mk (buf.data.take p ++ text.data.take (size - 1))
  (buf2, p + strlen text)

/-- The loop of `devices_classify` from entry `d` on, with the buffer content
`buf`, the write offset `p` and the separator `s`; the result is the buffer
content and the offset at the end. The loop ends at the first entry with a
NULL `type`; on `p > e` the buffer is emptied, `p` is set to `e` and the loop
is left. -/
def devices_classify_loop (proplist : Option pa_proplist) (name : Option String)
    (flag_mask flag_value len : Nat) :
    List pa_classify_device_def → String → Nat → String → String × Nat
  | [], buf, p, _ => (buf, p)
  | d :: rest, buf, p, s =>
    match d.type with
    | none => (buf, p)
    | some type =>
      let propval := get_property d.prop proplist name
      if method_call d.method (some propval) d.arg then
        if d.data.flags &&& flag_mask = flag_value then
          let r := snprintf_tag buf p len s type
          if r.2 > len then ("", len)
          else devices_classify_loop proplist name flag_mask flag_value len rest r.1 r.2 " "
        else devices_classify_loop proplist name flag_mask flag_value len rest buf p s
      else devices_classify_loop proplist name flag_mask flag_value len rest buf p s

/-- The `devices_classify` of classify.c: the content of the buffer at return
and the return value `e - p`; `none` when `pa_assert(len > 0)` fails. -/
def devices_classify (defs : List pa_classify_device_def) (proplist : Option pa_proplist)
    (name : Option String) (flag_mask flag_value len : Nat) : Option (String × Nat) :=
  if 0 < len then
    let r := devices_classify_loop proplist name flag_mask flag_value len defs "" 0 ""
    some (r.1, len - r.2)
  else none

/-- The `devices_is_typeof` of classify.c: `some` payload of the first entry
before the sentinel whose type equals `type` and whose method fires (TRUE, with
`*data` set), `none` for FALSE. -/
def devices_is_typeof (defs : List pa_classify_device_def) (proplist : Option pa_proplist)
    (name : Option String) (type : String) : Option pa_classify_device_data :=
  match defs with
  | [] => none
  | d :: rest =>
    match d.type with
    | none => none
    | some t =>
      if type = t then
        if method_call d.method (some (get_property d.prop proplist name)) d.arg then
          some d.data
        else devices_is_typeof rest proplist name type
      else devices_is_typeof rest proplist name type

/-- The `devices_add` of classify.c. The array is reallocated to `ndef + 2`
entries, the entry `d = defs + ndef` is filled and `d + 1` is zeroed. For the
methods equals, startswith and matches with an argument that `regcomp` accepts
the rule count is incremented; in every other case (`default:` of the switch,
reached also by falling through from a failed `regcomp`) `d` is zeroed again
and the count is left alone. -/
def devices_add (regcomp : String → Option regex_t) (devs : pa_classify_device)
    (type prop : String) (method : pa_classify_method) (arg : String) (flags : Nat) :
    pa_classify_device :=
  let arr := devs.defs.take (devs.ndef + 1) ++ [pa_classify_device_def_zero]
  let d : pa_classify_device_def :=
    { type := some type, prop := some prop, method := none,
      arg := pa_classify_arg.string none, data := { flags := flags } }
  let invalid : pa_classify_device :=
    { ndef := devs.ndef, defs := arr.set devs.ndef pa_classify_device_def_zero }
  match method with
  | pa_classify_method.pa_method_equals =>
    { ndef := devs.ndef + 1,
      defs := arr.set devs.ndef
        { d with method := some pa_classify_method_equals,
                 arg := pa_classify_arg.string (some arg) } }
  | pa_classify_method.pa_method_startswith =>
    { ndef := devs.ndef + 1,
      defs := arr.set devs.ndef
        { d with method := some pa_classify_method_startswith,
                 arg := pa_classify_arg.string (some arg) } }
  | pa_classify_method.pa_method_matches =>
    match regcomp arg with
    | some re =>
      { ndef := devs.ndef + 1,
        defs := arr.set devs.ndef
          { d with method := some pa_classify_method_matches,
                   arg := pa_classify_arg.rexp re } }
    | none => invalid
  | _ => invalid

/-! ## Card rules -/

/-- The payload `struct pa_classify_card_data` of a card rule: the required
profile (NULL for none) and a 32-bit flag word. -/
structure pa_classify_card_data where
  profile : Option String
  flags : Nat
  deriving DecidableEq

/-- One entry `struct pa_classify_card_def` of the card rule array; a zeroed
entry is the sentinel. -/
structure pa_classify_card_def where
  type : Option String
  method : Option pa_classify_method_fn
  arg : pa_classify_arg
  data : pa_classify_card_data

/-- A zeroed card entry. -/
def pa_classify_card_def_zero : pa_classify_card_def :=
  { type := none, method := none, arg := pa_classify_arg.string none,
    data := { profile := none, flags := 0 } }

/-- The `struct pa_classify_card`: rule count and array. -/
structure pa_classify_card where
  ndef : Nat
  defs : List pa_classify_card_def

/-- The table `pa_xnew0(struct pa_classify_card, 1)` of `pa_classify_new`. -/
def pa_classify_card_new : pa_classify_card :=
  { ndef := 0, defs := [pa_classify_card_def_zero] }

/-- The inner loop of `cards_classify` over the NULL-terminated array
`profiles`: TRUE as soon as an element is `strcmp`-equal to the rule's
profile. -/
def cards_supports_profile (profile : String) : List String → Bool
  | [] => false
  | q :: rest => if profile = q then true else cards_supports_profile profile rest

/-- The loop of `cards_classify`, in the shape of `devices_classify_loop`: the
method runs on the card name itself, and a rule with a profile emits only when
the card's profile array holds it. -/
def cards_classify_loop (name : Option String) (profiles : List String)
    (flag_mask flag_value len : Nat) :
    List pa_classify_card_def → String → Nat → String → String × Nat
  | [], buf, p, _ => (buf, p)
  | d :: rest, buf, p, s =>
    match d.type with
    | none => (buf, p)
    | some type =>
      if method_call d.method name d.arg then
        let supports_profile : Bool :=
          match d.data.profile with
          | none => true
          | some prof => cards_supports_profile prof profiles
        if supports_profile && decide (d.data.flags &&& flag_mask = flag_value) then
          let r := snprintf_tag buf p len s type
          if r.2 > len then ("", len)
          else cards_classify_loop name profiles flag_mask flag_value len rest r.1 r.2 " "
        else cards_classify_loop name profiles flag_mask flag_value len rest buf p s
      else cards_classify_loop name profiles flag_mask flag_value len rest buf p s

/-- The `cards_classify` of classify.c: buffer content and return value
`e - p`; `none` when `pa_assert(len > 0)` fails. -/
def cards_classify (defs : List pa_classify_card_def) (name : Option String)
    (profiles : List String) (flag_mask flag_value len : Nat) : Option (String × Nat) :=
  if 0 < len then
    let r := cards_classify_loop name profiles flag_mask flag_value len defs "" 0 ""
    some (r.1, len - r.2)
  else none

/-- The `cards_add` of classify.c, in the shape of `devices_add`. -/
def cards_add (regcomp : String → Option regex_t) (cards : pa_classify_card)
    (type : String) (method : pa_classify_method) (arg : String) (profile : Option String)
    (flags : Nat) : pa_classify_card :=
  let arr := cards.defs.take (cards.ndef + 1) ++ [pa_classify_card_def_zero]
  let d : pa_classify_card_def :=
    { type := some type, method := none, arg := pa_classify_arg.string none,
      data := { profile := profile, flags := flags } }
  let invalid : pa_classify_card :=
    { ndef := cards.ndef, defs := arr.set cards.ndef pa_classify_card_def_zero }
  match method with
  | pa_classify_method.pa_method_equals =>
    { ndef := cards.ndef + 1,
      defs := arr.set cards.ndef
        { d with method := some pa_classify_method_equals,
                 arg := pa_classify_arg.string (some arg) } }
  | pa_classify_method.pa_method_startswith =>
    { ndef := cards.ndef + 1,
      defs := arr.set cards.ndef
        { d with method := some pa_classify_method_startswith,
                 arg := pa_classify_arg.string (some arg) } }
  | pa_classify_method.pa_method_matches =>
    match regcomp arg with
    | some re =>
      { ndef := cards.ndef + 1,
        defs := arr.set cards.ndef
          { d with method := some pa_classify_method_matches,
                   arg := pa_classify_arg.rexp re } }
    | none => invalid
  | _ => invalid

/-- The `card_is_typeof` of classify.c: `some` payload of the first entry
before the sentinel whose type equals `type` and whose method fires on the
card name (TRUE), `none` for FALSE. -/
def card_is_typeof (defs : List pa_classify_card_def) (name : Option String)
    (type : String) : Option pa_classify_card_data :=
  match defs with
  | [] => none
  | d :: rest =>
    match d.type with
    | none => none
    | some t =>
      if type = t then
        if method_call d.method name d.arg then some d.data
        else card_is_typeof rest name type
      else card_is_typeof rest name type

/-! ## Group store (policy-group.c) -/

/-- The host constant `PA_IDXSET_INVALID`, `(uint32_t)-1`. -/
def PA_IDXSET_INVALID : Nat := 4294967295

/-- The host constant `PA_VOLUME_NORM`, `0x10000`. -/
def PA_VOLUME_NORM : Nat := 65536

/-- A host sink (`struct pa_sink`) as far as the group store reads it. -/
structure pa_sink where
  index : Nat
  name : Option String
  deriving DecidableEq

/-- A host source (`struct pa_source`) as far as the group store reads it. -/
structure pa_source where
  index : Nat
  name : Option String
  deriving DecidableEq

/-- A host sink-input (`struct pa_sink_input`) as far as the group store reads
it. -/
structure pa_sink_input where
  index : Nat
  deriving DecidableEq

/-- A host source-output (`struct pa_source_output`) as far as the group store
reads it. -/
structure pa_source_output where
  index : Nat
  deriving DecidableEq

/-- One node of a sink-input membership list (`struct pa_sink_input_list`
without its `next` link). -/
structure pa_sink_input_list where
  index : Nat
  sink_input : pa_sink_input
  deriving DecidableEq

/-- One node of a source-output membership list. -/
structure pa_source_output_list where
  index : Nat
  source_output : pa_source_output
  deriving DecidableEq

/-- One policy group (`struct pa_policy_group` without its `next` link). -/
structure pa_policy_group where
  flags : Nat
  name : String
  sink : Option pa_sink
  sinpidx : Nat
  source : Option pa_source
  limit : Nat
  corked : Int
  sinpls : List pa_sink_input_list
  soutls : List pa_source_output_list
  deriving DecidableEq

/-- The `struct pa_policy_groupset`: the bucket array `hash_tbl` and the
pointer `dflt` to the default group, which is represented by the name of the
group it points to. -/
structure pa_policy_groupset where
  dflt : Option String
  hash_tbl : Nat → List pa_policy_group

/-- What the functions of policy-group.c work on: the group set `u->groups`
and the file's static variables `defsink` and `defidx`. -/
structure policy_group_state where
  groups : pa_policy_groupset
  defsink : Option pa_sink
  defidx : Nat

/-- The `pa_policy_groupset_new` of policy-group.c with the initial values of
the static variables: a zeroed group set, `defsink = NULL`,
`defidx = PA_IDXSET_INVALID`. -/
def pa_policy_groupset_new : policy_group_state :=
  { groups := { dflt := none, hash_tbl := fun _ => [] }, defsink := none,
    defidx := PA_IDXSET_INVALID }

/-- The width `PA_POLICY_GROUP_HASH_DIM` of the bucket array, a power of two
`2^bits` fixed at build time in a header that is not among the sources. -/
def PA_POLICY_GROUP_HASH_DIM (bits : Nat) : Nat := 2 ^ bits

/-- The mask `PA_POLICY_GROUP_HASH_MASK`, `PA_POLICY_GROUP_HASH_DIM - 1`. -/
def PA_POLICY_GROUP_HASH_MASK (bits : Nat) : Nat := PA_POLICY_GROUP_HASH_DIM bits - 1

/-- The loop of `hash_value`: `hash = 38501 * (hash + c)` in `uint32_t`
arithmetic for every byte `c` of the string, read as `unsigned char`. -/
def hash_value_loop : List Char → Nat → Nat
  | [], hash => hash
  | c :: rest, hash =>
    hash_value_loop rest ((38501 * ((hash + c.toNat % 256) % 2 ^ 32)) % 2 ^ 32)

/-- The `hash_value` of policy-group.c: the loop runs for a non-NULL string
and the result is `hash & PA_POLICY_GROUP_HASH_MASK`. -/
def hash_value (bits : Nat) (s : Option String) : Nat :=
  let hash :=
    match s with
    | some str => hash_value_loop str.data 0
    | none => 0
  hash &&& PA_POLICY_GROUP_HASH_MASK bits

/-- The loop of `find_group_by_name` over one chain: the position of the first
group whose name is `strcmp`-equal to `name`, `none` when the loop ends with
`group == NULL`. -/
def find_group_by_name_loop (name : String) : List pa_policy_group → Option Nat
  | [] => none
  | group :: rest =>
    if name = group.name then some 0
    else (find_group_by_name_loop name rest).map (fun i => i + 1)

/-- The `find_group_by_name` of policy-group.c: the group found in the chain of
bucket `hash_value(name)` (as its position in the chain) and the bucket index
stored through `ridx`. -/
def find_group_by_name (bits : Nat) (gset : pa_policy_groupset) (name : String) :
    Option Nat × Nat :=
  let idx := hash_value bits (some name)
  (find_group_by_name_loop name (gset.hash_tbl idx), idx)

/-- The `pa_policy_group_new` of policy-group.c: an existing group of that name
is returned as it is; otherwise a zeroed group gets `flags`, `name`,
`limit = PA_VOLUME_NORM`, `sink = defsink`, `sinpidx = defidx` and is linked at
the head of its chain. The group returned is given as its position in the
chain of bucket `hash_value(name)`. -/
def pa_policy_group_new (bits : Nat) (u : policy_group_state) (name : String) (flags : Nat) :
    policy_group_state × Nat :=
  match find_group_by_name bits u.groups name with
  | (some pos, _) => (u, pos)
  | (none, idx) =>
    let group : pa_policy_group :=
      { flags := flags, name := name, sink := u.defsink, sinpidx := u.defidx, source := none,
        limit := PA_VOLUME_NORM, corked := 0, sinpls := [], soutls := [] }
    ({ u with
        groups := { u.groups with
          hash_tbl := Function.update u.groups.hash_tbl idx (group :: u.groups.hash_tbl idx) } },
      0)

/-! ## Host interface of the group store -/

/-- A call of a host primitive made by policy-group.c, with its arguments. -/
inductive host_call where
  | sink_input_move_to (si : pa_sink_input) (sink : Option pa_sink)
  | sink_input_cork (si : pa_sink_input) (corked : Int)
  | sink_input_set_volume_limit (si : pa_sink_input) (limit : Nat)
  | source_output_move_to (so : pa_source_output) (source : Option pa_source)
  deriving DecidableEq

/-- Modelled from the spec: the stream side of the host and of the files
sink-input-ext.c and source-output-ext.c, which are not among the sources. It
holds the host primitive calls made so far, in call order, and the policy-group
back-reference of every stream (NULL for none), which
`pa_sink_input_ext_set_policy_group` and
`pa_source_output_ext_set_policy_group` set. -/
structure host_state where
  calls : List host_call
  sink_input_group : pa_sink_input → Option String
  source_output_group : pa_source_output → Option String

/-- The host before any call: no call made, no stream with a back-reference. -/
def host_state_new : host_state :=
  { calls := [], sink_input_group := fun _ => none, source_output_group := fun _ => none }

/-- Modelled from the spec: what policy-group.c reads from the host and what
the host answers. `sinks` and `sources` are the index sets `u->core->sinks`
and `u->core->sources` in iteration order, `default_sink` is the result of
`pa_namereg_get(u->core, NULL, PA_NAMEREG_SINK, FALSE)`, the three functions
give the return values of `pa_sink_input_move_to`, `pa_source_output_move_to`
and `pa_sink_input_ext_set_volume_limit`, and the last two are
`pa_classify_is_sink_typeof(u, name, type)` and
`pa_classify_is_source_typeof(u, name, type)` as policy-group.c calls them,
with the endpoint name and the type. -/
structure pa_core where
  sinks : List pa_sink
  sources : List pa_source
  default_sink : Option pa_sink
  sink_input_move_to : pa_sink_input → Option pa_sink → Int
  source_output_move_to : pa_source_output → Option pa_source → Int
  sink_input_set_volume_limit : pa_sink_input → Nat → Int
  is_sink_typeof : String → String → Bool
  is_source_typeof : String → String → Bool

/-- Record a host primitive call. -/
def host_call_made (h : host_state) (c : host_call) : host_state :=
  { h with calls := h.calls ++ [c] }

/-- Modelled from the spec: the `pa_sink_input_ext_set_policy_group(sinp, group)`
of sink-input-ext.c, a file that is not among the sources. It stores `group`,
NULL for none, as the group back-reference of the stream. -/
def pa_sink_input_ext_set_policy_group (h : host_state) (sinp : pa_sink_input)
    (group : Option String) : host_state :=
  { h with sink_input_group := Function.update h.sink_input_group sinp group }

/-- Modelled from the spec: the `pa_source_output_ext_set_policy_group(sout,
group)` of source-output-ext.c, a file that is not among the sources. It
stores `group`, NULL for none, as the group back-reference of the stream. -/
def pa_source_output_ext_set_policy_group (h : host_state) (sout : pa_source_output)
    (group : Option String) : host_state :=
  { h with source_output_group := Function.update h.source_output_group sout group }

/-! ## Group operations (policy-group.c) -/

/-- The `enum pa_policy_route_class` of the move interface, declared in a
header that is not among the sources; every value other than the two routes
that policy-group.c names takes the `default:` branches. -/
inductive pa_policy_route_class where
  | pa_policy_route_unknown
  | pa_policy_route_to_sink
  | pa_policy_route_to_source
  deriving DecidableEq

/-- The union of `struct target`: NULL, a sink or a source. -/
inductive target_any where
  | null
  | sink (s : pa_sink)
  | source (s : pa_source)
  deriving DecidableEq

/-- The `struct target` of policy-group.c. -/
structure target where
  class_ : pa_policy_route_class
  any : target_any
  deriving DecidableEq

/-- Apply `f` to the group at position `pos` of the chain of bucket `idx`:
an assignment through a group pointer. -/
def groupset_modify (gset : pa_policy_groupset) (idx pos : Nat)
    (f : pa_policy_group → pa_policy_group) : pa_policy_groupset :=
  { gset with hash_tbl := Function.update gset.hash_tbl idx ((gset.hash_tbl idx).modify f pos) }

/-- The two passes of `pa_policy_groupset_update_default_sink` over the buckets
`0 .. PA_POLICY_GROUP_HASH_DIM - 1`: apply `f` to every group. -/
def groupset_map (bits : Nat) (gset : pa_policy_groupset)
    (f : pa_policy_group → pa_policy_group) : pa_policy_groupset :=
  { gset with
    hash_tbl := fun i =>
      if i < PA_POLICY_GROUP_HASH_DIM bits then (gset.hash_tbl i).map f else gset.hash_tbl i }

/-- The `pa_policy_groupset_update_default_sink` of policy-group.c. When
`defsink != NULL && defidx == idx`, every group with `sinpidx == defidx` loses
its sink and the shadow is cleared; then, when `defsink == NULL`, the host is
asked for its default sink, and if there is one it becomes the shadow and the
sink of every group whose sink is NULL. -/
def pa_policy_groupset_update_default_sink (bits : Nat) (core : pa_core)
    (u : policy_group_state) (idx : Nat) : policy_group_state :=
  let u1 : policy_group_state :=
    if u.defsink.isSome ∧ u.defidx = idx then
      { groups := groupset_map bits u.groups (fun group =>
          if group.sinpidx = u.defidx then
            { group with sink := none, sinpidx := PA_IDXSET_INVALID }
          else group),
        defsink := none, defidx := PA_IDXSET_INVALID }
    else u
  match u1.defsink with
  | some _ => u1
  | none =>
    match core.default_sink with
    | none => u1
    | some defsink =>
      { groups := groupset_map bits u1.groups (fun group =>
          match group.sink with
          | none => { group with sink := some defsink, sinpidx := defsink.index }
          | some _ => group),
        defsink := some defsink, defidx := defsink.index }

/-- The `pa_policy_groupset_create_default_group` of policy-group.c:
`gset->dflt = pa_policy_group_new(u, name, flags)` with the name
`PA_POLICY_DEFAULT_GROUP_NAME` and the flags `PA_POLICY_GROUP_FLAGS_CLIENT`,
two constants of headers that are not among the sources. -/
def pa_policy_groupset_create_default_group (bits : Nat) (PA_POLICY_DEFAULT_GROUP_NAME : String)
    (PA_POLICY_GROUP_FLAGS_CLIENT : Nat) (u : policy_group_state) : policy_group_state :=
  let r := pa_policy_group_new bits u PA_POLICY_DEFAULT_GROUP_NAME PA_POLICY_GROUP_FLAGS_CLIENT
  { r.1 with groups := { r.1.groups with dflt := some PA_POLICY_DEFAULT_GROUP_NAME } }

/-- The group pointer `find_group_by_name` returns, followed: the bucket, the
position in the chain and the group it points to; `none` for NULL. -/
def find_group (bits : Nat) (gset : pa_policy_groupset) (name : String) :
    Option (Nat × Nat × pa_policy_group) :=
  match find_group_by_name bits gset name with
  | (some pos, idx) => ((gset.hash_tbl idx).get? pos).map (fun group => (idx, pos, group))
  | (none, _) => none

/-- The first loop of `pa_policy_group_free` (deleting the default group):
the back-reference of every member is set to NULL and the node is freed. -/
def release_sink_inputs (h : host_state) : List pa_sink_input_list → host_state
  | [] => h
  | sil :: rest =>
    release_sink_inputs (pa_sink_input_ext_set_policy_group h sil.sink_input none) rest

/-- The loop of `pa_policy_group_free` over `group->soutls`. -/
def release_source_outputs (h : host_state) : List pa_source_output_list → host_state
  | [] => h
  | sol :: rest =>
    release_source_outputs (pa_source_output_ext_set_policy_group h sol.source_output none) rest

/-- The `next` links of the nodes of two membership lists before the
reparenting loop: the `n` nodes of the deleted group are the cells
`0 .. n-1`, the `m` nodes of the default group the cells `n .. n+m-1`; each
node points to the following cell of its list and the last node of each list
has a NULL link. -/
def sil_next_init (n m : Nat) (a : Nat) : Option Nat :=
  if a + 1 < n then some (a + 1)
  else if n ≤ a ∧ a + 1 < n + m then some (a + 1)
  else none

/-- The reparenting loop of `pa_policy_group_free`,
`for (sil = group->sinpls; sil; sil = sil->next)`, on the cells of the two
lists: the body sets the back-reference of the member to the default group's
name and, when `sil->next == NULL`, stores `dflt->sinpls` in `sil->next`.
`dflt->sinpls` does not change during the loop. Every iteration takes one unit
of `fuel`; the result is `none` when the loop has not ended after `fuel`
iterations. -/
def reparent_loop (cells : List pa_sink_input_list) (dnam : String)
    (dflt_sinpls : Option Nat) :
    Nat → Option Nat → (Nat → Option Nat) → host_state →
      Option ((Nat → Option Nat) × host_state)
  | _, none, next, h => some (next, h)
  | 0, some _, _, _ => none
  | fuel + 1, some a, next, h =>
    let h1 :=
      match cells.get? a with
      | some sil => pa_sink_input_ext_set_policy_group h sil.sink_input (some dnam)
      | none => h
    let next1 := if next a = none then Function.update next a dflt_sinpls else next
    reparent_loop cells dnam dflt_sinpls fuel (next1 a) next1 h1

/-- The membership list that starts at the cell `head` and follows the `next`
links to a NULL link, read for at most `fuel` nodes. -/
def sil_chain (cells : List pa_sink_input_list) (next : Nat → Option Nat) :
    Nat → Option Nat → List pa_sink_input_list
  | 0, _ => []
  | _, none => []
  | fuel + 1, some a =>
    match cells.get? a with
    | some sil => sil :: sil_chain cells next fuel (next a)
    | none => []

/-- The `pa_policy_group_free` of policy-group.c. A group found by name is
unlinked from its chain after its members are dealt with: when it has
sink-inputs and is the default group (`group == dflt`) they are released;
when it is another group they are handed to the reparenting loop and
`dflt->sinpls = group->sinpls` makes the relinked chain the default group's
list; its source-outputs are released. The result is `none` when the
reparenting loop has not ended after `fuel` iterations, and also when `dflt`
is followed although it is NULL or points to no group of the set. -/
def pa_policy_group_free (bits : Nat) (fuel : Nat) (u : policy_group_state) (h : host_state)
    (name : String) : Option (policy_group_state × host_state) :=
  match find_group bits u.groups name with
  | none => some (u, h)
  | some (idx, pos, group) =>
    let after_sinpls : Option (pa_policy_groupset × host_state) :=
      if group.sinpls = [] then some (u.groups, h)
      else if u.groups.dflt = some group.name then
        some (u.groups, release_sink_inputs h group.sinpls)
      else
        match u.groups.dflt with
        | none => none
        | some dptr =>
          match find_group bits u.groups dptr with
          | none => none
          | some (didx, dpos, dflt) =>
            let cells := group.sinpls ++ dflt.sinpls
            let dflt_sinpls : Option Nat :=
              if dflt.sinpls = [] then none else some group.sinpls.length
            match reparent_loop cells dflt.name dflt_sinpls fuel (some 0)
                (sil_next_init group.sinpls.length dflt.sinpls.length) h with
            | none => none
            | some (next, h1) =>
              some (groupset_modify u.groups didx dpos (fun d =>
                  { d with sinpls := sil_chain cells next cells.length (some 0) }), h1)
    match after_sinpls with
    | none => none
    | some (gset1, h1) =>
      let h2 := if group.soutls = [] then h1 else release_source_outputs h1 group.soutls
      some ({ u with
          groups := { gset1 with
            hash_tbl := Function.update gset1.hash_tbl idx
              ((gset1.hash_tbl idx).eraseIdx pos) } }, h2)

/-- The `pa_policy_group_find` of policy-group.c. -/
def pa_policy_group_find (bits : Nat) (u : policy_group_state) (name : String) :
    Option pa_policy_group :=
  (find_group bits u.groups name).map (fun r => r.2.2)

/-- The group selected by `pa_policy_group_insert_sink_input` and
`pa_policy_group_volume_limit`: `gset->dflt` for a NULL name, the group found
by name otherwise. The outer `none` stands for a `dflt` that points to no
group of the set, the inner one for a NULL group. -/
def group_or_dflt (bits : Nat) (gset : pa_policy_groupset) (name : Option String) :
    Option (Option (Nat × Nat × pa_policy_group)) :=
  match name with
  | none =>
    match gset.dflt with
    | none => some none
    | some dptr =>
      match find_group bits gset dptr with
      | some r => some (some r)
      | none => none
  | some n => some (find_group bits gset n)

/-- The `pa_policy_group_insert_sink_input` of policy-group.c. With a NULL
group nothing happens. Otherwise the back-reference of the stream is set, a
node is linked at the head of `sinpls`, and when the group has a sink the
stream is moved to it, corked when the group is corked, and given the group's
volume limit. The result is `none` when `dflt` is followed although it points
to no group of the set. -/
def pa_policy_group_insert_sink_input (bits : Nat) (u : policy_group_state) (h : host_state)
    (name : Option String) (si : pa_sink_input) : Option (policy_group_state × host_state) :=
  match group_or_dflt bits u.groups name with
  | none => none
  | some none => some (u, h)
  | some (some (idx, pos, group)) =>
    let h1 := pa_sink_input_ext_set_policy_group h si (some group.name)
    let sl : pa_sink_input_list := { index := si.index, sink_input := si }
    let gset1 := groupset_modify u.groups idx pos (fun g => { g with sinpls := sl :: g.sinpls })
    let h2 :=
      match group.sink with
      | none => h1
      | some sink =>
        let ha := host_call_made h1 (host_call.sink_input_move_to si (some sink))
        let hb :=
          if group.corked ≠ 0 then
            host_call_made ha (host_call.sink_input_cork si group.corked)
          else ha
        host_call_made hb (host_call.sink_input_set_volume_limit si group.limit)
    some ({ u with groups := gset1 }, h2)

/-- The loop of `pa_policy_group_remove_sink_input` over the groups of one
chain: the first node with `idx == sl->index` of the first group that has one
is unlinked; `none` when no group of the chain has such a node. -/
def remove_sink_input_chain (idx : Nat) : List pa_policy_group → Option (List pa_policy_group)
  | [] => none
  | group :: rest =>
    if group.sinpls.any (fun sl => decide (idx = sl.index)) then
      some ({ group with sinpls := group.sinpls.eraseP (fun sl => decide (idx = sl.index)) }
        :: rest)
    else (remove_sink_input_chain idx rest).map (fun chain => group :: chain)

/-- The scan of `pa_policy_group_remove_sink_input` over `n` buckets from
bucket `i` on, in the order of `pa_policy_group_scan`: bucket after bucket,
each chain from its head; it returns at the first node unlinked. -/
def remove_sink_input_scan (idx : Nat) (gset : pa_policy_groupset) :
    Nat → Nat → pa_policy_groupset
  | 0, _ => gset
  | n + 1, i =>
    match remove_sink_input_chain idx (gset.hash_tbl i) with
    | some chain => { gset with hash_tbl := Function.update gset.hash_tbl i chain }
    | none => remove_sink_input_scan idx gset n (i + 1)

/-- The `pa_policy_group_remove_sink_input` of policy-group.c. -/
def pa_policy_group_remove_sink_input (bits : Nat) (u : policy_group_state) (idx : Nat) :
    policy_group_state :=
  { u with groups := remove_sink_input_scan idx u.groups (PA_POLICY_GROUP_HASH_DIM bits) 0 }

/-- The `pa_policy_group_insert_source_output` of policy-group.c: the name is
asserted non-NULL, an unknown name does nothing, otherwise the back-reference
is set, a node is linked at the head of `soutls` and the stream is moved to
the group's source when there is one. -/
def pa_policy_group_insert_source_output (bits : Nat) (u : policy_group_state)
    (h : host_state) (name : String) (so : pa_source_output) :
    policy_group_state × host_state :=
  match find_group bits u.groups name with
  | none => (u, h)
  | some (idx, pos, group) =>
    let h1 := pa_source_output_ext_set_policy_group h so (some group.name)
    let sl : pa_source_output_list := { index := so.index, source_output := so }
    let gset1 := groupset_modify u.groups idx pos (fun g => { g with soutls := sl :: g.soutls })
    let h2 :=
      match group.source with
      | none => h1
      | some source =>
        host_call_made h1 (host_call.source_output_move_to so (some source))
    ({ u with groups := gset1 }, h2)

/-- The loop of `pa_policy_group_remove_source_output` over one chain. -/
def remove_source_output_chain (idx : Nat) :
    List pa_policy_group → Option (List pa_policy_group)
  | [] => none
  | group :: rest =>
    if group.soutls.any (fun sl => decide (idx = sl.index)) then
      some ({ group with soutls := group.soutls.eraseP (fun sl => decide (idx = sl.index)) }
        :: rest)
    else (remove_source_output_chain idx rest).map (fun chain => group :: chain)

/-- The scan of `pa_policy_group_remove_source_output` over `n` buckets from
bucket `i` on. -/
def remove_source_output_scan (idx : Nat) (gset : pa_policy_groupset) :
    Nat → Nat → pa_policy_groupset
  | 0, _ => gset
  | n + 1, i =>
    match remove_source_output_chain idx (gset.hash_tbl i) with
    | some chain => { gset with hash_tbl := Function.update gset.hash_tbl i chain }
    | none => remove_source_output_scan idx gset n (i + 1)

/-- The `pa_policy_group_remove_source_output` of policy-group.c. -/
def pa_policy_group_remove_source_output (bits : Nat) (u : policy_group_state) (idx : Nat) :
    policy_group_state :=
  { u with groups := remove_source_output_scan idx u.groups (PA_POLICY_GROUP_HASH_DIM bits) 0 }

/-- The `find_sink_by_type` of policy-group.c: the iteration over
`u->core->sinks` stops at the first sink that has a name and is of the type;
the loop variable is returned, which is NULL when the iteration ends. -/
def find_sink_by_type (core : pa_core) (type : String) : Option pa_sink :=
  core.sinks.find? (fun sink =>
    match sink.name with
    | some name => core.is_sink_typeof name type
    | none => false)

/-- The `find_source_by_type` of policy-group.c. -/
def find_source_by_type (core : pa_core) (type : String) : Option pa_source :=
  core.sources.find? (fun source =>
    match source.name with
    | some name => core.is_source_typeof name type
    | none => false)

/-- The loop of `move_group` over `group->sinpls` for `pa_policy_route_to_sink`:
every member is passed to `pa_sink_input_move_to` and a negative result sets
`ret = -1`. -/
def move_group_loop (core : pa_core) (sink : Option pa_sink) :
    List pa_sink_input_list → host_state → Int → host_state × Int
  | [], h, ret => (h, ret)
  | sil :: rest, h, ret =>
    move_group_loop core sink rest
      (host_call_made h (host_call.sink_input_move_to sil.sink_input sink))
      (if core.sink_input_move_to sil.sink_input sink < 0 then -1 else ret)

/-- The `move_group` of policy-group.c. Its local variable `sink` is passed to
`pa_sink_input_move_to` without ever being assigned; the parameter `sink` is
the value the variable happens to hold. For `pa_policy_route_to_source` the
function does nothing and returns 0, for any other class it returns -1. -/
def move_group (core : pa_core) (sink : Option pa_sink) (group : pa_policy_group)
    (target : target) (h : host_state) : host_state × Int :=
  match target.class_ with
  | pa_policy_route_class.pa_policy_route_to_sink => move_group_loop core sink group.sinpls h 0
  | pa_policy_route_class.pa_policy_route_to_source => (h, 0)
  | pa_policy_route_class.pa_policy_route_unknown => (h, -1)

/-- The assignment `grp->sink = target.sink` or `grp->source = target.source`
of `pa_policy_group_move_to`, chosen by `target_is_sink`. -/
def set_endpoint (target : target) (grp : pa_policy_group) : pa_policy_group :=
  match target.any with
  | target_any.sink s => { grp with sink := some s }
  | target_any.source s => { grp with source := some s }
  | target_any.null => grp

/-- The body of the move-all loop of `pa_policy_group_move_to` on the groups of
one chain, in chain order. -/
def move_all_chain (core : pa_core) ( PA_POLICY_GROUP_FLAG_ROUTE_AUDIO : Nat)
    (sink : Option pa_sink) (target : target) :
    List pa_policy_group → host_state → Int → List pa_policy_group × host_state × Int
  | [], h, ret => ([], h, ret)
  | grp :: rest, h, ret =>
    if grp.flags &&& PA_POLICY_GROUP_FLAG_ROUTE_AUDIO = 0 then
      let r := move_all_chain core PA_POLICY_GROUP_FLAG_ROUTE_AUDIO sink target rest h 0
      (grp :: r.1, r.2)
    else
      let m := move_group core sink grp target h
      if m.2 < 0 then
        let r := move_all_chain core PA_POLICY_GROUP_FLAG_ROUTE_AUDIO sink target rest m.1 (-1)
        (grp :: r.1, r.2)
      else
        let r := move_all_chain core PA_POLICY_GROUP_FLAG_ROUTE_AUDIO sink target rest m.1 ret
        (set_endpoint target grp :: r.1, r.2)

/-- The move-all loop of `pa_policy_group_move_to` over `n` buckets from bucket
`i` on, in the order of `pa_policy_group_scan`. -/
def move_all_scan (core : pa_core) ( PA_POLICY_GROUP_FLAG_ROUTE_AUDIO : Nat)
    (sink : Option pa_sink) (target : target) :
    Nat → Nat → pa_policy_groupset → host_state → Int → pa_policy_groupset × host_state × Int
  | 0, _, gset, h, ret => (gset, h, ret)
  | n + 1, i, gset, h, ret =>
    let r := move_all_chain core PA_POLICY_GROUP_FLAG_ROUTE_AUDIO sink target
      (gset.hash_tbl i) h ret
    move_all_scan core PA_POLICY_GROUP_FLAG_ROUTE_AUDIO sink target n (i + 1)
      { gset with hash_tbl := Function.update gset.hash_tbl i r.1 } r.2.1 r.2.2

/-- The `pa_policy_group_move_to` of policy-group.c. The target is the endpoint
found for the type; with a NULL target the function returns its initial
`ret = -1`. For a name, a group that is not found leaves `ret = -1`, a group
without `PA_POLICY_GROUP_FLAG_ROUTE_AUDIO` gives 0, and otherwise the result
of `move_group` is returned and the endpoint of the group is stored when that
result is `>= 0`. For a NULL name every group is visited. The parameter `sink`
is the value of the unassigned local variable of `move_group`. -/
def pa_policy_group_move_to (bits : Nat) (core : pa_core)
    ( PA_POLICY_GROUP_FLAG_ROUTE_AUDIO : Nat) (sink : Option pa_sink)
    (u : policy_group_state) (h : host_state) (name : Option String)
    (class_ : pa_policy_route_class) (type : String) :
    policy_group_state × host_state × Int :=
  let target : target :=
    { class_ := class_,
      any :=
        match class_ with
        | pa_policy_route_class.pa_policy_route_to_sink =>
          match find_sink_by_type core type with
          | some s => target_any.sink s
          | none => target_any.null
        | pa_policy_route_class.pa_policy_route_to_source =>
          match find_source_by_type core type with
          | some s => target_any.source s
          | none => target_any.null
        | pa_policy_route_class.pa_policy_route_unknown => target_any.null }
  if target.any = target_any.null then (u, h, -1)
  else
    match name with
    | some n =>
      match find_group bits u.groups n with
      | none => (u, h, -1)
      | some (idx, pos, grp) =>
        if grp.flags &&& PA_POLICY_GROUP_FLAG_ROUTE_AUDIO = 0 then (u, h, 0)
        else
          let m := move_group core sink grp target h
          if m.2 ≥ 0 then
            ({ u with groups := groupset_modify u.groups idx pos (set_endpoint target) },
              m.1, m.2)
          else (u, m.1, m.2)
    | none =>
      let r := move_all_scan core PA_POLICY_GROUP_FLAG_ROUTE_AUDIO sink target
        (PA_POLICY_GROUP_HASH_DIM bits) 0 u.groups h 0
      ({ u with groups := r.1 }, r.2.1, r.2.2)

/-- The `cork_group` of policy-group.c: `pa_sink_input_cork` for every member,
in list order; it returns 0. -/
def cork_group (corked : Int) : List pa_sink_input_list → host_state → host_state
  | [], h => h
  | sl :: rest, h =>
    cork_group corked rest (host_call_made h (host_call.sink_input_cork sl.sink_input corked))

/-- The `pa_policy_group_cork` of policy-group.c: -1 for an unknown group, 0
without any effect for a group without `PA_POLICY_GROUP_FLAG_CORK_STREAM`,
otherwise `grp->corked = corked` and the result of `cork_group`. -/
def pa_policy_group_cork (bits : Nat) (PA_POLICY_GROUP_FLAG_CORK_STREAM : Nat)
    (u : policy_group_state) (h : host_state) (name : String) (corked : Int) :
    policy_group_state × host_state × Int :=
  match find_group bits u.groups name with
  | none => (u, h, -1)
  | some (idx, pos, grp) =>
    if grp.flags &&& PA_POLICY_GROUP_FLAG_CORK_STREAM = 0 then (u, h, 0)
    else
      ({ u with groups := groupset_modify u.groups idx pos (fun g => { g with corked := corked }) },
        cork_group corked grp.sinpls h, 0)

/-- The loop of `volset_group` over the members: the limit is pushed to every
member in list order, and a negative result sets `ret = -1`. -/
def volset_loop (core : pa_core) (limit : Nat) :
    List pa_sink_input_list → host_state → Int → host_state × Int
  | [], h, ret => (h, ret)
  | sl :: rest, h, ret =>
    volset_loop core limit rest
      (host_call_made h (host_call.sink_input_set_volume_limit sl.sink_input limit))
      (if core.sink_input_set_volume_limit sl.sink_input limit < 0 then -1 else ret)

/-- The value `((limit > 100 ? 100 : limit) * PA_VOLUME_NORM) / 100` of
`volset_group` in 32-bit unsigned arithmetic. -/
def volset_limit (limit : Nat) : Nat :=
  ((if limit > 100 then 100 else limit) * PA_VOLUME_NORM) % 2 ^ 32 / 100

/-- The `volset_group` of policy-group.c: when the scaled limit differs from
`group->limit` it is stored and pushed to every member. The result is the
group, the host and `ret`. -/
def volset_group (core : pa_core) (group : pa_policy_group) (limit : Nat) (h : host_state) :
    pa_policy_group × host_state × Int :=
  let limit1 := volset_limit limit
  if limit1 ≠ group.limit then
    let r := volset_loop core limit1 group.sinpls h 0
    ({ group with limit := limit1 }, r.1, r.2)
  else (group, h, 0)

/-- The `pa_policy_group_volume_limit` of policy-group.c: -1 for a NULL group,
0 without any effect for a group without `PA_POLICY_GROUP_FLAG_LIMIT_VOLUME`,
otherwise the result of `volset_group`. The result is `none` when `dflt` is
followed although it points to no group of the set. -/
def pa_policy_group_volume_limit (bits : Nat) (core : pa_core)
    (PA_POLICY_GROUP_FLAG_LIMIT_VOLUME : Nat) (u : policy_group_state) (h : host_state)
    (name : Option String) (limit : Nat) : Option (policy_group_state × host_state × Int) :=
  match group_or_dflt bits u.groups name with
  | none => none
  | some none => some (u, h, -1)
  | some (some (idx, pos, group)) =>
    if group.flags &&& PA_POLICY_GROUP_FLAG_LIMIT_VOLUME = 0 then some (u, h, 0)
    else
      let r := volset_group core group limit h
      some ({ u with groups := groupset_modify u.groups idx pos (fun _ => r.1) }, r.2.1, r.2.2)

/-! ## Auxiliary definitions for the device, card and group proofs -/

/-- The rule entries of a device array: the entries before the first one with
a NULL `type`, which are the entries the loops of classify.c visit. -/
def device_rules (defs : List pa_classify_device_def) : List pa_classify_device_def :=
  defs.takeWhile (fun d => d.type.isSome)

/-- The test under which `devices_classify` emits the type of a rule: the
method fires on the subject `get_property` selects and
`(flags & flag_mask) == flag_value`. -/
def devices_rule_emits (proplist : Option pa_proplist) (name : Option String)
    (flag_mask flag_value : Nat) (d : pa_classify_device_def) : Bool :=
  method_call d.method (some (get_property d.prop proplist name)) d.arg &&
    decide (d.data.flags &&& flag_mask = flag_value)

/-- The types of exactly those rules that pass `devices_rule_emits`, in the
order of the array. -/
def devices_emitted (defs : List pa_classify_device_def) (proplist : Option pa_proplist)
    (name : Option String) (flag_mask flag_value : Nat) : List String :=
  ((device_rules defs).filter (devices_rule_emits proplist name flag_mask flag_value)).filterMap
    (fun d => d.type)

/-- The rule entries of a card array. -/
def card_rules (defs : List pa_classify_card_def) : List pa_classify_card_def :=
  defs.takeWhile (fun d => d.type.isSome)

/-- The test under which `cards_classify` emits the type of a rule. -/
def cards_rule_emits (name : Option String) (profiles : List String)
    (flag_mask flag_value : Nat) (d : pa_classify_card_def) : Bool :=
  method_call d.method name d.arg &&
    ((match d.data.profile with
      | none => true
      | some prof => cards_supports_profile prof profiles) &&
      decide (d.data.flags &&& flag_mask = flag_value))

/-- The types of exactly those card rules that pass `cards_rule_emits`, in the
order of the array. -/
def cards_emitted (defs : List pa_classify_card_def) (name : Option String)
    (profiles : List String) (flag_mask flag_value : Nat) : List String :=
  ((card_rules defs).filter (cards_rule_emits name profiles flag_mask flag_value)).filterMap
    (fun d => d.type)

/-- The classification loops reduced to the tags they emit: every tag goes
through `snprintf_tag` and the overflow test. -/
def emit_tags (len : Nat) : List String → String → Nat → String → String × Nat
  | [], buf, p, _ => (buf, p)
  | t :: rest, buf, p, s =>
    let r := snprintf_tag buf p len s t
    if r.2 > len then ("", len) else emit_tags len rest r.1 r.2 " "

/-- Well-formedness of a device table: the array has an entry at `ndef`, which
is the sentinel, and the `ndef` entries before it are rules. -/
def devices_wf (devs : pa_classify_device) : Prop :=
  devs.ndef < devs.defs.length ∧
    (∀ i d, i < devs.ndef → devs.defs.get? i = some d → d.type ≠ none) ∧
    (∀ d, devs.defs.get? devs.ndef = some d → d.type = none)

/-- Well-formedness of a card table. -/
def cards_wf (cards : pa_classify_card) : Prop :=
  cards.ndef < cards.defs.length ∧
    (∀ i d, i < cards.ndef → cards.defs.get? i = some d → d.type ≠ none) ∧
    (∀ d, cards.defs.get? cards.ndef = some d → d.type = none)

/-- The behaviour under `regexec` of the compiled POSIX expression `^lit$` for
a literal `lit` without special characters: a match is reported for the subject
`lit` only, it spans the whole subject and no sub-expression takes part. -/
def regex_anchored_literal (lit : String) : regex_t :=
  { regexec := fun s =>
      if s = lit then
        some (fun i => if i = 0 then { rm_so := 0, rm_eo := (strlen lit : Int) }
          else { rm_so := -1, rm_eo := -1 })
      else none }

/-- The fold of the specification of the group hash, `h <- 38501 * (h + c)`
from 0 over the byte values, in unbounded arithmetic. -/
def hash_fold_spec (bytes : List Nat) : Nat :=
  bytes.foldl (fun h c => 38501 * (h + c)) 0

/-- Well-formedness of a group set: every group sits in the bucket of its name
and no chain holds two groups with the same name. -/
def pa_policy_groupset_wf (bits : Nat) (gset : pa_policy_groupset) : Prop :=
  ∀ i : Nat, (∀ g ∈ gset.hash_tbl i, hash_value bits (some g.name) = i) ∧
    (gset.hash_tbl i).Pairwise (fun a b => a.name ≠ b.name)

/-- The number of bytes the tags add to the buffer when the first one is
written after the separator `s` and the others after a space. -/
def tags_span (s : String) : List String → Nat
  | [] => 0
  | t :: rest => strlen s + strlen t + tags_span " " rest

/-! ## Objects of the examples -/

/-- The earpiece sink of the examples. -/
def example_earpiece : pa_sink := { index := 1, name := some "earpiece" }

/-- The loudspeaker sink of the examples, the only endpoint of type `ihf`. -/
def example_ihf : pa_sink := { index := 2, name := some "ihf0" }

/-- A host for the examples: two sinks, no source, the earpiece as default
sink; every host call succeeds except the move of the sink-input 12. -/
def example_core : pa_core :=
  { sinks := [example_earpiece, example_ihf], sources := [],
    default_sink := some example_earpiece,
    sink_input_move_to := fun si _ => if si.index = 12 then -1 else 0,
    source_output_move_to := fun _ _ => 0,
    sink_input_set_volume_limit := fun _ _ => 0,
    is_sink_typeof := fun name type => decide (name = "ihf0" ∧ type = "ihf"),
    is_source_typeof := fun _ _ => false }

/-- A store for the examples, with 64 buckets and the flag bits 2 (route), 4
(volume limit) and 8 (cork): the default group `othermedia`, the group `music`
with all three flags and the group `ring` with none. -/
def example_store : policy_group_state :=
  (pa_policy_group_new 6
    (pa_policy_group_new 6
      (pa_policy_groupset_create_default_group 6 "othermedia" 14 pa_policy_groupset_new)
      "music" 14).1
    "ring" 0).1

/-- The example store after the sink-inputs 12, 11 and 10 were inserted into
the group `music`, in this order, on a host without calls: the membership list
of `music` is 10, 11, 12. -/
def example_bound : policy_group_state × host_state :=
  ((pa_policy_group_insert_sink_input 6 example_store host_state_new (some "music")
      { index := 12 }).bind fun a =>
    (pa_policy_group_insert_sink_input 6 a.1 a.2 (some "music") { index := 11 }).bind fun b =>
      pa_policy_group_insert_sink_input 6 b.1 b.2 (some "music") { index := 10 }).getD
    (example_store, host_state_new)

/-- The example store with the sink-input 12 in the default group and, in the
group `music`, the sink-input 10 and the source-output 20. -/
def example_reparent : policy_group_state × host_state :=
  ((pa_policy_group_insert_sink_input 6 example_store host_state_new none
      { index := 12 }).bind fun a =>
    (pa_policy_group_insert_sink_input 6 a.1 a.2 (some "music") { index := 10 }).map fun b =>
      pa_policy_group_insert_source_output 6 b.1 b.2 "music" { index := 20 }).getD
    (example_store, host_state_new)

/-- The example store with the sink-input 12 in the default group and the
sink-inputs 10 and 11, in list order, in the group `music`. -/
def example_splice : policy_group_state × host_state :=
  ((pa_policy_group_insert_sink_input 6 example_store host_state_new none
      { index := 12 }).bind fun a =>
    (pa_policy_group_insert_sink_input 6 a.1 a.2 (some "music") { index := 11 }).bind fun b =>
      pa_policy_group_insert_sink_input 6 b.1 b.2 (some "music") { index := 10 }).getD
    (example_store, host_state_new)

/-! ## Auxiliary definitions for the membership proofs -/

/-- Membership and back-reference agree: every stream in a membership list of
a group has that group's name as its back-reference. -/
def membership_agrees (gset : pa_policy_groupset) (h : host_state) : Prop :=
  ∀ i : Nat, ∀ g ∈ gset.hash_tbl i,
    (∀ sl ∈ g.sinpls, h.sink_input_group sl.sink_input = some g.name) ∧
      (∀ sl ∈ g.soutls, h.source_output_group sl.source_output = some g.name)

/-- The host after the back-reference of every member of a list was set to
the name `dnam`, in list order: the effect of a reparenting loop that ends
with the list. -/
def reparent_host (dnam : String) (h : host_state) : List pa_sink_input_list → host_state
  | [] => h
  | sil :: rest =>
    reparent_host dnam (pa_sink_input_ext_set_policy_group h sil.sink_input (some dnam)) rest

/-- The states of the group store and of the host that the operations on
groups and members reach from the empty group set, when a stream is inserted
only while it is in no membership list: `pa_policy_groupset_new`,
`pa_policy_groupset_create_default_group`, `pa_policy_group_new`,
`pa_policy_group_free` (when it returns), the two insertions and the two
removals. -/
inductive policy_group_reachable (bits : Nat) (PA_POLICY_DEFAULT_GROUP_NAME : String)
    (PA_POLICY_GROUP_FLAGS_CLIENT : Nat) : policy_group_state → host_state → Prop where
  | new (h : host_state) :
    policy_group_reachable bits PA_POLICY_DEFAULT_GROUP_NAME PA_POLICY_GROUP_FLAGS_CLIENT
      pa_policy_groupset_new h
  | create_default_group (u : policy_group_state) (h : host_state) :
    policy_group_reachable bits PA_POLICY_DEFAULT_GROUP_NAME PA_POLICY_GROUP_FLAGS_CLIENT u h →
    policy_group_reachable bits PA_POLICY_DEFAULT_GROUP_NAME PA_POLICY_GROUP_FLAGS_CLIENT
      (pa_policy_groupset_create_default_group bits PA_POLICY_DEFAULT_GROUP_NAME
        PA_POLICY_GROUP_FLAGS_CLIENT u) h
  | create_group (u : policy_group_state) (h : host_state) (name : String) (flags : Nat) :
    policy_group_reachable bits PA_POLICY_DEFAULT_GROUP_NAME PA_POLICY_GROUP_FLAGS_CLIENT u h →
    policy_group_reachable bits PA_POLICY_DEFAULT_GROUP_NAME PA_POLICY_GROUP_FLAGS_CLIENT
      (pa_policy_group_new bits u name flags).1 h
  | delete_group (u : policy_group_state) (h : host_state) (fuel : Nat) (name : String)
      (u1 : policy_group_state) (h1 : host_state) :
    policy_group_reachable bits PA_POLICY_DEFAULT_GROUP_NAME PA_POLICY_GROUP_FLAGS_CLIENT u h →
    pa_policy_group_free bits fuel u h name = some (u1, h1) →
    policy_group_reachable bits PA_POLICY_DEFAULT_GROUP_NAME PA_POLICY_GROUP_FLAGS_CLIENT u1 h1
  | insert_sink_input (u : policy_group_state) (h : host_state) (name : Option String)
      (si : pa_sink_input) (u1 : policy_group_state) (h1 : host_state) :
    policy_group_reachable bits PA_POLICY_DEFAULT_GROUP_NAME PA_POLICY_GROUP_FLAGS_CLIENT u h →
    (∀ i : Nat, ∀ g ∈ u.groups.hash_tbl i, ∀ sl ∈ g.sinpls, sl.sink_input ≠ si) →
    pa_policy_group_insert_sink_input bits u h name si = some (u1, h1) →
    policy_group_reachable bits PA_POLICY_DEFAULT_GROUP_NAME PA_POLICY_GROUP_FLAGS_CLIENT u1 h1
  | insert_source_output (u : policy_group_state) (h : host_state) (name : String)
      (so : pa_source_output) :
    policy_group_reachable bits PA_POLICY_DEFAULT_GROUP_NAME PA_POLICY_GROUP_FLAGS_CLIENT u h →
    (∀ i : Nat, ∀ g ∈ u.groups.hash_tbl i, ∀ sl ∈ g.soutls, sl.source_output ≠ so) →
    policy_group_reachable bits PA_POLICY_DEFAULT_GROUP_NAME PA_POLICY_GROUP_FLAGS_CLIENT
      (pa_policy_group_insert_source_output bits u h name so).1
      (pa_policy_group_insert_source_output bits u h name so).2
  | remove_sink_input (u : policy_group_state) (h : host_state) (idx : Nat) :
    policy_group_reachable bits PA_POLICY_DEFAULT_GROUP_NAME PA_POLICY_GROUP_FLAGS_CLIENT u h →
    policy_group_reachable bits PA_POLICY_DEFAULT_GROUP_NAME PA_POLICY_GROUP_FLAGS_CLIENT
      (pa_policy_group_remove_sink_input bits u idx) h
  | remove_source_output (u : policy_group_state) (h : host_state) (idx : Nat) :
    policy_group_reachable bits PA_POLICY_DEFAULT_GROUP_NAME PA_POLICY_GROUP_FLAGS_CLIENT u h →
    policy_group_reachable bits PA_POLICY_DEFAULT_GROUP_NAME PA_POLICY_GROUP_FLAGS_CLIENT
      (pa_policy_group_remove_source_output bits u idx) h

/-- A group after members were unlinked from its lists: the name is the same
and every member was a member before. -/
def group_shrunk (g2 g : pa_policy_group) : Prop :=
  g2.name = g.name ∧ (∀ sl ∈ g2.sinpls, sl ∈ g.sinpls) ∧ (∀ sl ∈ g2.soutls, sl ∈ g.soutls)

/-! ## Objects of the examples for the moves and the default sink -/

/-- The example store with the sink-inputs 13 and 12, in list order, in the
default group and the sink-input 10 in the group `music`. -/
def example_cycle : policy_group_state × host_state :=
  ((pa_policy_group_insert_sink_input 6 example_store host_state_new none
      { index := 12 }).bind fun a =>
    (pa_policy_group_insert_sink_input 6 a.1 a.2 none { index := 13 }).bind fun b =>
      pa_policy_group_insert_sink_input 6 b.1 b.2 (some "music") { index := 10 }).getD
    (example_store, host_state_new)

/-- The microphone source of the examples, the only endpoint of type `mic`. -/
def example_mic : pa_source := { index := 3, name := some "mic0" }

/-- The example host with the microphone as its only source. -/
def example_capture_core : pa_core :=
  { example_core with
    sources := [example_mic],
    is_source_typeof := fun name type => decide (name = "mic0" ∧ type = "mic") }

/-- A store whose shadow of the default sink is the earpiece, index 1, after a
first notification on the empty group set, with the group `music` (all three
flags) created afterwards: its sink is the earpiece and its `sinpidx` is 1. -/
def example_shadow : policy_group_state :=
  (pa_policy_group_new 6
    (pa_policy_groupset_update_default_sink 6 example_core pa_policy_groupset_new 0)
    "music" 14).1

/-- The store of `example_bound`, in which the group `music` holds the
sink-inputs 10, 11, 12, with one more group `game` without any flag; the scan
visits `ring`, `othermedia`, `music`, `game` in this order. -/
def example_move_all : policy_group_state × host_state :=
  ((pa_policy_group_new 6 example_bound.1 "game" 0).1, example_bound.2)

/-- The store of `example_shadow` with the sink-input 10 inserted into `music`,
and then `music` moved to the loudspeaker by `pa_policy_group_move_to`; the
host moves the stream, the status is 0 and the sink of `music` is the
loudspeaker. -/
def example_routed : policy_group_state × host_state × Int :=
  let a := (pa_policy_group_insert_sink_input 6 example_shadow host_state_new (some "music")
    { index := 10 }).getD (example_shadow, host_state_new)
  pa_policy_group_move_to 6 example_core 2 (some example_ihf) a.1 a.2 (some "music")
    pa_policy_route_class.pa_policy_route_to_sink "ihf"

/-! ## Auxiliary definitions for the default-sink invariant -/

/-- A group after an operation, compared with the group it was: the sink is
the same, or there is a sink. -/
def sink_kept (g2 g : pa_policy_group) : Prop :=
  g2.sink = g.sink ∨ g2.sink.isSome = true

/-- Every group of the table `tbl2` comes from a group of the same bucket of
`tbl` and kept its sink or has one. -/
def sinks_kept (tbl2 tbl : Nat → List pa_policy_group) : Prop :=
  ∀ i : Nat, ∀ g2 ∈ tbl2 i, ∃ g ∈ tbl i, sink_kept g2 g

/-- Every group sits in one of the buckets `0 .. PA_POLICY_GROUP_HASH_DIM - 1`,
and while the shadow `defsink` of the default sink is set every group has a
sink. -/
def groups_bound (bits : Nat) (u : policy_group_state) : Prop :=
  ∀ i : Nat, ∀ g ∈ u.groups.hash_tbl i,
    i < PA_POLICY_GROUP_HASH_DIM bits ∧ (u.defsink.isSome = true → g.sink.isSome = true)

/-- The states of the group store and of the host that the public functions
of policy-group.c reach from the initial state, the empty group set with an
empty shadow of the default sink. Every step has its own host answers
`core`, and every move its own value `sink` of the unassigned variable of
`move_group`; `pa_policy_group_free`, `pa_policy_group_insert_sink_input`
and `pa_policy_group_volume_limit` make a step when they have a result. -/
inductive policy_store_reachable (bits : Nat) (PA_POLICY_DEFAULT_GROUP_NAME : String)
    (PA_POLICY_GROUP_FLAGS_CLIENT : Nat) ( PA_POLICY_GROUP_FLAG_ROUTE_AUDIO : Nat)
    (PA_POLICY_GROUP_FLAG_LIMIT_VOLUME : Nat) (PA_POLICY_GROUP_FLAG_CORK_STREAM : Nat) :
    policy_group_state → host_state → Prop where
  | new (h : host_state) :
    policy_store_reachable bits PA_POLICY_DEFAULT_GROUP_NAME PA_POLICY_GROUP_FLAGS_CLIENT
      PA_POLICY_GROUP_FLAG_ROUTE_AUDIO PA_POLICY_GROUP_FLAG_LIMIT_VOLUME
      PA_POLICY_GROUP_FLAG_CORK_STREAM pa_policy_groupset_new h
  | update_default_sink (core : pa_core) (u : policy_group_state) (h : host_state)
      (idx : Nat) :
    policy_store_reachable bits PA_POLICY_DEFAULT_GROUP_NAME PA_POLICY_GROUP_FLAGS_CLIENT
      PA_POLICY_GROUP_FLAG_ROUTE_AUDIO PA_POLICY_GROUP_FLAG_LIMIT_VOLUME
      PA_POLICY_GROUP_FLAG_CORK_STREAM u h →
    policy_store_reachable bits PA_POLICY_DEFAULT_GROUP_NAME PA_POLICY_GROUP_FLAGS_CLIENT
      PA_POLICY_GROUP_FLAG_ROUTE_AUDIO PA_POLICY_GROUP_FLAG_LIMIT_VOLUME
      PA_POLICY_GROUP_FLAG_CORK_STREAM
      (pa_policy_groupset_update_default_sink bits core u idx) h
  | create_default_group (u : policy_group_state) (h : host_state) :
    policy_store_reachable bits PA_POLICY_DEFAULT_GROUP_NAME PA_POLICY_GROUP_FLAGS_CLIENT
      PA_POLICY_GROUP_FLAG_ROUTE_AUDIO PA_POLICY_GROUP_FLAG_LIMIT_VOLUME
      PA_POLICY_GROUP_FLAG_CORK_STREAM u h →
    policy_store_reachable bits PA_POLICY_DEFAULT_GROUP_NAME PA_POLICY_GROUP_FLAGS_CLIENT
      PA_POLICY_GROUP_FLAG_ROUTE_AUDIO PA_POLICY_GROUP_FLAG_LIMIT_VOLUME
      PA_POLICY_GROUP_FLAG_CORK_STREAM
      (pa_policy_groupset_create_default_group bits PA_POLICY_DEFAULT_GROUP_NAME
        PA_POLICY_GROUP_FLAGS_CLIENT u) h
  | create_group (u : policy_group_state) (h : host_state) (name : String) (flags : Nat) :
    policy_store_reachable bits PA_POLICY_DEFAULT_GROUP_NAME PA_POLICY_GROUP_FLAGS_CLIENT
      PA_POLICY_GROUP_FLAG_ROUTE_AUDIO PA_POLICY_GROUP_FLAG_LIMIT_VOLUME
      PA_POLICY_GROUP_FLAG_CORK_STREAM u h →
    policy_store_reachable bits PA_POLICY_DEFAULT_GROUP_NAME PA_POLICY_GROUP_FLAGS_CLIENT
      PA_POLICY_GROUP_FLAG_ROUTE_AUDIO PA_POLICY_GROUP_FLAG_LIMIT_VOLUME
      PA_POLICY_GROUP_FLAG_CORK_STREAM (pa_policy_group_new bits u name flags).1 h
  | delete_group (u : policy_group_state) (h : host_state) (fuel : Nat) (name : String)
      (u1 : policy_group_state) (h1 : host_state) :
    policy_store_reachable bits PA_POLICY_DEFAULT_GROUP_NAME PA_POLICY_GROUP_FLAGS_CLIENT
      PA_POLICY_GROUP_FLAG_ROUTE_AUDIO PA_POLICY_GROUP_FLAG_LIMIT_VOLUME
      PA_POLICY_GROUP_FLAG_CORK_STREAM u h →
    pa_policy_group_free bits fuel u h name = some (u1, h1) →
    policy_store_reachable bits PA_POLICY_DEFAULT_GROUP_NAME PA_POLICY_GROUP_FLAGS_CLIENT
      PA_POLICY_GROUP_FLAG_ROUTE_AUDIO PA_POLICY_GROUP_FLAG_LIMIT_VOLUME
      PA_POLICY_GROUP_FLAG_CORK_STREAM u1 h1
  | move_to (core : pa_core) (sink : Option pa_sink) (u : policy_group_state)
      (h : host_state) (name : Option String) (class_ : pa_policy_route_class)
      (type : String) :
    policy_store_reachable bits PA_POLICY_DEFAULT_GROUP_NAME PA_POLICY_GROUP_FLAGS_CLIENT
      PA_POLICY_GROUP_FLAG_ROUTE_AUDIO PA_POLICY_GROUP_FLAG_LIMIT_VOLUME
      PA_POLICY_GROUP_FLAG_CORK_STREAM u h →
    policy_store_reachable bits PA_POLICY_DEFAULT_GROUP_NAME PA_POLICY_GROUP_FLAGS_CLIENT
      PA_POLICY_GROUP_FLAG_ROUTE_AUDIO PA_POLICY_GROUP_FLAG_LIMIT_VOLUME
      PA_POLICY_GROUP_FLAG_CORK_STREAM
      (pa_policy_group_move_to bits core PA_POLICY_GROUP_FLAG_ROUTE_AUDIO sink u h name
        class_ type).1
      (pa_policy_group_move_to bits core PA_POLICY_GROUP_FLAG_ROUTE_AUDIO sink u h name
        class_ type).2.1
  | insert_sink_input (u : policy_group_state) (h : host_state) (name : Option String)
      (si : pa_sink_input) (u1 : policy_group_state) (h1 : host_state) :
    policy_store_reachable bits PA_POLICY_DEFAULT_GROUP_NAME PA_POLICY_GROUP_FLAGS_CLIENT
      PA_POLICY_GROUP_FLAG_ROUTE_AUDIO PA_POLICY_GROUP_FLAG_LIMIT_VOLUME
      PA_POLICY_GROUP_FLAG_CORK_STREAM u h →
    pa_policy_group_insert_sink_input bits u h name si = some (u1, h1) →
    policy_store_reachable bits PA_POLICY_DEFAULT_GROUP_NAME PA_POLICY_GROUP_FLAGS_CLIENT
      PA_POLICY_GROUP_FLAG_ROUTE_AUDIO PA_POLICY_GROUP_FLAG_LIMIT_VOLUME
      PA_POLICY_GROUP_FLAG_CORK_STREAM u1 h1
  | insert_source_output (u : policy_group_state) (h : host_state) (name : String)
      (so : pa_source_output) :
    policy_store_reachable bits PA_POLICY_DEFAULT_GROUP_NAME PA_POLICY_GROUP_FLAGS_CLIENT
      PA_POLICY_GROUP_FLAG_ROUTE_AUDIO PA_POLICY_GROUP_FLAG_LIMIT_VOLUME
      PA_POLICY_GROUP_FLAG_CORK_STREAM u h →
    policy_store_reachable bits PA_POLICY_DEFAULT_GROUP_NAME PA_POLICY_GROUP_FLAGS_CLIENT
      PA_POLICY_GROUP_FLAG_ROUTE_AUDIO PA_POLICY_GROUP_FLAG_LIMIT_VOLUME
      PA_POLICY_GROUP_FLAG_CORK_STREAM
      (pa_policy_group_insert_source_output bits u h name so).1
      (pa_policy_group_insert_source_output bits u h name so).2
  | remove_sink_input (u : policy_group_state) (h : host_state) (idx : Nat) :
    policy_store_reachable bits PA_POLICY_DEFAULT_GROUP_NAME PA_POLICY_GROUP_FLAGS_CLIENT
      PA_POLICY_GROUP_FLAG_ROUTE_AUDIO PA_POLICY_GROUP_FLAG_LIMIT_VOLUME
      PA_POLICY_GROUP_FLAG_CORK_STREAM u h →
    policy_store_reachable bits PA_POLICY_DEFAULT_GROUP_NAME PA_POLICY_GROUP_FLAGS_CLIENT
      PA_POLICY_GROUP_FLAG_ROUTE_AUDIO PA_POLICY_GROUP_FLAG_LIMIT_VOLUME
      PA_POLICY_GROUP_FLAG_CORK_STREAM (pa_policy_group_remove_sink_input bits u idx) h
  | remove_source_output (u : policy_group_state) (h : host_state) (idx : Nat) :
    policy_store_reachable bits PA_POLICY_DEFAULT_GROUP_NAME PA_POLICY_GROUP_FLAGS_CLIENT
      PA_POLICY_GROUP_FLAG_ROUTE_AUDIO PA_POLICY_GROUP_FLAG_LIMIT_VOLUME
      PA_POLICY_GROUP_FLAG_CORK_STREAM u h →
    policy_store_reachable bits PA_POLICY_DEFAULT_GROUP_NAME PA_POLICY_GROUP_FLAGS_CLIENT
      PA_POLICY_GROUP_FLAG_ROUTE_AUDIO PA_POLICY_GROUP_FLAG_LIMIT_VOLUME
      PA_POLICY_GROUP_FLAG_CORK_STREAM (pa_policy_group_remove_source_output bits u idx) h
  | cork (u : policy_group_state) (h : host_state) (name : String) (corked : Int) :
    policy_store_reachable bits PA_POLICY_DEFAULT_GROUP_NAME PA_POLICY_GROUP_FLAGS_CLIENT
      PA_POLICY_GROUP_FLAG_ROUTE_AUDIO PA_POLICY_GROUP_FLAG_LIMIT_VOLUME
      PA_POLICY_GROUP_FLAG_CORK_STREAM u h →
    policy_store_reachable bits PA_POLICY_DEFAULT_GROUP_NAME PA_POLICY_GROUP_FLAGS_CLIENT
      PA_POLICY_GROUP_FLAG_ROUTE_AUDIO PA_POLICY_GROUP_FLAG_LIMIT_VOLUME
      PA_POLICY_GROUP_FLAG_CORK_STREAM
      (pa_policy_group_cork bits PA_POLICY_GROUP_FLAG_CORK_STREAM u h name corked).1
      (pa_policy_group_cork bits PA_POLICY_GROUP_FLAG_CORK_STREAM u h name corked).2.1
  | volume_limit (core : pa_core) (u : policy_group_state) (h : host_state)
      (name : Option String) (limit : Nat) (u1 : policy_group_state) (h1 : host_state)
      (ret : Int) :
    policy_store_reachable bits PA_POLICY_DEFAULT_GROUP_NAME PA_POLICY_GROUP_FLAGS_CLIENT
      PA_POLICY_GROUP_FLAG_ROUTE_AUDIO PA_POLICY_GROUP_FLAG_LIMIT_VOLUME
      PA_POLICY_GROUP_FLAG_CORK_STREAM u h →
    pa_policy_group_volume_limit bits core PA_POLICY_GROUP_FLAG_LIMIT_VOLUME u h name limit =
      some (u1, h1, ret) →
    policy_store_reachable bits PA_POLICY_DEFAULT_GROUP_NAME PA_POLICY_GROUP_FLAGS_CLIENT
      PA_POLICY_GROUP_FLAG_ROUTE_AUDIO PA_POLICY_GROUP_FLAG_LIMIT_VOLUME
      PA_POLICY_GROUP_FLAG_CORK_STREAM u1 h1

/-! ## Lemmas on lists -/

theorem first_index_eq_none {α : Type} (p : α → Bool) (l : List α) :
    first_index p l = none ↔ ∀ x ∈ l, p x = false := by
  induction l with
  | nil => simp [first_index]
  | cons x rest ih =>
    by_cases hx : p x = true
    · simp [first_index, hx]
    · simp [first_index, hx, ih]

theorem first_index_get {α β : Type} (p : α → Bool) (f : α → β) (l : List α) :
    (match first_index p l with
      | none => none
      | some i => (l.get? i).map f) = (l.find? p).map f := by
  induction l with
  | nil => simp [first_index]
  | cons x rest ih =>
    by_cases hx : p x = true
    · simp [first_index, hx]
    · simp only [first_index, hx, List.find?_cons]
      rw [← ih]
      cases first_index p rest <;> simp

theorem update_or_append_nil {α : Type} (p : α → Bool) (f : α → α) (new : α) :
    update_or_append p f new [] = [new] := by
  simp [update_or_append, first_index]

theorem update_or_append_cons {α : Type} (p : α → Bool) (f : α → α) (new x : α)
    (l : List α) :
    update_or_append p f new (x :: l) =
      if p x then f x :: l else x :: update_or_append p f new l := by
  by_cases hx : p x = true
  · simp [update_or_append, first_index, hx]
  · simp only [update_or_append, first_index, hx]
    cases first_index p l <;> simp

theorem first_index_erase {α : Type} (p : α → Bool) (l : List α) :
    (match first_index p l with
      | some i => l.eraseIdx i
      | none => l) = l.eraseP p := by
  induction l with
  | nil => simp [first_index]
  | cons x rest ih =>
    by_cases hx : p x = true
    · simp [first_index, hx]
    · simp only [first_index, hx]
      rw [List.eraseP_cons, ← ih]
      cases first_index p rest <;> simp [hx]

theorem mem_update_or_append {α : Type} (p : α → Bool) (f : α → α) (new : α) (l : List α)
    (y : α) (hy : y ∈ update_or_append p f new l) :
    y ∈ l ∨ (∃ z ∈ l, p z = true ∧ y = f z) ∨ ((∀ x ∈ l, p x = false) ∧ y = new) := by
  induction l with
  | nil =>
    rw [update_or_append_nil] at hy
    exact Or.inr (Or.inr ⟨by simp, List.mem_singleton.mp hy⟩)
  | cons x rest ih =>
    rw [update_or_append_cons] at hy
    by_cases hx : p x = true
    · rw [if_pos hx] at hy
      rcases List.mem_cons.mp hy with hyx | hyr
      · exact Or.inr (Or.inl ⟨x, by simp, hx, hyx⟩)
      · exact Or.inl (by simp [hyr])
    · rw [if_neg hx] at hy
      rcases List.mem_cons.mp hy with hyx | hyr
      · exact Or.inl (by simp [hyx])
      · rcases ih hyr with h | ⟨z, hz, hpz, hyz⟩ | ⟨hall, hnew⟩
        · exact Or.inl (by simp [h])
        · exact Or.inr (Or.inl ⟨z, by simp [hz], hpz, hyz⟩)
        · refine Or.inr (Or.inr ⟨?_, hnew⟩)
          intro w hw
          rcases List.mem_cons.mp hw with h | h
          · rw [h]; simpa using hx
          · exact hall w h

theorem find_update_or_append_self {α : Type} (p : α → Bool) (f : α → α) (new : α)
    (l : List α) (hnew : p new = true) (hf : ∀ x, p x = true → p (f x) = true) :
    (update_or_append p f new l).find? p =
      some (match l.find? p with
        | some x => f x
        | none => new) := by
  induction l with
  | nil => simp [update_or_append_nil, hnew]
  | cons x rest ih =>
    rw [update_or_append_cons]
    by_cases hx : p x = true
    · simp [hx, hf x hx]
    · simp [hx, ih]

theorem find_update_or_append_other {α : Type} (p q : α → Bool) (f : α → α) (new : α)
    (l : List α) (hnew : q new = false)
    (hpq : ∀ x, p x = true → q x = false ∧ q (f x) = false) :
    (update_or_append p f new l).find? q = l.find? q := by
  induction l with
  | nil => simp [update_or_append_nil, hnew]
  | cons x rest ih =>
    rw [update_or_append_cons]
    by_cases hx : p x = true
    · simp [hx, (hpq x hx).1, (hpq x hx).2]
    · rw [if_neg hx, List.find?_cons, List.find?_cons, ih]

theorem update_or_append_twice {α : Type} (p : α → Bool) (f f2 : α → α) (new new2 : α)
    (l : List α) (hnew : p new = true) (hf : ∀ x, p x = true → p (f x) = true)
    (hff : ∀ x, f2 (f x) = f2 x) (hfn : f2 new = new2) :
    update_or_append p f2 new2 (update_or_append p f new l) = update_or_append p f2 new2 l := by
  induction l with
  | nil => simp [update_or_append_nil, update_or_append_cons, hnew, hfn]
  | cons x rest ih =>
    by_cases hx : p x = true
    · simp [update_or_append_cons, hx, hf x hx, hff]
    · simp [update_or_append_cons, hx, ih]

theorem length_update_or_append_of_find {α : Type} (p : α → Bool) (f : α → α) (new : α)
    (l : List α) (x : α) (hx : l.find? p = some x) :
    (update_or_append p f new l).length = l.length := by
  induction l with
  | nil => simp at hx
  | cons y rest ih =>
    rw [update_or_append_cons]
    by_cases hy : p y = true
    · simp [hy]
    · simp only [hy, List.length_cons]
      simp only [List.find?_cons, hy] at hx
      simp [ih hx]

theorem pairwise_update_or_append {α : Type} (R : α → α → Prop) (p : α → Bool) (f : α → α)
    (new : α) (l : List α) (hl : l.Pairwise R)
    (hf1 : ∀ x y, R x y → R (f x) y) (hf2 : ∀ x y, R x y → R x (f y))
    (hnew : ∀ x, p x = false → R x new) :
    (update_or_append p f new l).Pairwise R := by
  induction l with
  | nil => simp [update_or_append_nil]
  | cons x rest ih =>
    rw [update_or_append_cons]
    rw [List.pairwise_cons] at hl
    by_cases hx : p x = true
    · simp only [hx, if_true, List.pairwise_cons]
      exact ⟨fun y hy => hf1 x y (hl.1 y hy), hl.2⟩
    · rw [if_neg hx, List.pairwise_cons]
      refine ⟨?_, ih hl.2⟩
      intro y hy
      rcases mem_update_or_append p f new rest y hy with h | ⟨z, hz, _, hyz⟩ | ⟨_, hyn⟩
      · exact hl.1 y h
      · rw [hyz]; exact hf2 x z (hl.1 z hz)
      · rw [hyn]; exact hnew x (by simpa using hx)

theorem find_eraseP_other {α : Type} (p q : α → Bool) (l : List α)
    (hpq : ∀ x, p x = true → q x = false) :
    (l.eraseP p).find? q = l.find? q := by
  induction l with
  | nil => simp
  | cons x rest ih =>
    rw [List.eraseP_cons]
    by_cases hx : p x = true
    · simp [hx, hpq x hx]
    · have hx2 : p x = false := by simpa using hx
      rw [hx2, cond_false, List.find?_cons, List.find?_cons, ih]

theorem find_eraseP_self {α : Type} (p : α → Bool) (l : List α)
    (hl : l.Pairwise (fun a b => ¬ (p a = true ∧ p b = true))) :
    (l.eraseP p).find? p = none := by
  induction l with
  | nil => simp
  | cons x rest ih =>
    rw [List.eraseP_cons]
    rw [List.pairwise_cons] at hl
    by_cases hx : p x = true
    · simp only [hx, if_true]
      rw [List.find?_eq_none]
      intro y hy hpy
      exact hl.1 y hy ⟨hx, hpy⟩
    · simp [hx, ih hl.2]

theorem find_of_mem_pairwise {α : Type} (p : α → Bool) (l : List α) (e : α)
    (hl : l.Pairwise (fun a b => ¬ (p a = true ∧ p b = true))) (he : e ∈ l)
    (hp : p e = true) : l.find? p = some e := by
  induction l with
  | nil => simp at he
  | cons x rest ih =>
    rw [List.pairwise_cons] at hl
    rcases List.mem_cons.mp he with hex | her
    · rw [← hex]; simp [hp]
    · by_cases hx : p x = true
      · exact absurd ⟨hx, hp⟩ (hl.1 e her)
      · rw [List.find?_cons]
        have hx2 : p x = false := by simpa using hx
        rw [hx2]
        exact ih hl.2 her

/-! ## Lemmas on the PID registry -/

theorem pid_hash_key_eq_iff (pid : Int) (s : Option String) (st : pa_classify_pid_hash) :
    pid_hash_key_eq pid s st = true ↔ pid ≠ 0 ∧ pid = st.pid ∧ s = st.stnam := by
  rcases st with ⟨p, n, g⟩
  cases s <;> cases n <;> simp [pid_hash_key_eq, and_assoc]

theorem pid_hash_find_loop_eq (pid : Int) (s : Option String)
    (chain : List pa_classify_pid_hash) :
    pid_hash_find_loop pid s chain = first_index (pid_hash_key_eq pid s) chain := by
  induction chain with
  | nil => rfl
  | cons x rest ih => simp [pid_hash_find_loop, first_index, ih]

theorem pid_hash_insert_eq (bits : Nat) (hash : pid_hash_table) (pid : Int)
    (s : Option String) (g : String) :
    pid_hash_insert bits hash pid s g =
      Function.update hash (pid_hash_idx bits pid)
        (update_or_append (pid_hash_key_eq pid s) (fun st => { st with group := g })
          { pid := pid, stnam := s, group := g } (hash (pid_hash_idx bits pid))) := by
  simp only [pid_hash_insert, pid_hash_find, pid_hash_find_loop_eq, update_or_append]
  cases first_index (pid_hash_key_eq pid s) (hash (pid_hash_idx bits pid)) <;> rfl

theorem pid_hash_remove_eq (bits : Nat) (hash : pid_hash_table) (pid : Int)
    (s : Option String) :
    pid_hash_remove bits hash pid s =
      Function.update hash (pid_hash_idx bits pid)
        ((hash (pid_hash_idx bits pid)).eraseP (pid_hash_key_eq pid s)) := by
  rw [← first_index_erase]
  simp only [pid_hash_remove, pid_hash_find, pid_hash_find_loop_eq]
  cases first_index (pid_hash_key_eq pid s) (hash (pid_hash_idx bits pid)) <;> simp

theorem pid_hash_get_group_eq (bits : Nat) (hash : pid_hash_table) (pid : Int)
    (s : Option String) :
    pid_hash_get_group bits hash pid s =
      ((hash (pid_hash_idx bits pid)).find? (pid_hash_key_eq pid s)).map (fun st => st.group) := by
  unfold pid_hash_get_group
  by_cases h0 : pid = 0
  · rw [if_pos h0]
    have hnone : (hash (pid_hash_idx bits pid)).find? (pid_hash_key_eq pid s) = none := by
      rw [List.find?_eq_none]
      intro x _ hx
      exact ((pid_hash_key_eq_iff pid s x).mp hx).1 h0
    rw [hnone]; rfl
  · rw [if_neg h0]
    simp only [pid_hash_find, pid_hash_find_loop_eq]
    exact first_index_get _ _ _

theorem pid_hash_get_group_insert_self (bits : Nat) (hash : pid_hash_table) (pid : Int)
    (s : Option String) (g : String) (hpid : pid ≠ 0) :
    pid_hash_get_group bits (pid_hash_insert bits hash pid s g) pid s = some g := by
  rw [pid_hash_get_group_eq, pid_hash_insert_eq, Function.update_same,
    find_update_or_append_self]
  · cases (hash (pid_hash_idx bits pid)).find? (pid_hash_key_eq pid s) <;> rfl
  · exact (pid_hash_key_eq_iff pid s _).mpr ⟨hpid, rfl, rfl⟩
  · intro x hx
    have h := (pid_hash_key_eq_iff pid s x).mp hx
    exact (pid_hash_key_eq_iff pid s _).mpr ⟨h.1, h.2.1, h.2.2⟩

theorem pid_hash_get_group_insert_other (bits : Nat) (hash : pid_hash_table)
    (pid pid2 : Int) (s s2 : Option String) (g : String) (hne : pid ≠ pid2 ∨ s ≠ s2) :
    pid_hash_get_group bits (pid_hash_insert bits hash pid s g) pid2 s2 =
      pid_hash_get_group bits hash pid2 s2 := by
  rw [pid_hash_get_group_eq, pid_hash_get_group_eq, pid_hash_insert_eq]
  by_cases hi : pid_hash_idx bits pid2 = pid_hash_idx bits pid
  · rw [hi, Function.update_same, find_update_or_append_other]
    · cases hq : pid_hash_key_eq pid2 s2 { pid := pid, stnam := s, group := g }
      · rfl
      · have h := (pid_hash_key_eq_iff pid2 s2 _).mp hq
        rcases hne with h1 | h1
        · exact absurd h.2.1.symm h1
        · exact absurd h.2.2.symm h1
    · intro x hx
      have h := (pid_hash_key_eq_iff pid s x).mp hx
      have hk : ∀ y : pa_classify_pid_hash, y.pid = x.pid → y.stnam = x.stnam →
          pid_hash_key_eq pid2 s2 y = false := by
        intro y hy1 hy2
        cases hq : pid_hash_key_eq pid2 s2 y
        · rfl
        · have h2 := (pid_hash_key_eq_iff pid2 s2 y).mp hq
          rcases hne with h1 | h1
          · exact absurd (h.2.1.trans (hy1.symm.trans h2.2.1.symm)) h1
          · exact absurd (h.2.2.trans (hy2.symm.trans h2.2.2.symm)) h1
      exact ⟨hk x rfl rfl, hk _ rfl rfl⟩
  · rw [Function.update_noteq hi]

theorem pid_hash_get_group_remove_other (bits : Nat) (hash : pid_hash_table)
    (pid pid2 : Int) (s s2 : Option String) (hne : pid ≠ pid2 ∨ s ≠ s2) :
    pid_hash_get_group bits (pid_hash_remove bits hash pid s) pid2 s2 =
      pid_hash_get_group bits hash pid2 s2 := by
  rw [pid_hash_get_group_eq, pid_hash_get_group_eq, pid_hash_remove_eq]
  by_cases hi : pid_hash_idx bits pid2 = pid_hash_idx bits pid
  · rw [hi, Function.update_same, find_eraseP_other]
    intro x hx
    have h := (pid_hash_key_eq_iff pid s x).mp hx
    cases hq : pid_hash_key_eq pid2 s2 x
    · rfl
    · have h2 := (pid_hash_key_eq_iff pid2 s2 x).mp hq
      rcases hne with h1 | h1
      · exact absurd (h.2.1.trans h2.2.1.symm) h1
      · exact absurd (h.2.2.trans h2.2.2.symm) h1
  · rw [Function.update_noteq hi]

theorem pid_hash_key_ne_imp (pid : Int) (s : Option String) (a b : pa_classify_pid_hash)
    (h : pid_hash_key_ne a b) :
    ¬ (pid_hash_key_eq pid s a = true ∧ pid_hash_key_eq pid s b = true) := by
  rintro ⟨ha, hb⟩
  have h1 := (pid_hash_key_eq_iff pid s a).mp ha
  have h2 := (pid_hash_key_eq_iff pid s b).mp hb
  exact h ⟨h1.2.1.symm.trans h2.2.1, h1.2.2.symm.trans h2.2.2⟩

theorem pid_hash_get_group_remove_self (bits : Nat) (hash : pid_hash_table) (pid : Int)
    (s : Option String) (hwf : pid_hash_wf bits hash) :
    pid_hash_get_group bits (pid_hash_remove bits hash pid s) pid s = none := by
  rw [pid_hash_get_group_eq, pid_hash_remove_eq, Function.update_same, find_eraseP_self]
  · rfl
  · exact (hwf (pid_hash_idx bits pid)).2.imp (fun {a b} h => pid_hash_key_ne_imp pid s a b h)

theorem pid_hash_remove_of_not_found (bits : Nat) (hash : pid_hash_table) (pid : Int)
    (s : Option String) (h : pid_hash_get_group bits hash pid s = none) :
    pid_hash_remove bits hash pid s = hash := by
  rw [pid_hash_get_group_eq] at h
  rw [pid_hash_remove_eq, List.eraseP_of_forall_not, Function.update_eq_self]
  intro x hx hpx
  have hnone : (hash (pid_hash_idx bits pid)).find? (pid_hash_key_eq pid s) = none := by
    cases hf : (hash (pid_hash_idx bits pid)).find? (pid_hash_key_eq pid s)
    · rfl
    · rw [hf] at h; simp at h
  rw [List.find?_eq_none] at hnone
  exact hnone x hx hpx

theorem pid_hash_wf_insert (bits : Nat) (hash : pid_hash_table) (pid : Int)
    (s : Option String) (g : String) (hpid : pid ≠ 0) (hwf : pid_hash_wf bits hash) :
    pid_hash_wf bits (pid_hash_insert bits hash pid s g) := by
  intro i
  rw [pid_hash_insert_eq]
  by_cases hi : i = pid_hash_idx bits pid
  · rw [hi, Function.update_same]
    constructor
    · intro e he
      rcases mem_update_or_append _ _ _ _ e he with h | ⟨z, hz, _, hez⟩ | ⟨_, hen⟩
      · exact (hwf _).1 e h
      · rw [hez]; exact (hwf _).1 z hz
      · rw [hen]; exact ⟨hpid, rfl⟩
    · apply pairwise_update_or_append _ _ _ _ _ (hwf _).2
      · intro x y hxy; exact hxy
      · intro x y hxy; exact hxy
      · intro x hx hk
        have : pid_hash_key_eq pid s x = true :=
          (pid_hash_key_eq_iff pid s x).mpr ⟨hpid, hk.1.symm, hk.2.symm⟩
        rw [hx] at this
        exact Bool.noConfusion this
  · rw [Function.update_noteq hi]
    exact hwf i

theorem pid_hash_wf_remove (bits : Nat) (hash : pid_hash_table) (pid : Int)
    (s : Option String) (hwf : pid_hash_wf bits hash) :
    pid_hash_wf bits (pid_hash_remove bits hash pid s) := by
  intro i
  rw [pid_hash_remove_eq]
  by_cases hi : i = pid_hash_idx bits pid
  · rw [hi, Function.update_same]
    exact ⟨fun e he => (hwf _).1 e (List.mem_of_mem_eraseP he),
      (hwf _).2.sublist (List.eraseP_sublist _)⟩
  · rw [Function.update_noteq hi]
    exact hwf i

theorem pa_classify_add_stream_pid_hash (regcomp : String → Option regex_t)
    (accepts : String → String → Bool) (c c2 : pa_classify) (prop : Option String)
    (method : pa_classify_method) (arg clnam : Option String) (uid : Nat)
    (exe group : Option String)
    (h : pa_classify_add_stream regcomp accepts c prop method arg clnam uid exe group = some c2) :
    c2.streams.pid_hash = c.streams.pid_hash := by
  unfold pa_classify_add_stream at h
  cases group with
  | none => simp only [Option.some.injEq] at h; rw [← h]
  | some g =>
    simp only at h
    split at h
    · rw [Option.map_eq_some'] at h
      obtain ⟨defs, _, hc⟩ := h
      rw [← hc]
    · simp only [Option.some.injEq] at h; rw [← h]

theorem pid_hash_wf_of_reachable (regcomp : String → Option regex_t)
    (accepts : String → String → Bool) (bits : Nat) (c : pa_classify)
    (hr : pa_classify_reachable regcomp accepts bits c) :
    pid_hash_wf bits c.streams.pid_hash := by
  induction hr with
  | new =>
    intro i
    simp [pa_classify_new]
  | add_stream c c2 prop method arg clnam uid exe group _ hadd ih =>
    rw [pa_classify_add_stream_pid_hash regcomp accepts c c2 prop method arg clnam uid exe
      group hadd]
    exact ih
  | register_pid c pid stnam group _ ih =>
    unfold pa_classify_register_pid
    cases group with
    | none => exact ih
    | some g =>
      by_cases hp : pid = 0
      · simp only [hp, ne_eq, not_true_eq_false, if_false]; exact ih
      · simp only [ne_eq, hp, not_false_eq_true, if_true]
        exact pid_hash_wf_insert bits _ pid stnam g hp ih
  | unregister_pid c pid stnam _ ih =>
    unfold pa_classify_unregister_pid
    by_cases hp : pid = 0
    · simp only [hp, ne_eq, not_true_eq_false, if_false]; exact ih
    · simp only [ne_eq, hp, not_false_eq_true, if_true]
      exact pid_hash_wf_remove bits _ pid stnam ih

theorem register_pid_pid_hash (bits : Nat) (c : pa_classify) (pid : Int)
    (s : Option String) (g : String) (hpid : pid ≠ 0) :
    (pa_classify_register_pid bits c pid s (some g)).streams.pid_hash =
      pid_hash_insert bits c.streams.pid_hash pid s g := by
  simp [pa_classify_register_pid, hpid]

theorem unregister_pid_pid_hash (bits : Nat) (c : pa_classify) (pid : Int)
    (s : Option String) (hpid : pid ≠ 0) :
    (pa_classify_unregister_pid bits c pid s).streams.pid_hash =
      pid_hash_remove bits c.streams.pid_hash pid s := by
  simp [pa_classify_unregister_pid, hpid]

theorem pid_hash_get_group_zero (bits : Nat) (hash : pid_hash_table) (s : Option String) :
    pid_hash_get_group bits hash 0 s = none := by
  simp [pid_hash_get_group]

/-! ## The PID registry: claims C4 to C8 -/

/-- C6 (as stated, refuted): registering pid 0 is ignored by the guard
`pid && group` of `pa_classify_register_pid`, so the look-up of pid 0 after
`register_pid(0, NULL, "call")` reports no group. -/
theorem register_pid_zero_not_found :
    pid_hash_get_group 6
      (pa_classify_register_pid 6 pa_classify_new 0 none (some "call")).streams.pid_hash
      0 none ≠ some "call" := by
  decide

/-- C6 (amended): for every non-zero pid `P`, stream-name `s` (possibly
absent), groups `g`, `g2` and prior state, the look-up of `(P, s)` after
`register_pid(P, s, g)` returns `g`; registering `(P, s)` again with `g2` gives
the very state that registering it with `g2` alone gives (the group is
overwritten, no second node is linked: the chain keeps its length) and the
look-up then returns `g2`. -/
theorem register_pid_lookup (bits : Nat) (c : pa_classify) (P : Int) (s : Option String)
    (g g2 : String) (hP : P ≠ 0) :
    pid_hash_get_group bits
        (pa_classify_register_pid bits c P s (some g)).streams.pid_hash P s = some g ∧
      pa_classify_register_pid bits (pa_classify_register_pid bits c P s (some g)) P s (some g2)
        = pa_classify_register_pid bits c P s (some g2) ∧
      pid_hash_get_group bits
        (pa_classify_register_pid bits (pa_classify_register_pid bits c P s (some g)) P s
          (some g2)).streams.pid_hash P s = some g2 ∧
      ((pa_classify_register_pid bits (pa_classify_register_pid bits c P s (some g)) P s
          (some g2)).streams.pid_hash (pid_hash_idx bits P)).length =
        ((pa_classify_register_pid bits c P s (some g)).streams.pid_hash
          (pid_hash_idx bits P)).length := by
  have hself : ∀ (c0 : pa_classify) (g0 : String),
      pid_hash_get_group bits
        (pa_classify_register_pid bits c0 P s (some g0)).streams.pid_hash P s = some g0 := by
    intro c0 g0
    rw [register_pid_pid_hash bits c0 P s g0 hP]
    exact pid_hash_get_group_insert_self bits _ P s g0 hP
  have htwice : pa_classify_register_pid bits (pa_classify_register_pid bits c P s (some g))
      P s (some g2) = pa_classify_register_pid bits c P s (some g2) := by
    simp only [pa_classify_register_pid, ne_eq, hP, not_false_eq_true, if_true,
      pid_hash_insert_eq, Function.update_same, Function.update_idem]
    rw [update_or_append_twice]
    · exact (pid_hash_key_eq_iff P s _).mpr ⟨hP, rfl, rfl⟩
    · intro x hx
      have h := (pid_hash_key_eq_iff P s x).mp hx
      exact (pid_hash_key_eq_iff P s _).mpr ⟨h.1, h.2.1, h.2.2⟩
    · intro x; rfl
    · rfl
  refine ⟨hself c g, htwice, hself _ g2, ?_⟩
  have hfound := hself c g
  rw [pid_hash_get_group_eq] at hfound
  cases hf : ((pa_classify_register_pid bits c P s (some g)).streams.pid_hash
      (pid_hash_idx bits P)).find? (pid_hash_key_eq P s) with
  | none => rw [hf] at hfound; simp at hfound
  | some x =>
    rw [register_pid_pid_hash bits _ P s g2 hP, pid_hash_insert_eq, Function.update_same]
    exact length_update_or_append_of_find _ _ _ _ x hf

theorem register_pid_lookup_witness :
    (1234 : Int) ≠ 0 ∧
      pid_hash_get_group 6
        (pa_classify_register_pid 6
          (pa_classify_register_pid 6 pa_classify_new 1234 (some "ring") (some "call"))
          1234 (some "ring") (some "alarm")).streams.pid_hash 1234 (some "ring")
        = some "alarm" :=
  ⟨by decide,
    (register_pid_lookup 6 pa_classify_new 1234 (some "ring") "call" "alarm" (by decide)).2.2.1⟩

/-- C7: in every state reachable through the public operations, the look-up of
`(P, s)` after `unregister_pid(P, s)` returns no group (no second node with the
key survives), and `unregister_pid` of a key whose look-up reports no group
returns the state unchanged. -/
theorem unregister_pid_lookup (regcomp : String → Option regex_t)
    (accepts : String → String → Bool) (bits : Nat) (c : pa_classify)
    (hr : pa_classify_reachable regcomp accepts bits c) (P : Int) (s : Option String) :
    pid_hash_get_group bits (pa_classify_unregister_pid bits c P s).streams.pid_hash P s = none ∧
      (pid_hash_get_group bits c.streams.pid_hash P s = none →
        pa_classify_unregister_pid bits c P s = c) := by
  have hwf := pid_hash_wf_of_reachable regcomp accepts bits c hr
  by_cases hP : P = 0
  · subst hP
    exact ⟨pid_hash_get_group_zero bits _ s, fun _ => by simp [pa_classify_unregister_pid]⟩
  · constructor
    · rw [unregister_pid_pid_hash bits c P s hP]
      exact pid_hash_get_group_remove_self bits _ P s hwf
    · intro hnone
      simp only [pa_classify_unregister_pid, ne_eq, hP, not_false_eq_true, if_true]
      rw [pid_hash_remove_of_not_found bits _ P s hnone]

theorem unregister_pid_lookup_witness :
    pa_classify_reachable (fun _ => none) (fun _ _ => true) 6
        (pa_classify_register_pid 6 pa_classify_new 1234 none (some "call")) ∧
      pid_hash_get_group 6
        (pa_classify_unregister_pid 6
          (pa_classify_register_pid 6 pa_classify_new 1234 none (some "call"))
          1234 none).streams.pid_hash 1234 none = none ∧
      pa_classify_unregister_pid 6
          (pa_classify_register_pid 6 pa_classify_new 1234 none (some "call"))
          1234 (some "ring") =
        pa_classify_register_pid 6 pa_classify_new 1234 none (some "call") :=
  ⟨pa_classify_reachable.register_pid pa_classify_new 1234 none (some "call")
      pa_classify_reachable.new,
    (unregister_pid_lookup (fun _ => none) (fun _ _ => true) 6
      (pa_classify_register_pid 6 pa_classify_new 1234 none (some "call"))
      (pa_classify_reachable.register_pid pa_classify_new 1234 none (some "call")
        pa_classify_reachable.new)
      1234 none).1,
    (unregister_pid_lookup (fun _ => none) (fun _ _ => true) 6
      (pa_classify_register_pid 6 pa_classify_new 1234 none (some "call"))
      (pa_classify_reachable.register_pid pa_classify_new 1234 none (some "call")
        pa_classify_reachable.new)
      1234 (some "ring")).2 (by decide)⟩

/-- C8: registry entries are independent per key. For keys `(P, s)` and
`(P2, s2)` that differ in the pid or in the stream-name (absent against
present, or different strings), neither `register_pid(P, s, group)` nor
`unregister_pid(P, s)` changes the look-up of `(P2, s2)`, whether or not the
pids share a bucket; so after registering both keys (non-zero pids) each
look-up returns its own group. -/
theorem pid_registry_frame (bits : Nat) (c : pa_classify) (P P2 : Int)
    (s s2 : Option String) (group : Option String) (hne : P ≠ P2 ∨ s ≠ s2) :
    pid_hash_get_group bits (pa_classify_register_pid bits c P s group).streams.pid_hash P2 s2
        = pid_hash_get_group bits c.streams.pid_hash P2 s2 ∧
      pid_hash_get_group bits (pa_classify_unregister_pid bits c P s).streams.pid_hash P2 s2
        = pid_hash_get_group bits c.streams.pid_hash P2 s2 ∧
      (∀ g g2 : String, P ≠ 0 → P2 ≠ 0 →
        pid_hash_get_group bits
            (pa_classify_register_pid bits (pa_classify_register_pid bits c P s (some g))
              P2 s2 (some g2)).streams.pid_hash P s = some g ∧
          pid_hash_get_group bits
            (pa_classify_register_pid bits (pa_classify_register_pid bits c P s (some g))
              P2 s2 (some g2)).streams.pid_hash P2 s2 = some g2) := by
  have hreg : ∀ (c0 : pa_classify) (Q Q2 : Int) (t t2 : Option String) (gr : Option String),
      (Q ≠ Q2 ∨ t ≠ t2) →
      pid_hash_get_group bits (pa_classify_register_pid bits c0 Q t gr).streams.pid_hash Q2 t2
        = pid_hash_get_group bits c0.streams.pid_hash Q2 t2 := by
    intro c0 Q Q2 t t2 gr hd
    cases gr with
    | none => rfl
    | some g0 =>
      by_cases hQ : Q = 0
      · simp [pa_classify_register_pid, hQ]
      · rw [register_pid_pid_hash bits c0 Q t g0 hQ]
        exact pid_hash_get_group_insert_other bits _ Q Q2 t t2 g0 hd
  refine ⟨hreg c P P2 s s2 group hne, ?_, ?_⟩
  · by_cases hP : P = 0
    · simp [pa_classify_unregister_pid, hP]
    · rw [unregister_pid_pid_hash bits c P s hP]
      exact pid_hash_get_group_remove_other bits _ P P2 s s2 hne
  · intro g g2 hP hP2
    constructor
    · rw [hreg _ P2 P s2 s (some g2) (hne.imp (fun h => Ne.symm h) (fun h => Ne.symm h)),
        register_pid_pid_hash bits c P s g hP]
      exact pid_hash_get_group_insert_self bits _ P s g hP
    · rw [register_pid_pid_hash bits _ P2 s2 g2 hP2]
      exact pid_hash_get_group_insert_self bits _ P2 s2 g2 hP2

theorem pid_registry_frame_witness :
    ((1234 : Int) ≠ 1234 ∨ (none : Option String) ≠ some "ring") ∧
      pid_hash_get_group 6
          (pa_classify_register_pid 6
            (pa_classify_register_pid 6 pa_classify_new 1234 (some "ring") (some "alarm"))
            1234 none (some "call")).streams.pid_hash 1234 (some "ring")
        = pid_hash_get_group 6
          (pa_classify_register_pid 6 pa_classify_new 1234 (some "ring")
            (some "alarm")).streams.pid_hash 1234 (some "ring") :=
  ⟨Or.inr (by decide),
    (pid_registry_frame 6
      (pa_classify_register_pid 6 pa_classify_new 1234 (some "ring") (some "alarm"))
      1234 1234 none (some "ring") (some "call") (Or.inr (by decide))).1⟩

/-- C4: the PID registry overrides the stream rules. In every reachable state
(whatever rules were added), if some chain of the registry holds a node with
pid `P`, stream-name `s` and group `g`, then every stream whose client has pid
`P` and whose property list gives `media.name = s` (absent when `s` is)
classifies as `g`, whatever the client's name, uid and exe. -/
theorem find_group_registry_override (regcomp : String → Option regex_t)
    (accepts : String → String → Bool) (bits : Nat) (dflt : String) (c : pa_classify)
    (hr : pa_classify_reachable regcomp accepts bits c) (client : pa_client)
    (proplist : Option pa_proplist) (i : Nat) (e : pa_classify_pid_hash)
    (he : e ∈ c.streams.pid_hash i) (hpid : e.pid = client.pid)
    (hs : e.stnam = stream_media_name proplist) :
    find_group_for_client dflt bits c (some client) proplist = some e.group := by
  have hwf := pid_hash_wf_of_reachable regcomp accepts bits c hr
  have hi := (hwf i).1 e he
  have hkey : pid_hash_key_eq client.pid (stream_media_name proplist) e = true :=
    (pid_hash_key_eq_iff _ _ e).mpr ⟨hpid ▸ hi.1, hpid.symm, hs.symm⟩
  have hfind : (c.streams.pid_hash (pid_hash_idx bits client.pid)).find?
      (pid_hash_key_eq client.pid (stream_media_name proplist)) = some e := by
    apply find_of_mem_pairwise
    · exact (hwf _).2.imp (fun {a b} h => pid_hash_key_ne_imp _ _ a b h)
    · rw [← hpid, hi.2]; exact he
    · exact hkey
  have hget : pid_hash_get_group bits c.streams.pid_hash client.pid
      (stream_media_name proplist) = some e.group := by
    rw [pid_hash_get_group_eq, hfind]; rfl
  unfold find_group_for_client
  unfold stream_media_name at hget
  simp only [hget]

theorem find_group_registry_override_witness :
    find_group_for_client "default" 6
        (pa_classify_register_pid 6 pa_classify_new 1234 (some "ring") (some "alarm"))
        (some { pid := 1234, name := some "phone", uid := 1000, exe := some "/usr/bin/phone",
                arg0 := none })
        (some [("media.name", "ring")]) = some "alarm" :=
  find_group_registry_override (fun _ => none) (fun _ _ => true) 6 "default"
    (pa_classify_register_pid 6 pa_classify_new 1234 (some "ring") (some "alarm"))
    (pa_classify_reachable.register_pid pa_classify_new 1234 (some "ring") (some "alarm")
      pa_classify_reachable.new)
    { pid := 1234, name := some "phone", uid := 1000, exe := some "/usr/bin/phone",
      arg0 := none }
    (some [("media.name", "ring")]) (pid_hash_idx 6 1234)
    { pid := 1234, stnam := some "ring", group := "alarm" }
    (by decide) rfl (by decide)

/-- C5 (as stated, refuted): after `register_pid(1234, NULL, "call")` a stream
of a client with pid 1234 whose property list has a `media.name` is looked up
under that name, misses the node registered without a stream-name, and with no
rule installed classifies as the default group, not as `"call"`. -/
theorem register_pid_null_name_not_wildcard :
    find_group_for_client "default" 6
        (pa_classify_register_pid 6 pa_classify_new 1234 none (some "call"))
        (some { pid := 1234, name := some "phone", uid := 1000, exe := some "/usr/bin/phone",
                arg0 := none })
        (some [("media.name", "ring")]) = some "default" := by
  decide

/-- C5 (amended): after registering a non-zero pid `P` with absent stream-name
and group `g`, every stream whose client has pid `P` and whose property list
has no `media.name` (or that has no property list) classifies as `g`, whatever
its other properties, the rules installed and the client's name, uid and
exe. -/
theorem register_pid_without_stream_name (bits : Nat) (dflt : String) (c : pa_classify)
    (P : Int) (g : String) (client : pa_client) (proplist : Option pa_proplist)
    (hP : P ≠ 0) (hpid : client.pid = P) (hs : stream_media_name proplist = none) :
    find_group_for_client dflt bits (pa_classify_register_pid bits c P none (some g))
      (some client) proplist = some g := by
  subst hpid
  have hget := pid_hash_get_group_insert_self bits c.streams.pid_hash client.pid none g hP
  rw [← register_pid_pid_hash bits c client.pid none g hP] at hget
  unfold find_group_for_client
  unfold stream_media_name at hs
  simp only [hs, hget]

theorem register_pid_without_stream_name_witness :
    (1234 : Int) ≠ 0 ∧
      find_group_for_client "default" 6
        (pa_classify_register_pid 6 pa_classify_new 1234 none (some "call"))
        (some { pid := 1234, name := some "phone", uid := 1000, exe := some "/usr/bin/phone",
                arg0 := none })
        (some [("media.role", "phone")]) = some "call" :=
  ⟨by decide,
    register_pid_without_stream_name 6 "default" pa_classify_new 1234 "call"
      { pid := 1234, name := some "phone", uid := 1000, exe := some "/usr/bin/phone",
        arg0 := none }
      (some [("media.role", "phone")]) (by decide) rfl (by decide)⟩

/-! ## Lemmas on the stream rules -/

theorem first_index_cons_pos {α : Type} (p : α → Bool) (x : α) (l : List α)
    (hx : p x = true) : first_index p (x :: l) = some 0 := by
  simp [first_index, hx]

theorem first_index_cons_neg {α : Type} (p : α → Bool) (x : α) (l : List α)
    (hx : ¬ p x = true) :
    first_index p (x :: l) = (first_index p l).map (fun i => i + 1) := by
  simp [first_index, hx]

theorem first_index_modify {α : Type} (p : α → Bool) (f : α → α) (l : List α) (i : Nat)
    (hf : ∀ x, p (f x) = p x) : first_index p (l.modify f i) = first_index p l := by
  induction l generalizing i with
  | nil => simp
  | cons x rest ih =>
    cases i with
    | zero => simp [first_index, hf]
    | succ n =>
      rw [List.modify_succ_cons]
      simp only [first_index, ih n]

theorem get_modify_self {α : Type} (f : α → α) (l : List α) (i : Nat) :
    (l.modify f i).get? i = (l.get? i).map f := by
  induction l generalizing i with
  | nil => simp
  | cons x rest ih =>
    cases i with
    | zero => simp
    | succ n =>
      rw [List.modify_succ_cons]
      simp

theorem get_modify_other {α : Type} (f : α → α) (l : List α) (i j : Nat) (hij : i ≠ j) :
    (l.modify f i).get? j = l.get? j := by
  induction l generalizing i j with
  | nil => simp
  | cons x rest ih =>
    cases i with
    | zero =>
      cases j with
      | zero => exact absurd rfl hij
      | succ m => simp
    | succ n =>
      rw [List.modify_succ_cons]
      cases j with
      | zero => simp
      | succ m => simpa using ih n m (fun h => hij (by rw [h]))

theorem first_index_some {α : Type} (p : α → Bool) (l : List α) (i : Nat)
    (h : first_index p l = some i) : ∃ x, l.get? i = some x ∧ p x = true := by
  induction l generalizing i with
  | nil => simp [first_index] at h
  | cons x rest ih =>
    by_cases hx : p x = true
    · rw [first_index_cons_pos p x rest hx] at h
      simp only [Option.some.injEq] at h
      rw [← h]; exact ⟨x, by simp, hx⟩
    · rw [first_index_cons_neg p x rest hx] at h
      cases hj : first_index p rest with
      | none => rw [hj] at h; simp at h
      | some j =>
        rw [hj] at h
        simp only [Option.map_some', Option.some.injEq] at h
        obtain ⟨y, hy, hpy⟩ := ih j hj
        rw [← h]; exact ⟨y, by simpa using hy, hpy⟩

theorem first_index_append_new {α : Type} (p : α → Bool) (l : List α) (d : α)
    (h : first_index p l = none) (hd : p d = true) :
    first_index p (l ++ [d]) = some l.length := by
  induction l with
  | nil => simp [first_index, hd]
  | cons x rest ih =>
    by_cases hx : p x = true
    · rw [first_index_cons_pos p x rest hx] at h
      simp at h
    · rw [first_index_cons_neg p x rest hx] at h
      have hr : first_index p rest = none := by
        cases hj : first_index p rest with
        | none => rfl
        | some j => rw [hj] at h; simp at h
      rw [List.cons_append, first_index_cons_neg p x _ hx, ih hr]
      simp

theorem streams_find_eq (defs : List pa_classify_stream_def) (proplist : Option pa_proplist)
    (clnam : Option String) (uid : Nat) (exe : Option String) :
    streams_find defs proplist clnam uid exe =
      first_index (fun d => streams_find_test d proplist clnam uid exe) defs := by
  induction defs with
  | nil => rfl
  | cons x rest ih => simp [streams_find, first_index, ih]

theorem streams_get_group_eq (defs : List pa_classify_stream_def)
    (proplist : Option pa_proplist) (clnam : Option String) (uid : Nat) (exe : Option String) :
    streams_get_group defs proplist clnam uid exe =
      (defs.find? (fun d => streams_find_test d proplist clnam uid exe)).map
        (fun d => d.group) := by
  unfold streams_get_group
  rw [streams_find_eq]
  exact first_index_get _ _ _

theorem streams_add_of_not_found (regcomp : String → Option regex_t)
    (accepts : String → String → Bool) (defs : List pa_classify_stream_def)
    (prop : Option String) (method : pa_classify_method) (arg clnam : Option String)
    (uid : Nat) (exe : Option String) (g : String)
    (h : streams_find defs (some (streams_add_proplist accepts prop method arg)) clnam uid exe
      = none) :
    streams_add regcomp accepts defs prop method arg clnam uid exe g =
      (streams_add_node regcomp prop method arg clnam uid exe g).map (fun d => defs ++ [d]) := by
  unfold streams_add
  simp only [h]
  cases streams_add_node regcomp prop method arg clnam uid exe g <;> rfl

theorem streams_add_of_found (regcomp : String → Option regex_t)
    (accepts : String → String → Bool) (defs : List pa_classify_stream_def)
    (prop : Option String) (method : pa_classify_method) (arg clnam : Option String)
    (uid : Nat) (exe : Option String) (g : String) (i : Nat)
    (h : streams_find defs (some (streams_add_proplist accepts prop method arg)) clnam uid exe
      = some i) :
    streams_add regcomp accepts defs prop method arg clnam uid exe g =
      some (defs.modify (fun d => { d with group := g }) i) := by
  unfold streams_add
  simp only [h]

theorem streams_add_node_group (regcomp : String → Option regex_t) (prop : Option String)
    (method : pa_classify_method) (arg clnam : Option String) (uid : Nat)
    (exe : Option String) (g : String) (d : pa_classify_stream_def)
    (h : streams_add_node regcomp prop method arg clnam uid exe g = some d) :
    d.group = g ∧ d.clnam = clnam ∧ d.uid = uid ∧ d.exe = exe := by
  unfold streams_add_node at h
  cases prop <;> cases arg <;> cases method <;>
    simp [pa_method_min, pa_classify_method.toNat] at h <;>
    first
      | (rw [← h]; exact ⟨rfl, rfl, rfl, rfl⟩)
      | (cases hre : regcomp _ <;> rw [hre] at h <;> simp at h
         rw [← h]; exact ⟨rfl, rfl, rfl, rfl⟩)

/-! ## Stream classification: claims C1 to C3 -/

theorem streams_get_group_eq_none (defs : List pa_classify_stream_def)
    (proplist : Option pa_proplist) (clnam : Option String) (uid : Nat) (exe : Option String) :
    streams_get_group defs proplist clnam uid exe = none ↔
      ∀ d ∈ defs, streams_find_test d proplist clnam uid exe = false := by
  rw [streams_get_group_eq, Option.map_eq_none', List.find?_eq_none]
  simp

/-- C3: stream classification is total and falls back to the default group.
`find_group_for_client` always returns a (non-NULL) group name, and it returns
`PA_POLICY_DEFAULT_GROUP_NAME` whenever no rule matches and, for a stream with
a client, the registry has no group for the client's pid and the stream's
`media.name`. With the single rule `application.process.binary equals
"mplayer" -> "player"` a stream with that property `"mplayer"` classifies as
`"player"` and one with `"vlc"` as the default group. -/
theorem find_group_total_default (dflt : String) (bits : Nat) (c : pa_classify)
    (client : Option pa_client) (proplist : Option pa_proplist) :
    (∃ g, find_group_for_client dflt bits c client proplist = some g) ∧
      ((match client with
          | none =>
            ∀ d ∈ c.streams.defs,
              streams_find_test d proplist (some "") uid_minus1 (some "") = false
          | some cl =>
            pid_hash_get_group bits c.streams.pid_hash cl.pid (stream_media_name proplist)
                = none ∧
              ∀ d ∈ c.streams.defs,
                streams_find_test d proplist cl.name cl.uid cl.exe = false) →
        find_group_for_client dflt bits c client proplist = some dflt) ∧
      (pa_classify_add_stream (fun _ => none) (fun _ _ => true) pa_classify_new
          (some "application.process.binary") pa_classify_method.pa_method_equals
          (some "mplayer") none uid_minus1 none (some "player")).map
        (fun c1 =>
          (find_group_for_client dflt bits c1
              (some { pid := 4321, name := some "mplayer", uid := 1000,
                      exe := some "/usr/bin/mplayer", arg0 := some "mplayer" })
              (some [("application.process.binary", "mplayer")]),
            find_group_for_client dflt bits c1
              (some { pid := 4321, name := some "vlc", uid := 1000,
                      exe := some "/usr/bin/vlc", arg0 := some "vlc" })
              (some [("application.process.binary", "vlc")])))
        = some (some "player", some dflt) := by
  refine ⟨?_, ?_, ?_⟩
  · unfold find_group_for_client
    simp only
    split <;> exact ⟨_, rfl⟩
  · intro h
    unfold find_group_for_client
    cases client with
    | none =>
      simp only at h
      simp only [(streams_get_group_eq_none _ _ _ _ _).mpr h]
    | some cl =>
      simp only at h
      unfold stream_media_name at h
      simp only [h.1, (streams_get_group_eq_none _ _ _ _ _).mpr h.2]
  · simp [pa_classify_add_stream, streams_add, streams_add_proplist, streams_add_node,
      pa_proplist_sets, pa_proplist_new, streams_find, pa_classify_new, uid_minus1,
      pa_method_min, pa_classify_method.toNat, find_group_for_client, pid_hash_get_group,
      pid_hash_find, pid_hash_find_loop, streams_get_group, streams_find_test,
      streams_find_prv, pa_proplist_gets, PROPERTY_MATCH, STRING_MATCH_OF, ID_MATCH_OF,
      pa_classify_method_equals, PA_PROP_MEDIA_NAME]

theorem find_group_total_default_witness :
    find_group_for_client "default" 6
        (pa_classify_register_pid 6 pa_classify_new 1234 none (some "call"))
        (some { pid := 77, name := some "vlc", uid := 1000, exe := some "/usr/bin/vlc",
                arg0 := none })
        (some [("media.name", "film")]) = some "default" :=
  (find_group_total_default "default" 6
    (pa_classify_register_pid 6 pa_classify_new 1234 none (some "call"))
    (some { pid := 77, name := some "vlc", uid := 1000, exe := some "/usr/bin/vlc",
            arg0 := none })
    (some [("media.name", "film")])).2.1 ⟨by decide, by decide⟩

theorem find_of_first {α : Type} (p : α → Bool) (l : List α) (k : Nat) (d : α)
    (hk : l.get? k = some d) (hd : p d = true)
    (hbefore : ∀ j x, j < k → l.get? j = some x → p x = false) : l.find? p = some d := by
  induction l generalizing k with
  | nil => simp at hk
  | cons y rest ih =>
    cases k with
    | zero =>
      simp only [List.get?_cons_zero, Option.some.injEq] at hk
      rw [hk]; simp [hd]
    | succ n =>
      have hy : p y = false := hbefore 0 y (Nat.succ_pos n) (by simp)
      rw [List.find?_cons, hy]
      apply ih n (by simpa using hk)
      intro j x hj hx
      exact hbefore (j + 1) x (Nat.succ_lt_succ hj) (by simpa using hx)

theorem streams_add_seq_appends_spec (regcomp : String → Option regex_t)
    (accepts : String → String → Bool) (rs : List streams_add_args) :
    ∀ (defs table : List pa_classify_stream_def),
      streams_add_seq regcomp accepts defs rs = some table →
      streams_add_seq_appends regcomp accepts defs rs →
      ∃ nodes, List.Forall₂
          (fun r d => streams_add_node regcomp r.prop r.method r.arg r.clnam r.uid r.exe r.group
            = some d) rs nodes ∧ table = defs ++ nodes := by
  induction rs with
  | nil =>
    intro defs table hadd _
    simp only [streams_add_seq, Option.some.injEq] at hadd
    exact ⟨[], List.Forall₂.nil, by simp [hadd]⟩
  | cons r rest ih =>
    intro defs table hadd happ
    simp only [streams_add_seq] at hadd
    simp only [streams_add_seq_appends] at happ
    rw [streams_add_of_not_found regcomp accepts defs _ _ _ _ _ _ _ happ.1] at hadd
    have happ2 := happ.2
    rw [streams_add_of_not_found regcomp accepts defs _ _ _ _ _ _ _ happ.1] at happ2
    cases hn : streams_add_node regcomp r.prop r.method r.arg r.clnam r.uid r.exe r.group with
    | none => rw [hn] at hadd; simp at hadd
    | some d =>
      rw [hn] at hadd happ2
      simp only [Option.map_some'] at hadd happ2
      obtain ⟨nodes, hnodes, htable⟩ := ih (defs ++ [d]) table hadd happ2
      exact ⟨d :: nodes, List.Forall₂.cons hn hnodes, by simp [htable]⟩

/-- C1 (as stated, refuted): two rules with different identity tuples are
added, first `uid = 5 -> "A"`, then `p equals "x", uid = 5 -> "B"`. The second
call finds the first rule when it looks for a rule to redefine and overwrites
its group: the list still has one rule, and a candidate with uid 5, which the
first rule matched with group `"A"`, now gets `"B"`. -/
theorem streams_first_match_overwritten :
    (streams_add_seq (fun _ => none) (fun _ _ => true) []
        [{ prop := none, method := pa_classify_method.pa_method_unknown, arg := none,
           clnam := none, uid := 5, exe := none, group := "A" }]).map
        (fun t => streams_get_group t (some []) (some "app") 5 (some "/bin/app"))
      = some (some "A") ∧
    (streams_add_seq (fun _ => none) (fun _ _ => true) []
        [{ prop := none, method := pa_classify_method.pa_method_unknown, arg := none,
           clnam := none, uid := 5, exe := none, group := "A" },
         { prop := some "p", method := pa_classify_method.pa_method_equals, arg := some "x",
           clnam := none, uid := 5, exe := none, group := "B" }]).map
        (fun t => (t.length, streams_get_group t (some []) (some "app") 5 (some "/bin/app")))
      = some (1, some "B") := by
  constructor <;> decide

/-- C1 (amended): stream rule matching is first-match-wins in insertion order.
For every sequence of `streams_add` calls on the empty list none of which finds
a rule to redefine (at each call `streams_find` reports no rule for the
property list built from the new rule and the new rule's client name, uid and
exe), the list holds exactly the nodes of the rules in the order added (each
call links its node at the tail and leaves the earlier ones in place), and for
every candidate `streams_get_group` returns the group of the earliest rule that
matches it, and NULL when no rule matches. -/
theorem streams_first_match_wins (regcomp : String → Option regex_t)
    (accepts : String → String → Bool) (rs : List streams_add_args)
    (table : List pa_classify_stream_def)
    (hadd : streams_add_seq regcomp accepts [] rs = some table)
    (happ : streams_add_seq_appends regcomp accepts [] rs) :
    List.Forall₂
        (fun r d => streams_add_node regcomp r.prop r.method r.arg r.clnam r.uid r.exe r.group
          = some d) rs table ∧
      (∀ (proplist : Option pa_proplist) (clnam : Option String) (uid : Nat)
          (exe : Option String) (k : Nat) (d : pa_classify_stream_def),
        table.get? k = some d → streams_find_test d proplist clnam uid exe = true →
        (∀ j x, j < k → table.get? j = some x →
          streams_find_test x proplist clnam uid exe = false) →
        streams_get_group table proplist clnam uid exe = some d.group) ∧
      (∀ (proplist : Option pa_proplist) (clnam : Option String) (uid : Nat)
          (exe : Option String),
        (∀ d ∈ table, streams_find_test d proplist clnam uid exe = false) →
        streams_get_group table proplist clnam uid exe = none) ∧
      (∀ (defs : List pa_classify_stream_def) (r : streams_add_args),
        streams_find defs (some (streams_add_proplist accepts r.prop r.method r.arg))
          r.clnam r.uid r.exe = none →
        streams_add regcomp accepts defs r.prop r.method r.arg r.clnam r.uid r.exe r.group =
          (streams_add_node regcomp r.prop r.method r.arg r.clnam r.uid r.exe r.group).map
            (fun d => defs ++ [d])) := by
  obtain ⟨nodes, hnodes, htable⟩ :=
    streams_add_seq_appends_spec regcomp accepts rs [] table hadd happ
  simp only [List.nil_append] at htable
  refine ⟨htable ▸ hnodes, ?_, ?_, ?_⟩
  · intro proplist clnam uid exe k d hk hd hbefore
    rw [streams_get_group_eq, find_of_first _ table k d hk hd hbefore]
    rfl
  · intro proplist clnam uid exe hnone
    exact (streams_get_group_eq_none table proplist clnam uid exe).mpr hnone
  · intro defs r hfind
    exact streams_add_of_not_found regcomp accepts defs _ _ _ _ _ _ _ hfind

theorem streams_first_match_wins_witness :
    streams_add_seq (fun _ => none) (fun _ _ => true) []
        [{ prop := some "application.process.binary",
           method := pa_classify_method.pa_method_equals, arg := some "mplayer",
           clnam := none, uid := uid_minus1, exe := none, group := "player" },
         { prop := none, method := pa_classify_method.pa_method_unknown, arg := none,
           clnam := none, uid := 1000, exe := none, group := "user" }]
      = some
        [{ prop := some "application.process.binary",
           method := some pa_classify_method_equals,
           arg := pa_classify_arg.string (some "mplayer"), clnam := none, uid := uid_minus1,
           exe := none, group := "player" },
         { prop := none, method := none, arg := pa_classify_arg.string none, clnam := none,
           uid := 1000, exe := none, group := "user" }] ∧
    streams_add_seq_appends (fun _ => none) (fun _ _ => true) []
        [{ prop := some "application.process.binary",
           method := pa_classify_method.pa_method_equals, arg := some "mplayer",
           clnam := none, uid := uid_minus1, exe := none, group := "player" },
         { prop := none, method := pa_classify_method.pa_method_unknown, arg := none,
           clnam := none, uid := 1000, exe := none, group := "user" }] ∧
    streams_get_group
        [{ prop := some "application.process.binary",
           method := some pa_classify_method_equals,
           arg := pa_classify_arg.string (some "mplayer"), clnam := none, uid := uid_minus1,
           exe := none, group := "player" },
         { prop := none, method := none, arg := pa_classify_arg.string none, clnam := none,
           uid := 1000, exe := none, group := "user" }]
        (some [("application.process.binary", "mplayer")]) (some "mplayer") 1000
        (some "/usr/bin/mplayer") = some "player" :=
  ⟨rfl, ⟨rfl, rfl, trivial⟩,
    (streams_first_match_wins (fun _ => none) (fun _ _ => true)
      [{ prop := some "application.process.binary",
         method := pa_classify_method.pa_method_equals, arg := some "mplayer", clnam := none,
         uid := uid_minus1, exe := none, group := "player" },
       { prop := none, method := pa_classify_method.pa_method_unknown, arg := none,
         clnam := none, uid := 1000, exe := none, group := "user" }]
      [{ prop := some "application.process.binary",
         method := some pa_classify_method_equals,
         arg := pa_classify_arg.string (some "mplayer"), clnam := none, uid := uid_minus1,
         exe := none, group := "player" },
       { prop := none, method := none, arg := pa_classify_arg.string none, clnam := none,
         uid := 1000, exe := none, group := "user" }]
      rfl ⟨rfl, rfl, trivial⟩).2.1
      (some [("application.process.binary", "mplayer")]) (some "mplayer") 1000
      (some "/usr/bin/mplayer") 0 _ rfl (by decide)
      (fun j x hj => absurd hj (Nat.not_lt_zero j))⟩

/-! ## Redefinition of stream rules: claims C9 and C10 -/

theorem streams_add_node_self_match (regcomp : String → Option regex_t)
    (accepts : String → String → Bool) (prop : Option String) (method : pa_classify_method)
    (arg clnam : Option String) (uid : Nat) (exe : Option String) (g : String)
    (d : pa_classify_stream_def)
    (hm : prop = none ∨ arg = none ∨ method = pa_classify_method.pa_method_unknown ∨
      method = pa_classify_method.pa_method_max ∨
      method = pa_classify_method.pa_method_true ∨
      (method = pa_classify_method.pa_method_equals ∧
        ∀ p a, prop = some p → arg = some a → a ≠ "" ∧ accepts p a = true))
    (hd : streams_add_node regcomp prop method arg clnam uid exe g = some d) :
    streams_find_test d (some (streams_add_proplist accepts prop method arg)) clnam uid exe
      = true := by
  have hid : ∀ x : Option String, STRING_MATCH_OF x x = true := by
    intro x; cases x <;> simp [STRING_MATCH_OF]
  have huid : ID_MATCH_OF uid uid = true := by simp [ID_MATCH_OF]
  unfold streams_add_node at hd
  cases prop with
  | none =>
    simp only [Option.some.injEq] at hd
    rw [← hd]
    simp [streams_find_test, PROPERTY_MATCH, hid, huid]
  | some p =>
    cases arg with
    | none =>
      simp only [Option.some.injEq] at hd
      rw [← hd]
      simp [streams_find_test, PROPERTY_MATCH, hid, huid]
    | some a =>
      cases method with
      | pa_method_unknown =>
        simp [pa_method_min, pa_classify_method.toNat] at hd
        rw [← hd]
        simp [streams_find_test, PROPERTY_MATCH, hid, huid]
      | pa_method_max =>
        simp [pa_method_min, pa_classify_method.toNat] at hd
        rw [← hd]
        simp [streams_find_test, PROPERTY_MATCH, hid, huid]
      | pa_method_true =>
        simp [pa_method_min, pa_classify_method.toNat] at hd
        rw [← hd]
        simp [streams_find_test, PROPERTY_MATCH, pa_classify_method_true, hid, huid]
      | pa_method_equals =>
        have ha : a ≠ "" ∧ accepts p a = true := by
          rcases hm with h | h | h | h | h | h
          · simp at h
          · simp at h
          · simp at h
          · simp at h
          · simp at h
          · exact h.2 p a rfl rfl
        simp [pa_method_min, pa_classify_method.toNat] at hd
        rw [← hd]
        simp [streams_find_test, PROPERTY_MATCH, pa_classify_method_equals, hid, huid,
          streams_find_prv, streams_add_proplist, pa_proplist_sets, pa_proplist_new,
          pa_proplist_gets, ha.1, ha.2]
      | pa_method_startswith =>
        rcases hm with h | h | h | h | h | h <;> simp at h
      | pa_method_matches =>
        rcases hm with h | h | h | h | h | h <;> simp at h

theorem streams_find_modify_group (defs : List pa_classify_stream_def) (i : Nat) (g : String)
    (proplist : Option pa_proplist) (clnam : Option String) (uid : Nat) (exe : Option String) :
    streams_find (defs.modify (fun d => { d with group := g }) i) proplist clnam uid exe =
      streams_find defs proplist clnam uid exe := by
  rw [streams_find_eq, streams_find_eq]
  exact first_index_modify (fun d => streams_find_test d proplist clnam uid exe)
    (fun d => { d with group := g }) defs i (fun _ => rfl)

/-- C9 (as stated, refuted): a `startswith` rule added twice is not recognised
as a redefinition. The second call looks for the rule with an empty property
list, the first rule does not fire on `"<unknown>"`, and a second node is
linked: the list has two rules with groups `"g"` and `"h"`, and a stream the
rule matches still classifies as `"g"`. -/
theorem streams_add_startswith_twice :
    (streams_add_seq (fun _ => none) (fun _ _ => true) []
        [{ prop := some "p", method := pa_classify_method.pa_method_startswith,
           arg := some "foo", clnam := none, uid := uid_minus1, exe := none, group := "g" },
         { prop := some "p", method := pa_classify_method.pa_method_startswith,
           arg := some "foo", clnam := none, uid := uid_minus1, exe := none, group := "h" }]).map
        (fun t => (t.map (fun d => d.group),
          streams_get_group t (some [("p", "foobar")]) (some "app") 1000 (some "/bin/app")))
      = some (["g", "h"], some "g") := by
  decide

/-- C9 (amended): redefinition of a stream rule, for the rules the look-up of
`streams_add` can recognise: a rule without property check (no property, no
argument, or a method outside the four kinds), a rule with method true, and a
rule with method equals whose argument is not empty and is stored by the host
property list. When such a tuple is added with group `g` and then again with
group `g2`, the second call links no node (the number of rules is unchanged)
and only replaces the group of the rule the first call created or redefined,
so every stream for which `streams_find` reports that rule classifies as `g2`
afterwards. -/
theorem streams_add_redefinition (regcomp : String → Option regex_t)
    (accepts : String → String → Bool) (defs t1 : List pa_classify_stream_def)
    (prop : Option String) (method : pa_classify_method) (arg clnam : Option String)
    (uid : Nat) (exe : Option String) (g g2 : String)
    (hm : prop = none ∨ arg = none ∨ method = pa_classify_method.pa_method_unknown ∨
      method = pa_classify_method.pa_method_max ∨
      method = pa_classify_method.pa_method_true ∨
      (method = pa_classify_method.pa_method_equals ∧
        ∀ p a, prop = some p → arg = some a → a ≠ "" ∧ accepts p a = true))
    (h1 : streams_add regcomp accepts defs prop method arg clnam uid exe g = some t1) :
    ∃ i, streams_find t1 (some (streams_add_proplist accepts prop method arg)) clnam uid exe
          = some i ∧
      (t1.get? i).map (fun d => d.group) = some g ∧
      streams_add regcomp accepts t1 prop method arg clnam uid exe g2 =
        some (t1.modify (fun d => { d with group := g2 }) i) ∧
      (t1.modify (fun d => { d with group := g2 }) i).length = t1.length ∧
      (∀ j, j ≠ i → (t1.modify (fun d => { d with group := g2 }) i).get? j = t1.get? j) ∧
      (∀ (proplist : Option pa_proplist) (cl : Option String) (u : Nat) (e : Option String),
        streams_find t1 proplist cl u e = some i →
        streams_get_group (t1.modify (fun d => { d with group := g2 }) i) proplist cl u e
          = some g2) := by
  have hfound : ∃ i, streams_find t1 (some (streams_add_proplist accepts prop method arg))
      clnam uid exe = some i ∧ (t1.get? i).map (fun d => d.group) = some g := by
    cases hf : streams_find defs (some (streams_add_proplist accepts prop method arg))
        clnam uid exe with
    | some i0 =>
      rw [streams_add_of_found regcomp accepts defs _ _ _ _ _ _ _ i0 hf] at h1
      simp only [Option.some.injEq] at h1
      refine ⟨i0, ?_, ?_⟩
      · rw [← h1, streams_find_modify_group]
        exact hf
      · rw [streams_find_eq] at hf
        obtain ⟨x, hx, _⟩ := first_index_some _ _ _ hf
        rw [← h1, get_modify_self, hx]
        rfl
    | none =>
      rw [streams_add_of_not_found regcomp accepts defs _ _ _ _ _ _ _ hf] at h1
      cases hn : streams_add_node regcomp prop method arg clnam uid exe g with
      | none => rw [hn] at h1; simp at h1
      | some d =>
        rw [hn] at h1
        simp only [Option.map_some', Option.some.injEq] at h1
        have hself := streams_add_node_self_match regcomp accepts prop method arg clnam uid
          exe g d hm hn
        refine ⟨defs.length, ?_, ?_⟩
        · rw [← h1, streams_find_eq]
          rw [streams_find_eq] at hf
          exact first_index_append_new _ defs d hf hself
        · rw [← h1]
          simp [(streams_add_node_group regcomp prop method arg clnam uid exe g d hn).1]
  obtain ⟨i, hi, hgi⟩ := hfound
  refine ⟨i, hi, hgi, streams_add_of_found regcomp accepts t1 _ _ _ _ _ _ _ i hi, ?_, ?_, ?_⟩
  · simp
  · intro j hj
    exact get_modify_other _ _ i j (fun h => hj h.symm)
  · intro proplist cl u e hfind
    unfold streams_get_group
    rw [streams_find_modify_group, hfind]
    simp only
    rw [get_modify_self]
    rw [streams_find_eq] at hfind
    obtain ⟨x, hx, _⟩ := first_index_some _ _ _ hfind
    rw [hx]
    rfl

theorem streams_add_redefinition_witness :
    streams_add (fun _ => none) (fun _ _ => true) [] (some "application.process.binary")
        pa_classify_method.pa_method_equals (some "mplayer") none uid_minus1 none "player"
      = some
        [{ prop := some "application.process.binary",
           method := some pa_classify_method_equals,
           arg := pa_classify_arg.string (some "mplayer"), clnam := none, uid := uid_minus1,
           exe := none, group := "player" }] ∧
    (streams_add (fun _ => none) (fun _ _ => true)
        [{ prop := some "application.process.binary",
           method := some pa_classify_method_equals,
           arg := pa_classify_arg.string (some "mplayer"), clnam := none, uid := uid_minus1,
           exe := none, group := "player" }]
        (some "application.process.binary") pa_classify_method.pa_method_equals
        (some "mplayer") none uid_minus1 none "music").map List.length = some 1 := by
  refine ⟨rfl, ?_⟩
  obtain ⟨i, _, _, hadd, hlen, _⟩ :=
    streams_add_redefinition (fun _ => none) (fun _ _ => true) []
      [{ prop := some "application.process.binary",
         method := some pa_classify_method_equals,
         arg := pa_classify_arg.string (some "mplayer"), clnam := none, uid := uid_minus1,
         exe := none, group := "player" }]
      (some "application.process.binary") pa_classify_method.pa_method_equals
      (some "mplayer") none uid_minus1 none "player" "music"
      (Or.inr (Or.inr (Or.inr (Or.inr (Or.inr ⟨rfl, fun p a _ ha =>
        ⟨fun h => by rw [h] at ha; exact absurd ha (by decide), rfl⟩⟩)))))
      rfl
  rw [hadd, Option.map_some', hlen]
  rfl

/-- C10 (as stated, refuted): the rule `exe = "/usr/bin/foo" -> "player"` is in
the list and the rule `media.role equals "phone", exe = "/usr/bin/foo" ->
"call"`, whose identity tuple differs in the property, the method and the
argument, is added. No rule is appended: the existing rule matches the
candidate built from the new one and its group becomes `"call"`. -/
theorem streams_add_overwrites_other_rule :
    (streams_add_seq (fun _ => none) (fun _ _ => true) []
        [{ prop := none, method := pa_classify_method.pa_method_unknown, arg := none,
           clnam := none, uid := uid_minus1, exe := some "/usr/bin/foo", group := "player" },
         { prop := some "media.role", method := pa_classify_method.pa_method_equals,
           arg := some "phone", clnam := none, uid := uid_minus1, exe := some "/usr/bin/foo",
           group := "call" }]).map
        (fun t => t.map (fun d => (d.prop, d.exe, d.group)))
      = some [(none, some "/usr/bin/foo", "call")] := by
  decide

/-- C10 (amended): `streams_add` decides between a new rule and a redefinition
with `streams_find`, run on the property list built from the new rule
(`prop = arg` for an equals rule, empty otherwise) and on the new rule's
client name, uid and exe. When that search reports no rule, the new node is
appended at the tail and every existing rule is unchanged. In every case a
rule the search does not report is unchanged and keeps its position; the group
of an existing rule is replaced only when the search reports that rule, and
then the list keeps its length. -/
theorem streams_add_frame (regcomp : String → Option regex_t)
    (accepts : String → String → Bool) (defs t1 : List pa_classify_stream_def)
    (prop : Option String) (method : pa_classify_method) (arg clnam : Option String)
    (uid : Nat) (exe : Option String) (g : String)
    (h1 : streams_add regcomp accepts defs prop method arg clnam uid exe g = some t1) :
    (streams_find defs (some (streams_add_proplist accepts prop method arg)) clnam uid exe
        = none →
      ∃ d, streams_add_node regcomp prop method arg clnam uid exe g = some d ∧
        t1 = defs ++ [d]) ∧
      (∀ j d, defs.get? j = some d →
        streams_find defs (some (streams_add_proplist accepts prop method arg)) clnam uid exe
          ≠ some j →
        t1.get? j = some d) ∧
      (∀ j d, defs.get? j = some d →
        streams_find defs (some (streams_add_proplist accepts prop method arg)) clnam uid exe
          = some j →
        t1.get? j = some { d with group := g } ∧ t1.length = defs.length) := by
  cases hf : streams_find defs (some (streams_add_proplist accepts prop method arg))
      clnam uid exe with
  | none =>
    rw [streams_add_of_not_found regcomp accepts defs _ _ _ _ _ _ _ hf] at h1
    cases hn : streams_add_node regcomp prop method arg clnam uid exe g with
    | none => rw [hn] at h1; simp at h1
    | some d =>
      rw [hn] at h1
      simp only [Option.map_some', Option.some.injEq] at h1
      refine ⟨fun _ => ⟨d, rfl, h1.symm⟩, ?_, ?_⟩
      · intro j x hx _
        have hj : j < defs.length := by
          rcases List.get?_eq_some.mp hx with ⟨hlt, _⟩
          exact hlt
        rw [← h1, List.get?_eq_getElem?, List.getElem?_append_left hj, ← List.get?_eq_getElem?]
        exact hx
      · intro j x _ hj
        simp at hj
  | some i =>
    rw [streams_add_of_found regcomp accepts defs _ _ _ _ _ _ _ i hf] at h1
    simp only [Option.some.injEq] at h1
    refine ⟨fun h => by simp at h, ?_, ?_⟩
    · intro j x hx hne
      rw [← h1, get_modify_other _ _ i j (fun h => hne (by rw [h])), hx]
    · intro j x hx hj
      simp only [Option.some.injEq] at hj
      rw [← h1, hj, get_modify_self, hx]
      simp

theorem streams_add_frame_witness :
    streams_add (fun _ => none) (fun _ _ => true)
        [{ prop := none, method := none, arg := pa_classify_arg.string none, clnam := none,
           uid := 1000, exe := none, group := "user" }]
        (some "application.process.binary") pa_classify_method.pa_method_equals
        (some "mplayer") none 0 none "player"
      = some
        [{ prop := none, method := none, arg := pa_classify_arg.string none, clnam := none,
           uid := 1000, exe := none, group := "user" },
         { prop := some "application.process.binary",
           method := some pa_classify_method_equals,
           arg := pa_classify_arg.string (some "mplayer"), clnam := none, uid := 0,
           exe := none, group := "player" }] ∧
    List.get?
        ([{ prop := none, method := none, arg := pa_classify_arg.string none, clnam := none,
            uid := 1000, exe := none, group := "user" },
          { prop := some "application.process.binary",
            method := some pa_classify_method_equals,
            arg := pa_classify_arg.string (some "mplayer"), clnam := none, uid := 0,
            exe := none, group := "player" }] : List pa_classify_stream_def) 0
      = some { prop := none, method := none, arg := pa_classify_arg.string none,
               clnam := none, uid := 1000, exe := none, group := "user" } :=
  ⟨rfl,
    (streams_add_frame (fun _ => none) (fun _ _ => true)
      [{ prop := none, method := none, arg := pa_classify_arg.string none, clnam := none,
         uid := 1000, exe := none, group := "user" }]
      [{ prop := none, method := none, arg := pa_classify_arg.string none, clnam := none,
         uid := 1000, exe := none, group := "user" },
       { prop := some "application.process.binary",
         method := some pa_classify_method_equals,
         arg := pa_classify_arg.string (some "mplayer"), clnam := none, uid := 0,
         exe := none, group := "player" }]
      (some "application.process.binary") pa_classify_method.pa_method_equals
      (some "mplayer") none 0 none "player" rfl).2.1 0 _ rfl (by decide)⟩

/-! ## Lemmas on the classification buffer -/

theorem string_length_go (acc : String) (l : List String) :
    (String.intercalate.go acc " " l).length = acc.length + tags_span " " l := by
  induction l generalizing acc with
  | nil => simp [String.intercalate.go, tags_span]
  | cons t rest ih =>
    simp only [String.intercalate.go, ih, tags_span, String.length_append, strlen]
    omega

theorem string_length_intercalate (l : List String) :
    (String.intercalate " " l).length = tags_span "" l := by
  cases l with
  | nil => simp [String.intercalate, tags_span]
  | cons t rest =>
    simp only [String.intercalate, string_length_go, tags_span, strlen]
    simp

theorem snprintf_tag_snd (buf : String) (p len : Nat) (s t : String) :
    (snprintf_tag buf p len s t).2 = p + (strlen s + strlen t) := by
  simp [snprintf_tag, strlen, String.length_append]

theorem snprintf_tag_fits (buf : String) (len : Nat) (s t : String)
    (h : buf.length + (strlen s + strlen t) < len) :
    snprintf_tag buf buf.length len s t =
      (buf ++ s ++ t, buf.length + (strlen s + strlen t)) := by
  have hsize : len - buf.length ≠ 0 := by omega
  have htake : (s ++ t).data.take (len - buf.length - 1) = (s ++ t).data := by
    apply List.take_of_length_le
    have hd : (s ++ t).data.length = (s ++ t).length := rfl
    rw [hd, String.length_append]
    simp only [strlen] at h
    omega
  have hbuf : buf.data.take buf.length = buf.data := List.take_of_length_le (Nat.le_refl _)
  simp only [snprintf_tag, hsize, if_false, htake, hbuf, strlen, String.length_append]
  congr 1
  apply String.ext
  simp [String.data_append]

theorem emit_tags_fits_go (len : Nat) (tags : List String) (acc : String)
    (h : (String.intercalate.go acc " " tags).length < len) :
    emit_tags len tags acc acc.length " " =
      (String.intercalate.go acc " " tags, (String.intercalate.go acc " " tags).length) := by
  induction tags generalizing acc with
  | nil => simp [emit_tags, String.intercalate.go]
  | cons t rest ih =>
    simp only [String.intercalate.go] at h ⊢
    have hlen := string_length_go (acc ++ " " ++ t) rest
    have hfit : acc.length + (strlen " " + strlen t) < len := by
      simp only [String.length_append] at hlen
      simp only [strlen]
      have h1 : (" " : String).length = 1 := rfl
      omega
    have hstep := snprintf_tag_fits acc len " " t hfit
    have hp : acc.length + (strlen " " + strlen t) = (acc ++ " " ++ t).length := by
      simp only [String.length_append, strlen]; omega
    simp only [emit_tags, hstep]
    rw [if_neg (by omega), hp]
    exact ih (acc ++ " " ++ t) h

theorem emit_tags_fits (len : Nat) (tags : List String)
    (h : (String.intercalate " " tags).length < len) :
    emit_tags len tags "" 0 "" =
      (String.intercalate " " tags, (String.intercalate " " tags).length) := by
  cases tags with
  | nil => simp [emit_tags, String.intercalate]
  | cons t rest =>
    simp only [String.intercalate] at h ⊢
    have hlen := string_length_go t rest
    have hfit : ("" : String).length + (strlen "" + strlen t) < len := by
      simp only [strlen]
      have h0 : ("" : String).length = 0 := rfl
      omega
    have hstep := snprintf_tag_fits "" len "" t hfit
    have h0 : ("" : String).length = 0 := rfl
    have he : ("" : String) ++ "" ++ t = t := by
      apply String.ext; simp [String.data_append]
    rw [h0, he] at hstep
    simp only [emit_tags, hstep]
    have hs0 : strlen "" = 0 := rfl
    rw [if_neg (by simp only [strlen] at hfit ⊢; omega)]
    have hp : 0 + (strlen "" + strlen t) = t.length := by simp [strlen]
    rw [hp]
    exact emit_tags_fits_go len rest t h

theorem emit_tags_overflow (len : Nat) (tags : List String) (buf : String) (p : Nat)
    (s : String) (hp : p ≤ len) (h : len < p + tags_span s tags) :
    emit_tags len tags buf p s = ("", len) := by
  induction tags generalizing buf p s with
  | nil => simp [tags_span] at h; omega
  | cons t rest ih =>
    simp only [emit_tags]
    by_cases hover : (snprintf_tag buf p len s t).2 > len
    · rw [if_pos hover]
    · rw [if_neg hover]
      apply ih
      · omega
      · rw [snprintf_tag_snd]
        simp only [tags_span] at h
        omega

/-! ## Lemmas on the device rules -/

theorem devices_emitted_nil (proplist : Option pa_proplist) (name : Option String)
    (flag_mask flag_value : Nat) :
    devices_emitted [] proplist name flag_mask flag_value = [] := rfl

theorem devices_emitted_cons_none (d : pa_classify_device_def)
    (rest : List pa_classify_device_def) (proplist : Option pa_proplist)
    (name : Option String) (flag_mask flag_value : Nat) (h : d.type = none) :
    devices_emitted (d :: rest) proplist name flag_mask flag_value = [] := by
  simp [devices_emitted, device_rules, List.takeWhile, h]

theorem devices_emitted_cons_some (d : pa_classify_device_def)
    (rest : List pa_classify_device_def) (proplist : Option pa_proplist)
    (name : Option String) (flag_mask flag_value : Nat) (t : String) (h : d.type = some t) :
    devices_emitted (d :: rest) proplist name flag_mask flag_value =
      if devices_rule_emits proplist name flag_mask flag_value d then
        t :: devices_emitted rest proplist name flag_mask flag_value
      else devices_emitted rest proplist name flag_mask flag_value := by
  by_cases he : devices_rule_emits proplist name flag_mask flag_value d = true
  · simp [devices_emitted, device_rules, List.takeWhile, h, he, List.filter]
  · simp [devices_emitted, device_rules, List.takeWhile, h, he, List.filter]

theorem devices_classify_loop_eq (proplist : Option pa_proplist) (name : Option String)
    (flag_mask flag_value len : Nat) (defs : List pa_classify_device_def) :
    ∀ (buf : String) (p : Nat) (s : String),
      devices_classify_loop proplist name flag_mask flag_value len defs buf p s =
        emit_tags len (devices_emitted defs proplist name flag_mask flag_value) buf p s := by
  induction defs with
  | nil => intro buf p s; rfl
  | cons d rest ih =>
    intro buf p s
    cases ht : d.type with
    | none =>
      rw [devices_emitted_cons_none d rest proplist name flag_mask flag_value ht]
      simp [devices_classify_loop, ht, emit_tags]
    | some t =>
      rw [devices_emitted_cons_some d rest proplist name flag_mask flag_value t ht]
      by_cases hm : method_call d.method (some (get_property d.prop proplist name)) d.arg = true
      · by_cases hf : d.data.flags &&& flag_mask = flag_value
        · simp [devices_classify_loop, ht, hm, hf, devices_rule_emits, emit_tags, ih]
        · simp [devices_classify_loop, ht, hm, hf, devices_rule_emits, ih]
      · simp [devices_classify_loop, ht, hm, devices_rule_emits, ih]

theorem devices_classify_fits (defs : List pa_classify_device_def)
    (proplist : Option pa_proplist) (name : Option String) (flag_mask flag_value len : Nat)
    (h : (String.intercalate " "
      (devices_emitted defs proplist name flag_mask flag_value)).length < len) :
    devices_classify defs proplist name flag_mask flag_value len =
      some (String.intercalate " " (devices_emitted defs proplist name flag_mask flag_value),
        len - (String.intercalate " "
          (devices_emitted defs proplist name flag_mask flag_value)).length) := by
  have hlen : 0 < len := by omega
  simp only [devices_classify, hlen, if_true, devices_classify_loop_eq, emit_tags_fits len _ h]

theorem devices_classify_overflow (defs : List pa_classify_device_def)
    (proplist : Option pa_proplist) (name : Option String) (flag_mask flag_value len : Nat)
    (hlen : 0 < len)
    (h : len < (String.intercalate " "
      (devices_emitted defs proplist name flag_mask flag_value)).length) :
    devices_classify defs proplist name flag_mask flag_value len = some ("", 0) := by
  rw [string_length_intercalate] at h
  simp only [devices_classify, hlen, if_true, devices_classify_loop_eq]
  rw [emit_tags_overflow len _ "" 0 "" (Nat.zero_le _) (by omega)]
  simp

theorem devices_is_typeof_eq (defs : List pa_classify_device_def)
    (proplist : Option pa_proplist) (name : Option String) (type : String) :
    devices_is_typeof defs proplist name type =
      ((device_rules defs).find? (fun d =>
        decide (d.type = some type) &&
          method_call d.method (some (get_property d.prop proplist name)) d.arg)).map
        (fun d => d.data) := by
  induction defs with
  | nil => rfl
  | cons d rest ih =>
    cases ht : d.type with
    | none => simp [devices_is_typeof, device_rules, List.takeWhile, ht]
    | some t =>
      have hrules : device_rules (d :: rest) = d :: device_rules rest := by
        simp [device_rules, List.takeWhile, ht]
      rw [hrules, List.find?_cons]
      by_cases hty : type = t
      · subst hty
        by_cases hm : method_call d.method (some (get_property d.prop proplist name)) d.arg
            = true
        · simp [devices_is_typeof, ht, hm]
        · simp [devices_is_typeof, ht, hm, ih]
      · have hne : ¬ t = type := fun h => hty h.symm
        simp [devices_is_typeof, ht, hty, hne, ih]

theorem mem_devices_emitted (defs : List pa_classify_device_def)
    (proplist : Option pa_proplist) (name : Option String) (flag_mask flag_value : Nat)
    (t : String) :
    t ∈ devices_emitted defs proplist name flag_mask flag_value ↔
      ∃ d ∈ device_rules defs, d.type = some t ∧
        method_call d.method (some (get_property d.prop proplist name)) d.arg = true ∧
        d.data.flags &&& flag_mask = flag_value := by
  simp only [devices_emitted, List.mem_filterMap, List.mem_filter, devices_rule_emits,
    Bool.and_eq_true, decide_eq_true_eq]
  constructor
  · rintro ⟨d, ⟨hd, hm, hf⟩, ht⟩
    exact ⟨d, hd, ht, hm, hf⟩
  · rintro ⟨d, hd, ht, hm, hf⟩
    exact ⟨d, ⟨hd, hm, hf⟩, ht⟩

/-! ## Device classification: claims C11 to C14 -/

/-- C11: device classification emits the tags in rule order, filtered by the
predicate and the flags. For every rule array, endpoint (property list and
name), `flag_mask` and `flag_value`: when the space-joined list of the types of
exactly those rules before the sentinel whose method fires on the endpoint and
whose flags satisfy `(flags & flag_mask) == flag_value`, in array order, is
shorter than `len`, `devices_classify` leaves exactly that string in the buffer
and returns `len` minus its length. With the rules `ihf` (name equals
`sink.hw0`, flags 0x01) and `bt` (name startswith `bluez_`, flags 0x02), the
sink `bluez_card.dev`, mask 0xFF and value 0x02 give `"bt"`. -/
theorem devices_classify_emits_in_order (defs : List pa_classify_device_def)
    (proplist : Option pa_proplist) (name : Option String) (flag_mask flag_value len : Nat)
    (h : (String.intercalate " "
      (devices_emitted defs proplist name flag_mask flag_value)).length < len) :
    devices_classify defs proplist name flag_mask flag_value len =
        some (String.intercalate " " (devices_emitted defs proplist name flag_mask flag_value),
          len - (String.intercalate " "
            (devices_emitted defs proplist name flag_mask flag_value)).length) ∧
      devices_emitted defs proplist name flag_mask flag_value =
        ((defs.takeWhile (fun d => d.type.isSome)).filter (fun d =>
            method_call d.method (some (get_property d.prop proplist name)) d.arg &&
              decide (d.data.flags &&& flag_mask = flag_value))).filterMap (fun d => d.type) ∧
      (∀ len2, 2 < len2 →
        devices_classify
            (devices_add (fun _ => none)
              (devices_add (fun _ => none) pa_classify_device_new "ihf" "name"
                pa_classify_method.pa_method_equals "sink.hw0" 0x01)
              "bt" "name" pa_classify_method.pa_method_startswith "bluez_" 0x02).defs
            (some []) (some "bluez_card.dev") 0xFF 0x02 len2 = some ("bt", len2 - 2)) := by
  refine ⟨devices_classify_fits defs proplist name flag_mask flag_value len h, rfl, ?_⟩
  intro len2 hlen2
  have hem : devices_emitted
      (devices_add (fun _ => none)
        (devices_add (fun _ => none) pa_classify_device_new "ihf" "name"
          pa_classify_method.pa_method_equals "sink.hw0" 0x01)
        "bt" "name" pa_classify_method.pa_method_startswith "bluez_" 0x02).defs
      (some []) (some "bluez_card.dev") 0xFF 0x02 = ["bt"] := by decide
  have hfit := devices_classify_fits
    (devices_add (fun _ => none)
      (devices_add (fun _ => none) pa_classify_device_new "ihf" "name"
        pa_classify_method.pa_method_equals "sink.hw0" 0x01)
      "bt" "name" pa_classify_method.pa_method_startswith "bluez_" 0x02).defs
    (some []) (some "bluez_card.dev") 0xFF 0x02 len2
  rw [hem] at hfit
  exact hfit hlen2

theorem devices_classify_emits_in_order_witness :
    (String.intercalate " "
        (devices_emitted
          (devices_add (fun _ => none)
            (devices_add (fun _ => none) pa_classify_device_new "ihf" "name"
              pa_classify_method.pa_method_equals "sink.hw0" 0x01)
            "all" "name" pa_classify_method.pa_method_startswith "sink." 0x01).defs
          (some []) (some "sink.hw0") 0xFF 0x01)).length < 16 ∧
      devices_classify
          (devices_add (fun _ => none)
            (devices_add (fun _ => none) pa_classify_device_new "ihf" "name"
              pa_classify_method.pa_method_equals "sink.hw0" 0x01)
            "all" "name" pa_classify_method.pa_method_startswith "sink." 0x01).defs
          (some []) (some "sink.hw0") 0xFF 0x01 16 = some ("ihf all", 9) :=
  ⟨by decide,
    (devices_classify_emits_in_order
      (devices_add (fun _ => none)
        (devices_add (fun _ => none) pa_classify_device_new "ihf" "name"
          pa_classify_method.pa_method_equals "sink.hw0" 0x01)
        "all" "name" pa_classify_method.pa_method_startswith "sink." 0x01).defs
      (some []) (some "sink.hw0") 0xFF 0x01 16 (by decide)).1.trans (by decide)⟩

/-- C12 (the code at the failing input): a tag list whose length equals `len`
does not fit with its terminator, but the overflow test of the loops is
`p > e`, so nothing is cleared. With the single emitted tag `"bt"` and
`len = 2` both `devices_classify` and `cards_classify` return 0 and leave the
truncated string `"b"` in the buffer. -/
theorem classify_exact_fit_truncated :
    devices_classify
        (devices_add (fun _ => none) pa_classify_device_new "bt" "name"
          pa_classify_method.pa_method_startswith "bluez_" 0x02).defs
        (some []) (some "bluez_card.dev") 0xFF 0x02 2 = some ("b", 0) ∧
      cards_classify
        (cards_add (fun _ => none) pa_classify_card_new "bt"
          pa_classify_method.pa_method_startswith "bluez_" none 0x02).defs
        (some "bluez_card.dev") [] 0xFF 0x02 2 = some ("b", 0) := by
  constructor <;> decide

/-- C13: subject selection for device rules. With a property list and an
endpoint name present, `get_property` gives the endpoint's name for the
selector `"name"`, whatever the property list holds under the key `"name"`, and
the property-list value of the selector otherwise; a value that is missing or
empty is replaced by `"<unknown>"`, and so is the subject when the selector,
the property list or the name is NULL. The device loops hand this subject to
the method of the rule. -/
theorem get_property_subject (proplist : pa_proplist) (name : String) :
    get_property (some "name") (some proplist) (some name) =
        (if name = "" then "<unknown>" else name) ∧
      (∀ prop : String, prop ≠ "name" →
        get_property (some prop) (some proplist) (some name) =
          match pa_proplist_gets proplist prop with
          | some v => if v = "" then "<unknown>" else v
          | none => "<unknown>") ∧
      (∀ (pl : Option pa_proplist) (n : Option String),
        get_property none pl n = "<unknown>") ∧
      (∀ (prop : Option String) (n : Option String),
        get_property prop none n = "<unknown>") ∧
      (∀ (prop : Option String) (pl : Option pa_proplist),
        get_property prop pl none = "<unknown>") ∧
      get_property (some "name") (some [("name", "other")]) (some "sink.hw0") = "sink.hw0" ∧
      (∀ (d : pa_classify_device_def) (pl : Option pa_proplist) (n : Option String)
          (flag_mask flag_value : Nat),
        devices_rule_emits pl n flag_mask flag_value d =
          (method_call d.method (some (get_property d.prop pl n)) d.arg &&
            decide (d.data.flags &&& flag_mask = flag_value))) := by
  refine ⟨?_, ?_, ?_, ?_, ?_, ?_, ?_⟩
  · simp only [get_property, if_true]
  · intro prop hprop
    simp only [get_property, hprop, if_false]
    cases pa_proplist_gets proplist prop <;> rfl
  · intro pl n; rfl
  · intro prop n
    cases prop <;> rfl
  · intro prop pl
    cases prop <;> cases pl <;> rfl
  · decide
  · intro d pl n flag_mask flag_value; rfl

/-- C14: the is-typeof query. `devices_is_typeof` returns TRUE iff some rule
before the sentinel has a type equal to the tag and a method that fires on the
endpoint, and the payload it returns is that of the first such rule in array
order. The flags of the rules play no part: the tag is among the tags
`devices_classify` emits with mask 0 and value 0, which are left in every
buffer longer than their space-joined list, exactly when the query is TRUE. -/
theorem devices_is_typeof_spec (defs : List pa_classify_device_def)
    (proplist : Option pa_proplist) (name : Option String) (type : String) :
    ((devices_is_typeof defs proplist name type).isSome = true ↔
        ∃ d ∈ device_rules defs, d.type = some type ∧
          method_call d.method (some (get_property d.prop proplist name)) d.arg = true) ∧
      devices_is_typeof defs proplist name type =
        ((device_rules defs).find? (fun d =>
          decide (d.type = some type) &&
            method_call d.method (some (get_property d.prop proplist name)) d.arg)).map
          (fun d => d.data) ∧
      (type ∈ devices_emitted defs proplist name 0 0 ↔
        (devices_is_typeof defs proplist name type).isSome = true) ∧
      (∀ len, (String.intercalate " " (devices_emitted defs proplist name 0 0)).length < len →
        devices_classify defs proplist name 0 0 len =
          some (String.intercalate " " (devices_emitted defs proplist name 0 0),
            len - (String.intercalate " " (devices_emitted defs proplist name 0 0)).length)) := by
  have hiff : (devices_is_typeof defs proplist name type).isSome = true ↔
      ∃ d ∈ device_rules defs, d.type = some type ∧
        method_call d.method (some (get_property d.prop proplist name)) d.arg = true := by
    rw [devices_is_typeof_eq, Option.isSome_map', List.find?_isSome]
    simp only [Bool.and_eq_true, decide_eq_true_eq]
  refine ⟨hiff, devices_is_typeof_eq defs proplist name type, ?_, ?_⟩
  · rw [hiff, mem_devices_emitted]
    simp only [Nat.and_zero, and_true]
  · intro len hlen
    exact devices_classify_fits defs proplist name 0 0 len hlen

/-! ## Card classification and the matches predicate: claims C15 and C18 -/

theorem cards_emitted_cons_none (d : pa_classify_card_def) (rest : List pa_classify_card_def)
    (name : Option String) (profiles : List String) (flag_mask flag_value : Nat)
    (h : d.type = none) :
    cards_emitted (d :: rest) name profiles flag_mask flag_value = [] := by
  simp [cards_emitted, card_rules, List.takeWhile, h]

theorem cards_emitted_cons_some (d : pa_classify_card_def) (rest : List pa_classify_card_def)
    (name : Option String) (profiles : List String) (flag_mask flag_value : Nat) (t : String)
    (h : d.type = some t) :
    cards_emitted (d :: rest) name profiles flag_mask flag_value =
      if cards_rule_emits name profiles flag_mask flag_value d then
        t :: cards_emitted rest name profiles flag_mask flag_value
      else cards_emitted rest name profiles flag_mask flag_value := by
  by_cases he : cards_rule_emits name profiles flag_mask flag_value d = true
  · simp [cards_emitted, card_rules, List.takeWhile, h, he, List.filter]
  · simp [cards_emitted, card_rules, List.takeWhile, h, he, List.filter]

theorem cards_classify_loop_eq (name : Option String) (profiles : List String)
    (flag_mask flag_value len : Nat) (defs : List pa_classify_card_def) :
    ∀ (buf : String) (p : Nat) (s : String),
      cards_classify_loop name profiles flag_mask flag_value len defs buf p s =
        emit_tags len (cards_emitted defs name profiles flag_mask flag_value) buf p s := by
  induction defs with
  | nil => intro buf p s; rfl
  | cons d rest ih =>
    intro buf p s
    cases ht : d.type with
    | none =>
      rw [cards_emitted_cons_none d rest name profiles flag_mask flag_value ht]
      simp [cards_classify_loop, ht, emit_tags]
    | some t =>
      rw [cards_emitted_cons_some d rest name profiles flag_mask flag_value t ht]
      by_cases hm : method_call d.method name d.arg = true
      · by_cases hf : ((match d.data.profile with
            | none => true
            | some prof => cards_supports_profile prof profiles) &&
            decide (d.data.flags &&& flag_mask = flag_value)) = true
        · simp only [cards_classify_loop, ht, hm, hf, cards_rule_emits, emit_tags, ih,
            if_true, Bool.and_self]
        · simp only [cards_classify_loop, ht, hm, hf, cards_rule_emits, ih, if_true,
            Bool.true_and]
          simp
      · simp [cards_classify_loop, ht, hm, cards_rule_emits, ih]

theorem cards_classify_fits (defs : List pa_classify_card_def) (name : Option String)
    (profiles : List String) (flag_mask flag_value len : Nat)
    (h : (String.intercalate " "
      (cards_emitted defs name profiles flag_mask flag_value)).length < len) :
    cards_classify defs name profiles flag_mask flag_value len =
      some (String.intercalate " " (cards_emitted defs name profiles flag_mask flag_value),
        len - (String.intercalate " "
          (cards_emitted defs name profiles flag_mask flag_value)).length) := by
  have hlen : 0 < len := by omega
  simp only [cards_classify, hlen, if_true, cards_classify_loop_eq, emit_tags_fits len _ h]

theorem cards_supports_profile_iff (profile : String) (profiles : List String) :
    cards_supports_profile profile profiles = true ↔ profile ∈ profiles := by
  induction profiles with
  | nil => simp [cards_supports_profile]
  | cons q rest ih =>
    by_cases hq : profile = q
    · simp [cards_supports_profile, hq]
    · simp [cards_supports_profile, hq, ih]

/-- C15: card rules with a required profile. `cards_classify` emits the type of
a rule iff its method fires on the card name, its flags satisfy
`(flags & flag_mask) == flag_value`, and the rule has no profile or its profile
is equal to an element of the card's profile array: the tags emitted are the
types of exactly the rules before the sentinel that pass this test, in array
order, and they are left space-joined in every buffer longer than their
list. -/
theorem cards_classify_profile (defs : List pa_classify_card_def) (name : Option String)
    (profiles : List String) (flag_mask flag_value : Nat) :
    (∀ d : pa_classify_card_def,
        cards_rule_emits name profiles flag_mask flag_value d = true ↔
          method_call d.method name d.arg = true ∧
            d.data.flags &&& flag_mask = flag_value ∧
            (d.data.profile = none ∨ ∃ q ∈ profiles, d.data.profile = some q)) ∧
      cards_emitted defs name profiles flag_mask flag_value =
        ((defs.takeWhile (fun d => d.type.isSome)).filter
          (cards_rule_emits name profiles flag_mask flag_value)).filterMap (fun d => d.type) ∧
      (∀ len, (String.intercalate " "
          (cards_emitted defs name profiles flag_mask flag_value)).length < len →
        cards_classify defs name profiles flag_mask flag_value len =
          some (String.intercalate " " (cards_emitted defs name profiles flag_mask flag_value),
            len - (String.intercalate " "
              (cards_emitted defs name profiles flag_mask flag_value)).length)) ∧
      cards_classify
          (cards_add (fun _ => none)
            (cards_add (fun _ => none) pa_classify_card_new "bt"
              pa_classify_method.pa_method_startswith "bluez_" (some "a2dp") 0)
            "card" pa_classify_method.pa_method_startswith "bluez_" none 0).defs
          (some "bluez_card.dev") ["hsp", "a2dp"] 0 0 16 = some ("bt card", 9) ∧
      cards_classify
          (cards_add (fun _ => none)
            (cards_add (fun _ => none) pa_classify_card_new "bt"
              pa_classify_method.pa_method_startswith "bluez_" (some "a2dp") 0)
            "card" pa_classify_method.pa_method_startswith "bluez_" none 0).defs
          (some "bluez_card.dev") ["hsp"] 0 0 16 = some ("card", 12) := by
  refine ⟨?_, rfl, ?_, by decide, by decide⟩
  · intro d
    simp only [cards_rule_emits, Bool.and_eq_true, decide_eq_true_eq]
    constructor
    · rintro ⟨hm, hp, hf⟩
      refine ⟨hm, hf, ?_⟩
      cases hprof : d.data.profile with
      | none => exact Or.inl rfl
      | some prof =>
        rw [hprof] at hp
        exact Or.inr ⟨prof, (cards_supports_profile_iff prof profiles).mp hp, rfl⟩
    · rintro ⟨hm, hf, hp⟩
      refine ⟨hm, ?_, hf⟩
      rcases hp with hp | ⟨q, hq, hp⟩
      · rw [hp]
      · rw [hp]
        exact (cards_supports_profile_iff q profiles).mpr hq
  · intro len hlen
    exact cards_classify_fits defs name profiles flag_mask flag_value len hlen

/-- C18: the matches predicate is anchored. `pa_classify_method_matches` is
TRUE iff the subject is non-NULL and `regexec` reports a match whose overall
span starts at 0 and ends at the length of the subject while sub-expression 1
took no part (`rm_so == -1`); a reported match that covers only a proper part
of the subject is rejected. For the expression `^foo$` the subject `"foo"` is
accepted and `"foo "` and `"foobar"` are rejected. -/
theorem pa_classify_method_matches_anchored (s : Option String) (re : regex_t) :
    (pa_classify_method_matches s (pa_classify_arg.rexp re) = true ↔
        ∃ str m, s = some str ∧ re.regexec str = some m ∧ (m 0).rm_so = 0 ∧
          (m 0).rm_eo = (strlen str : Int) ∧ (m 1).rm_so = -1) ∧
      (∀ str m, re.regexec str = some m →
        ((m 0).rm_so ≠ 0 ∨ (m 0).rm_eo ≠ (strlen str : Int)) →
        pa_classify_method_matches (some str) (pa_classify_arg.rexp re) = false) ∧
      pa_classify_method_matches none (pa_classify_arg.rexp re) = false ∧
      pa_classify_method_matches (some "foo")
          (pa_classify_arg.rexp (regex_anchored_literal "foo")) = true ∧
      pa_classify_method_matches (some "foo ")
          (pa_classify_arg.rexp (regex_anchored_literal "foo")) = false ∧
      pa_classify_method_matches (some "foobar")
          (pa_classify_arg.rexp (regex_anchored_literal "foo")) = false := by
  refine ⟨?_, ?_, rfl, by decide, by decide, by decide⟩
  · cases s with
    | none => simp [pa_classify_method_matches]
    | some str =>
      cases hre : re.regexec str with
      | none => simp [pa_classify_method_matches, hre]
      | some m => simp [pa_classify_method_matches, hre, and_assoc]
  · intro str m hre hspan
    rcases hspan with h | h <;> simp [pa_classify_method_matches, hre, h]

/-! ## Adding device and card rules: claims C16 and C17 -/

theorem array_split {α : Type} (l : List α) (n : Nat) (h : n < l.length) :
    ∃ A z B, l = A ++ z :: B ∧ A.length = n ∧ l.get? n = some z ∧
      ∀ a ∈ A, ∃ i, i < n ∧ l.get? i = some a := by
  refine ⟨l.take n, l[n], l.drop (n + 1), ?_, ?_, ?_, ?_⟩
  · rw [← List.drop_eq_getElem_cons h, List.take_append_drop]
  · rw [List.length_take]; omega
  · rw [List.get?_eq_getElem?, List.getElem?_eq_getElem h]
  · intro a ha
    obtain ⟨i, hi⟩ := List.mem_iff_getElem?.mp ha
    rw [List.getElem?_take] at hi
    by_cases hin : i < n
    · rw [if_pos hin] at hi
      exact ⟨i, hin, by rw [List.get?_eq_getElem?]; exact hi⟩
    · rw [if_neg hin] at hi
      exact absurd hi (by simp)

theorem realloc_set {α : Type} (A B : List α) (z zero x : α) :
    ((A ++ z :: B).take (A.length + 1) ++ [zero]).set A.length x = A ++ [x, zero] := by
  induction A with
  | nil => simp
  | cons a rest ih => simpa using ih

theorem takeWhile_append_stop {α : Type} (p : α → Bool) (A B : List α) (z : α)
    (hA : ∀ a ∈ A, p a = true) (hz : p z = false) : (A ++ z :: B).takeWhile p = A := by
  induction A with
  | nil => simp [List.takeWhile, hz]
  | cons a rest ih =>
    have ha : p a = true := hA a (by simp)
    rw [List.cons_append, List.takeWhile_cons, ha, if_pos rfl,
      ih (fun b hb => hA b (by simp [hb]))]

theorem devices_wf_split (devs : pa_classify_device) (hwf : devices_wf devs) :
    ∃ A z B, devs.defs = A ++ z :: B ∧ A.length = devs.ndef ∧
      (∀ a ∈ A, a.type.isSome = true) ∧ z.type.isSome = false := by
  obtain ⟨A, z, B, hl, hlen, hz, hA⟩ := array_split devs.defs devs.ndef hwf.1
  refine ⟨A, z, B, hl, hlen, ?_, ?_⟩
  · intro a ha
    obtain ⟨i, hi, hget⟩ := hA a ha
    have := hwf.2.1 i a hi hget
    cases hty : a.type with
    | none => exact absurd hty this
    | some t => rfl
  · rw [hwf.2.2 z hz]; rfl

theorem devices_wf_of_split (n : Nat) (A : List pa_classify_device_def)
    (x zero : pa_classify_device_def) (hlen : A.length = n)
    (hA : ∀ a ∈ A, a.type.isSome = true) (hx : x.type = none) :
    devices_wf { ndef := n, defs := A ++ [x, zero] } := by
  subst hlen
  refine ⟨by simp, ?_, ?_⟩
  · intro i d hi hget
    simp only [List.get?_eq_getElem?] at hget
    rw [List.getElem?_append_left hi] at hget
    have hmem : d ∈ A := List.mem_iff_getElem?.mpr ⟨i, hget⟩
    have := hA d hmem
    intro hnone
    rw [hnone] at this
    exact Bool.noConfusion this
  · intro d hget
    simp only [List.get?_eq_getElem?] at hget
    rw [List.getElem?_append_right (Nat.le_refl _)] at hget
    simp at hget
    rw [← hget]; exact hx

theorem devices_emitted_congr (a b : List pa_classify_device_def)
    (h : device_rules a = device_rules b) (proplist : Option pa_proplist)
    (name : Option String) (flag_mask flag_value : Nat) :
    devices_emitted a proplist name flag_mask flag_value =
      devices_emitted b proplist name flag_mask flag_value := by
  simp only [devices_emitted, h]

theorem devices_classify_congr (a b : List pa_classify_device_def)
    (h : device_rules a = device_rules b) (proplist : Option pa_proplist)
    (name : Option String) (flag_mask flag_value len : Nat) :
    devices_classify a proplist name flag_mask flag_value len =
      devices_classify b proplist name flag_mask flag_value len := by
  simp only [devices_classify, devices_classify_loop_eq,
    devices_emitted_congr a b h proplist name flag_mask flag_value]

theorem devices_add_invalid (devs : pa_classify_device)
    (A : List pa_classify_device_def) (z : pa_classify_device_def)
    (B : List pa_classify_device_def) (hl : devs.defs = A ++ z :: B)
    (hlen : A.length = devs.ndef) :
    ({ ndef := devs.ndef,
       defs := (devs.defs.take (devs.ndef + 1) ++ [pa_classify_device_def_zero]).set devs.ndef
         pa_classify_device_def_zero } : pa_classify_device) =
      { ndef := devs.ndef,
        defs := A ++ [pa_classify_device_def_zero, pa_classify_device_def_zero] } := by
  rw [hl, ← hlen, realloc_set]

theorem card_is_typeof_eq (defs : List pa_classify_card_def) (name : Option String)
    (type : String) :
    card_is_typeof defs name type =
      ((card_rules defs).find? (fun d =>
        decide (d.type = some type) && method_call d.method name d.arg)).map
        (fun d => d.data) := by
  induction defs with
  | nil => rfl
  | cons d rest ih =>
    cases ht : d.type with
    | none => simp [card_is_typeof, card_rules, List.takeWhile, ht]
    | some t =>
      have hrules : card_rules (d :: rest) = d :: card_rules rest := by
        simp [card_rules, List.takeWhile, ht]
      rw [hrules, List.find?_cons]
      by_cases hty : type = t
      · subst hty
        by_cases hm : method_call d.method name d.arg = true
        · simp [card_is_typeof, ht, hm]
        · simp [card_is_typeof, ht, hm, ih]
      · have hne : ¬ t = type := fun h => hty h.symm
        simp [card_is_typeof, ht, hty, hne, ih]

theorem cards_wf_split (cards : pa_classify_card) (hwf : cards_wf cards) :
    ∃ A z B, cards.defs = A ++ z :: B ∧ A.length = cards.ndef ∧
      (∀ a ∈ A, a.type.isSome = true) ∧ z.type.isSome = false := by
  obtain ⟨A, z, B, hl, hlen, hz, hA⟩ := array_split cards.defs cards.ndef hwf.1
  refine ⟨A, z, B, hl, hlen, ?_, ?_⟩
  · intro a ha
    obtain ⟨i, hi, hget⟩ := hA a ha
    have := hwf.2.1 i a hi hget
    cases hty : a.type with
    | none => exact absurd hty this
    | some t => rfl
  · rw [hwf.2.2 z hz]; rfl

theorem cards_wf_of_split (n : Nat) (A : List pa_classify_card_def)
    (x zero : pa_classify_card_def) (hlen : A.length = n)
    (hA : ∀ a ∈ A, a.type.isSome = true) (hx : x.type = none) :
    cards_wf { ndef := n, defs := A ++ [x, zero] } := by
  subst hlen
  refine ⟨by simp, ?_, ?_⟩
  · intro i d hi hget
    simp only [List.get?_eq_getElem?] at hget
    rw [List.getElem?_append_left hi] at hget
    have hmem : d ∈ A := List.mem_iff_getElem?.mpr ⟨i, hget⟩
    have := hA d hmem
    intro hnone
    rw [hnone] at this
    exact Bool.noConfusion this
  · intro d hget
    simp only [List.get?_eq_getElem?] at hget
    rw [List.getElem?_append_right (Nat.le_refl _)] at hget
    simp at hget
    rw [← hget]; exact hx

theorem cards_classify_congr (a b : List pa_classify_card_def)
    (h : card_rules a = card_rules b) (name : Option String) (profiles : List String)
    (flag_mask flag_value len : Nat) :
    cards_classify a name profiles flag_mask flag_value len =
      cards_classify b name profiles flag_mask flag_value len := by
  simp only [cards_classify, cards_classify_loop_eq, cards_emitted, h]

theorem devices_add_matches_invalid (regcomp : String → Option regex_t)
    (devs : pa_classify_device) (type prop arg : String) (flags : Nat)
    (hre : regcomp arg = none) (hwf : devices_wf devs) :
    (devices_add regcomp devs type prop pa_classify_method.pa_method_matches arg flags).ndef
        = devs.ndef ∧
      device_rules
          (devices_add regcomp devs type prop pa_classify_method.pa_method_matches arg
            flags).defs = device_rules devs.defs ∧
      devices_wf
        (devices_add regcomp devs type prop pa_classify_method.pa_method_matches arg flags) := by
  obtain ⟨A, z, B, hl, hlen, hA, hz⟩ := devices_wf_split devs hwf
  have hafter : devices_add regcomp devs type prop pa_classify_method.pa_method_matches arg
      flags = { ndef := devs.ndef,
                defs := A ++ [pa_classify_device_def_zero, pa_classify_device_def_zero] } := by
    simp only [devices_add, hre]
    exact devices_add_invalid devs A z B hl hlen
  rw [hafter]
  refine ⟨rfl, ?_, devices_wf_of_split devs.ndef A _ _ hlen hA rfl⟩
  simp only [device_rules]
  rw [hl, takeWhile_append_stop _ A B z hA hz,
    takeWhile_append_stop _ A [pa_classify_device_def_zero] pa_classify_device_def_zero hA rfl]

theorem cards_add_matches_invalid (regcomp : String → Option regex_t)
    (cards : pa_classify_card) (type arg : String) (profile : Option String) (flags : Nat)
    (hre : regcomp arg = none) (hwf : cards_wf cards) :
    (cards_add regcomp cards type pa_classify_method.pa_method_matches arg profile flags).ndef
        = cards.ndef ∧
      card_rules
          (cards_add regcomp cards type pa_classify_method.pa_method_matches arg profile
            flags).defs = card_rules cards.defs ∧
      cards_wf
        (cards_add regcomp cards type pa_classify_method.pa_method_matches arg profile flags) := by
  obtain ⟨A, z, B, hl, hlen, hA, hz⟩ := cards_wf_split cards hwf
  have hafter : cards_add regcomp cards type pa_classify_method.pa_method_matches arg profile
      flags = { ndef := cards.ndef,
                defs := A ++ [pa_classify_card_def_zero, pa_classify_card_def_zero] } := by
    simp only [cards_add, hre]
    rw [hl, ← hlen, realloc_set]
  rw [hafter]
  refine ⟨rfl, ?_, cards_wf_of_split cards.ndef A _ _ hlen hA rfl⟩
  simp only [card_rules]
  rw [hl, takeWhile_append_stop _ A B z hA hz,
    takeWhile_append_stop _ A [pa_classify_card_def_zero] pa_classify_card_def_zero hA rfl]

/-- C16: a device or card rule whose regular expression does not compile is
discarded without advancing the table. For a well-formed table (the `ndef`
rules followed by the sentinel), after `devices_add` / `cards_add` with method
matches and an argument `regcomp` rejects, the rule count is unchanged, the
rules before the sentinel are the same in the same order, the table is still
well formed (the entry at `ndef` has a NULL type), and every result of
`devices_classify`, `devices_is_typeof`, `cards_classify` and `card_is_typeof`
is unchanged. -/
theorem add_invalid_regex_discarded (regcomp : String → Option regex_t) (arg : String)
    (hre : regcomp arg = none) (devs : pa_classify_device) (hdevs : devices_wf devs)
    (cards : pa_classify_card) (hcards : cards_wf cards) (type prop : String)
    (profile : Option String) (flags : Nat) :
    ((devices_add regcomp devs type prop pa_classify_method.pa_method_matches arg flags).ndef
          = devs.ndef ∧
        device_rules
            (devices_add regcomp devs type prop pa_classify_method.pa_method_matches arg
              flags).defs = device_rules devs.defs ∧
        devices_wf
          (devices_add regcomp devs type prop pa_classify_method.pa_method_matches arg flags) ∧
        (∀ (pl : Option pa_proplist) (name : Option String) (flag_mask flag_value len : Nat),
          devices_classify
              (devices_add regcomp devs type prop pa_classify_method.pa_method_matches arg
                flags).defs pl name flag_mask flag_value len =
            devices_classify devs.defs pl name flag_mask flag_value len) ∧
        (∀ (pl : Option pa_proplist) (name : Option String) (t : String),
          devices_is_typeof
              (devices_add regcomp devs type prop pa_classify_method.pa_method_matches arg
                flags).defs pl name t = devices_is_typeof devs.defs pl name t)) ∧
      ((cards_add regcomp cards type pa_classify_method.pa_method_matches arg profile
            flags).ndef = cards.ndef ∧
        card_rules
            (cards_add regcomp cards type pa_classify_method.pa_method_matches arg profile
              flags).defs = card_rules cards.defs ∧
        cards_wf
          (cards_add regcomp cards type pa_classify_method.pa_method_matches arg profile
            flags) ∧
        (∀ (name : Option String) (profiles : List String) (flag_mask flag_value len : Nat),
          cards_classify
              (cards_add regcomp cards type pa_classify_method.pa_method_matches arg profile
                flags).defs name profiles flag_mask flag_value len =
            cards_classify cards.defs name profiles flag_mask flag_value len) ∧
        (∀ (name : Option String) (t : String),
          card_is_typeof
              (cards_add regcomp cards type pa_classify_method.pa_method_matches arg profile
                flags).defs name t = card_is_typeof cards.defs name t)) := by
  obtain ⟨hd1, hd2, hd3⟩ := devices_add_matches_invalid regcomp devs type prop arg flags hre hdevs
  obtain ⟨hc1, hc2, hc3⟩ :=
    cards_add_matches_invalid regcomp cards type arg profile flags hre hcards
  refine ⟨⟨hd1, hd2, hd3, ?_, ?_⟩, ⟨hc1, hc2, hc3, ?_, ?_⟩⟩
  · intro pl name flag_mask flag_value len
    exact devices_classify_congr _ _ hd2 pl name flag_mask flag_value len
  · intro pl name t
    rw [devices_is_typeof_eq, devices_is_typeof_eq, hd2]
  · intro name profiles flag_mask flag_value len
    exact cards_classify_congr _ _ hc2 name profiles flag_mask flag_value len
  · intro name t
    rw [card_is_typeof_eq, card_is_typeof_eq, hc2]

theorem devices_wf_new : devices_wf pa_classify_device_new := by
  refine ⟨by decide, ?_, ?_⟩
  · intro i d hi; exact absurd hi (Nat.not_lt_zero i)
  · intro d hd
    simp only [pa_classify_device_new, List.get?_cons_zero, Option.some.injEq] at hd
    rw [← hd]; rfl

theorem cards_wf_new : cards_wf pa_classify_card_new := by
  refine ⟨by decide, ?_, ?_⟩
  · intro i d hi; exact absurd hi (Nat.not_lt_zero i)
  · intro d hd
    simp only [pa_classify_card_new, List.get?_cons_zero, Option.some.injEq] at hd
    rw [← hd]; rfl

theorem add_invalid_regex_discarded_witness :
    devices_wf pa_classify_device_new ∧ cards_wf pa_classify_card_new ∧
      (devices_add (fun _ => none) pa_classify_device_new "bt" "name"
          pa_classify_method.pa_method_matches "[a" 0x02).ndef = 0 ∧
      (cards_add (fun _ => none) pa_classify_card_new "bt"
          pa_classify_method.pa_method_matches "[a" none 0x02).ndef = 0 :=
  ⟨devices_wf_new, cards_wf_new,
    (add_invalid_regex_discarded (fun _ => none) "[a" rfl pa_classify_device_new
      devices_wf_new pa_classify_card_new cards_wf_new "bt" "name" none 0x02).1.1,
    (add_invalid_regex_discarded (fun _ => none) "[a" rfl pa_classify_device_new
      devices_wf_new pa_classify_card_new cards_wf_new "bt" "name" none 0x02).2.1⟩

/-- C17 (as stated, refuted): `devices_add` and `cards_add` with the method
`pa_method_true` on the empty tables end in `default:` of the switch, which
rejects the definition: the entry is zeroed and the count is not incremented,
so the table has no rule afterwards and no tag is emitted for any endpoint.
Only `streams_add` accepts `pa_method_true` and stores a rule whose method
fires on every subject. -/
theorem add_method_true_discarded :
    (devices_add (fun _ => none) pa_classify_device_new "any" "name"
        pa_classify_method.pa_method_true "" 0).ndef = 0 ∧
      (device_rules
        (devices_add (fun _ => none) pa_classify_device_new "any" "name"
          pa_classify_method.pa_method_true "" 0).defs).length = 0 ∧
      devices_classify
        (devices_add (fun _ => none) pa_classify_device_new "any" "name"
          pa_classify_method.pa_method_true "" 0).defs
        (some []) (some "sink.hw0") 0 0 16 = some ("", 16) ∧
      (cards_add (fun _ => none) pa_classify_card_new "any"
        pa_classify_method.pa_method_true "" none 0).ndef = 0 ∧
      cards_classify
        (cards_add (fun _ => none) pa_classify_card_new "any"
          pa_classify_method.pa_method_true "" none 0).defs
        (some "card0") [] 0 0 16 = some ("", 16) ∧
      (streams_add_node (fun _ => none) (some "name") pa_classify_method.pa_method_true
        (some "") none uid_minus1 none "any").map
        (fun d => (d.method.isSome, PROPERTY_MATCH d "sink.hw0")) = some (true, true) := by
  refine ⟨rfl, by decide, by decide, rfl, by decide, by decide⟩

/-! ## The group store: claims C19 and C20 -/

theorem hash_fold_mod (M : Nat) (l : List Nat) (x y : Nat) (h : x % M = y % M) :
    l.foldl (fun h c => 38501 * (h + c)) x % M = l.foldl (fun h c => 38501 * (h + c)) y % M := by
  induction l generalizing x y with
  | nil => exact h
  | cons c rest ih =>
    simp only [List.foldl_cons]
    apply ih
    have h1 : (x + c) % M = (y + c) % M := by
      rw [Nat.add_mod x c M, h, ← Nat.add_mod y c M]
    rw [Nat.mul_mod 38501 (x + c) M, h1, ← Nat.mul_mod 38501 (y + c) M]

theorem hash_value_loop_eq (l : List Char) (h : Nat) :
    hash_value_loop l (h % 2 ^ 32) =
      (l.map (fun c => c.toNat % 256)).foldl (fun h c => 38501 * (h + c)) h % 2 ^ 32 := by
  induction l generalizing h with
  | nil => rfl
  | cons c rest ih =>
    simp only [hash_value_loop, List.map_cons, List.foldl_cons]
    rw [ih]
    apply hash_fold_mod
    rw [Nat.mul_mod, Nat.mod_mod, ← Nat.mul_mod]
    rw [Nat.mul_mod 38501 (h % 2 ^ 32 + c.toNat % 256), Nat.add_mod (h % 2 ^ 32),
      Nat.mod_mod, ← Nat.add_mod, ← Nat.mul_mod]

/-- C20: the group hash. `hash_value(s)` is the fold `h <- 38501 * (h + c)`
from 0 over the bytes of the name as unsigned values, taken modulo 2^32 and
ANDed with `PA_POLICY_GROUP_HASH_MASK`; hence the hash of the empty and of the
absent name is 0, the result is below `PA_POLICY_GROUP_HASH_DIM`, it is the
fold modulo the table width when that width is at most 2^32, and names with
equal bytes get equal buckets. -/
theorem hash_value_spec (bits : Nat) (s : Option String) :
    hash_value bits s =
        ((match s with
          | some str => hash_fold_spec (str.data.map (fun c => c.toNat % 256))
          | none => 0) % 2 ^ 32) &&& PA_POLICY_GROUP_HASH_MASK bits ∧
      hash_value bits (some "") = 0 ∧
      hash_value bits none = 0 ∧
      hash_value bits s < PA_POLICY_GROUP_HASH_DIM bits ∧
      (bits ≤ 32 →
        hash_value bits s =
          (match s with
            | some str => hash_fold_spec (str.data.map (fun c => c.toNat % 256))
            | none => 0) % PA_POLICY_GROUP_HASH_DIM bits) ∧
      (∀ a b : String, a.data = b.data →
        hash_value bits (some a) = hash_value bits (some b)) := by
  have hmain : hash_value bits s =
      ((match s with
        | some str => hash_fold_spec (str.data.map (fun c => c.toNat % 256))
        | none => 0) % 2 ^ 32) &&& PA_POLICY_GROUP_HASH_MASK bits := by
    cases s with
    | none => rfl
    | some str =>
      simp only [hash_value, hash_fold_spec]
      rw [← hash_value_loop_eq str.data 0, Nat.zero_mod]
  have hmask : ∀ x : Nat, x &&& PA_POLICY_GROUP_HASH_MASK bits = x % 2 ^ bits := by
    intro x
    simp only [PA_POLICY_GROUP_HASH_MASK, PA_POLICY_GROUP_HASH_DIM]
    exact Nat.and_pow_two_sub_one_eq_mod x bits
  refine ⟨hmain, ?_, ?_, ?_, ?_, ?_⟩
  · simp [hash_value, hash_value_loop]
  · simp [hash_value]
  · rw [hmain, hmask]
    exact Nat.mod_lt _ (Nat.two_pow_pos bits)
  · intro hbits
    rw [hmain, hmask]
    simp only [PA_POLICY_GROUP_HASH_DIM]
    exact Nat.mod_mod_of_dvd _ (Nat.pow_dvd_pow 2 hbits)
  · intro a b hab
    simp only [hash_value, hab]

theorem hash_value_spec_witness :
    (6 : Nat) ≤ 32 ∧
      hash_value 6 (some "music") =
        hash_fold_spec ("music".data.map (fun c => c.toNat % 256)) %
          PA_POLICY_GROUP_HASH_DIM 6 :=
  ⟨by decide, (hash_value_spec 6 (some "music")).2.2.2.2.1 (by decide)⟩

theorem find_group_by_name_loop_eq (name : String) (chain : List pa_policy_group) :
    find_group_by_name_loop name chain =
      first_index (fun g => decide (name = g.name)) chain := by
  induction chain with
  | nil => rfl
  | cons g rest ih => simp [find_group_by_name_loop, first_index, ih]

theorem filter_name_singleton (N : String) (l : List pa_policy_group) (g : pa_policy_group)
    (hl : l.Pairwise (fun a b => a.name ≠ b.name)) (hg : g ∈ l) (hN : g.name = N) :
    l.filter (fun x => decide (x.name = N)) = [g] := by
  induction l with
  | nil => simp at hg
  | cons y rest ih =>
    rw [List.pairwise_cons] at hl
    rcases List.mem_cons.mp hg with hgy | hgr
    · subst hgy
      have hrest : rest.filter (fun x => decide (x.name = N)) = [] := by
        rw [List.filter_eq_nil_iff]
        intro x hx hxN
        simp only [decide_eq_true_eq] at hxN
        exact hl.1 x hx (hN.trans hxN.symm)
      simp [List.filter, hN, hrest]
    · have hy : y.name ≠ N := fun h => hl.1 g hgr (h.trans hN.symm)
      simp only [List.filter, hy, decide_False]
      exact ih hl.2 hgr

theorem pa_policy_group_new_found (bits : Nat) (u : policy_group_state) (N : String)
    (F : Nat) (pos : Nat)
    (h : find_group_by_name_loop N (u.groups.hash_tbl (hash_value bits (some N))) = some pos) :
    pa_policy_group_new bits u N F = (u, pos) := by
  simp only [pa_policy_group_new, find_group_by_name, h]

theorem pa_policy_group_new_created (bits : Nat) (u : policy_group_state) (N : String)
    (F : Nat)
    (h : find_group_by_name_loop N (u.groups.hash_tbl (hash_value bits (some N))) = none) :
    pa_policy_group_new bits u N F =
      ({ u with
          groups := { u.groups with
            hash_tbl := Function.update u.groups.hash_tbl (hash_value bits (some N))
              ({ flags := F, name := N, sink := u.defsink, sinpidx := u.defidx, source := none,
                 limit := PA_VOLUME_NORM, corked := 0, sinpls := [], soutls := [] } ::
                u.groups.hash_tbl (hash_value bits (some N))) } }, 0) := by
  simp only [pa_policy_group_new, find_group_by_name, h]

theorem pa_policy_groupset_wf_new (bits : Nat) :
    pa_policy_groupset_wf bits pa_policy_groupset_new.groups := by
  intro i
  simp [pa_policy_groupset_new]

/-- C19 (as stated, refuted): the store already holds the group `"music"` with
flags 1. `create_group("music", 2)` and then `create_group("music", 4)` both
return that group, whose flags are still 1, not the flags 2 of the first of
the two calls. -/
theorem pa_policy_group_new_keeps_existing_flags :
    ((pa_policy_group_new 6
          (pa_policy_group_new 6 (pa_policy_group_new 6 pa_policy_groupset_new "music" 1).1
            "music" 2).1 "music" 4).1.groups.hash_tbl (hash_value 6 (some "music"))).map
        (fun g => (g.name, g.flags)) = [("music", 1)] ∧
      (pa_policy_group_new 6 (pa_policy_group_new 6 pa_policy_groupset_new "music" 1).1
        "music" 2).2 = 0 ∧
      (pa_policy_group_new 6
        (pa_policy_group_new 6 (pa_policy_group_new 6 pa_policy_groupset_new "music" 1).1
          "music" 2).1 "music" 4).2 = 0 := by
  refine ⟨by decide, by decide, by decide⟩

/-- C19 (amended): create_group is create-or-find. For every well-formed store
(every group in the bucket of its name, no name twice in a chain), name `N` and
flag words `F`, `F2`: `create_group(N, F)` followed by `create_group(N, F2)`
returns the same group both times and the second call leaves the whole store
as it was (flags, limit, corked state, endpoints and membership lists of the
group included); the store then holds exactly one group named `N`, in the
bucket of `N`, which is the group returned. Its flags are `F`, with the limit
`PA_VOLUME_NORM`, the default sink and empty lists, when no group named `N`
existed before the first call; otherwise it is the group that existed, with
the flags it had. The store stays well formed. -/
theorem pa_policy_group_new_create_or_find (bits : Nat) (u : policy_group_state)
    (N : String) (F F2 : Nat) (hwf : pa_policy_groupset_wf bits u.groups) :
    pa_policy_group_new bits (pa_policy_group_new bits u N F).1 N F2 =
        pa_policy_group_new bits u N F ∧
      pa_policy_groupset_wf bits (pa_policy_group_new bits u N F).1.groups ∧
      (∀ i, ∀ x ∈ (pa_policy_group_new bits u N F).1.groups.hash_tbl i, x.name = N →
        i = hash_value bits (some N)) ∧
      ∃ g, ((pa_policy_group_new bits u N F).1.groups.hash_tbl
            (hash_value bits (some N))).get? (pa_policy_group_new bits u N F).2 = some g ∧
        g.name = N ∧
        ((pa_policy_group_new bits u N F).1.groups.hash_tbl (hash_value bits (some N))).filter
          (fun x => decide (x.name = N)) = [g] ∧
        ((find_group_by_name bits u.groups N).1 = none →
          g = { flags := F, name := N, sink := u.defsink, sinpidx := u.defidx, source := none,
                limit := PA_VOLUME_NORM, corked := 0, sinpls := [], soutls := [] }) ∧
        (∀ pos, (find_group_by_name bits u.groups N).1 = some pos →
          (u.groups.hash_tbl (hash_value bits (some N))).get? pos = some g ∧
            (pa_policy_group_new bits u N F).1 = u) := by
  cases hf : find_group_by_name_loop N (u.groups.hash_tbl (hash_value bits (some N))) with
  | some pos =>
    have hnew := pa_policy_group_new_found bits u N F pos hf
    rw [hnew]
    have hf2 := hf
    rw [find_group_by_name_loop_eq] at hf2
    obtain ⟨g, hg, hgN⟩ := first_index_some _ _ _ hf2
    simp only [decide_eq_true_eq] at hgN
    have hmem : g ∈ u.groups.hash_tbl (hash_value bits (some N)) := by
      rw [List.get?_eq_getElem?] at hg
      exact List.mem_iff_getElem?.mpr ⟨pos, hg⟩
    refine ⟨pa_policy_group_new_found bits u N F2 pos hf, hwf, ?_, g, hg, hgN.symm, ?_, ?_, ?_⟩
    · intro i x hx hxN
      rw [← hxN]; exact ((hwf i).1 x hx).symm
    · exact filter_name_singleton N _ g (hwf _).2 hmem hgN.symm
    · intro hnone
      simp only [find_group_by_name, hf] at hnone
      exact absurd hnone (by simp)
    · intro pos2 hpos2
      simp only [find_group_by_name, hf, Option.some.injEq] at hpos2
      rw [← hpos2]
      exact ⟨hg, rfl⟩
  | none =>
    have hnew := pa_policy_group_new_created bits u N F hf
    rw [hnew]
    have hall : ∀ x ∈ u.groups.hash_tbl (hash_value bits (some N)), x.name ≠ N := by
      rw [find_group_by_name_loop_eq, first_index_eq_none] at hf
      intro x hx hxN
      have := hf x hx
      simp only [decide_eq_false_iff_not] at this
      exact this hxN.symm
    refine ⟨?_, ?_, ?_,
      { flags := F, name := N, sink := u.defsink, sinpidx := u.defidx, source := none,
        limit := PA_VOLUME_NORM, corked := 0, sinpls := [], soutls := [] },
      ?_, rfl, ?_, ?_, ?_⟩
    · apply pa_policy_group_new_found
      simp [find_group_by_name_loop]
    · intro i
      by_cases hi : i = hash_value bits (some N)
      · subst hi
        simp only [Function.update_same, List.mem_cons, List.pairwise_cons]
        refine ⟨?_, ?_, (hwf _).2⟩
        · rintro x (hx | hx)
          · rw [hx]
          · exact (hwf _).1 x hx
        · intro x hx
          exact fun h => hall x hx h.symm
      · simp only [Function.update_noteq hi]
        exact hwf i
    · intro i x hx hxN
      by_cases hi : i = hash_value bits (some N)
      · exact hi
      · simp only [Function.update_noteq hi] at hx
        rw [← hxN]; exact ((hwf i).1 x hx).symm
    · simp
    · simp only [Function.update_same, List.filter, decide_True]
      congr 1
      rw [List.filter_eq_nil_iff]
      intro x hx
      simpa using hall x hx
    · intro _; rfl
    · intro pos hpos
      simp only [find_group_by_name, hf] at hpos
      exact absurd hpos (by simp)

theorem pa_policy_group_new_create_or_find_witness :
    pa_policy_groupset_wf 6 pa_policy_groupset_new.groups ∧
      pa_policy_group_new 6 (pa_policy_group_new 6 pa_policy_groupset_new "music" 3).1
          "music" 5 = pa_policy_group_new 6 pa_policy_groupset_new "music" 3 :=
  ⟨pa_policy_groupset_wf_new 6,
    (pa_policy_group_new_create_or_find 6 pa_policy_groupset_new "music" 3 5
      (pa_policy_groupset_wf_new 6)).1⟩


/-! ## Lemmas on the group operations -/

theorem hash_value_lt (bits : Nat) (s : Option String) :
    hash_value bits s < PA_POLICY_GROUP_HASH_DIM bits := by
  have hmask : ∀ x : Nat, x &&& PA_POLICY_GROUP_HASH_MASK bits = x % 2 ^ bits := by
    intro x
    simp only [PA_POLICY_GROUP_HASH_MASK, PA_POLICY_GROUP_HASH_DIM]
    exact Nat.and_pow_two_sub_one_eq_mod x bits
  cases s with
  | none =>
    simp only [hash_value, hmask]
    exact Nat.mod_lt _ (Nat.two_pow_pos bits)
  | some str =>
    simp only [hash_value, hmask]
    exact Nat.mod_lt _ (Nat.two_pow_pos bits)

theorem first_index_modify_at {α : Type} (p : α → Bool) (f : α → α) (l : List α) (i : Nat)
    (hf : ∀ x, l.get? i = some x → p (f x) = p x) :
    first_index p (l.modify f i) = first_index p l := by
  induction l generalizing i with
  | nil => simp
  | cons x rest ih =>
    cases i with
    | zero =>
      have hx := hf x (by simp)
      simp [first_index, hx]
    | succ n =>
      rw [List.modify_succ_cons]
      have := ih n (fun y hy => hf y (by simpa using hy))
      simp only [first_index, this]

theorem find_group_some (bits : Nat) (gset : pa_policy_groupset) (name : String)
    (idx pos : Nat) (g : pa_policy_group)
    (h : find_group bits gset name = some (idx, pos, g)) :
    idx = hash_value bits (some name) ∧ (gset.hash_tbl idx).get? pos = some g ∧
      g.name = name ∧
      first_index (fun x => decide (name = x.name)) (gset.hash_tbl idx) = some pos := by
  simp only [find_group, find_group_by_name, find_group_by_name_loop_eq] at h
  cases hf : first_index (fun x => decide (name = x.name))
      (gset.hash_tbl (hash_value bits (some name))) with
  | none => rw [hf] at h; simp at h
  | some p =>
    rw [hf] at h
    obtain ⟨x, hx, hpx⟩ := first_index_some _ _ _ hf
    simp only [hx, Option.map_some', Option.some.injEq, Prod.mk.injEq] at h
    obtain ⟨h1, h2, h3⟩ := h
    subst h1; subst h2; subst h3
    refine ⟨rfl, hx, ?_, hf⟩
    exact (of_decide_eq_true hpx).symm

theorem find_group_none (bits : Nat) (gset : pa_policy_groupset) (name : String) :
    find_group bits gset name = none ↔
      ∀ g ∈ gset.hash_tbl (hash_value bits (some name)), g.name ≠ name := by
  simp only [find_group, find_group_by_name, find_group_by_name_loop_eq]
  cases hf : first_index (fun x => decide (name = x.name))
      (gset.hash_tbl (hash_value bits (some name))) with
  | none =>
    simp only [true_iff]
    intro g hg hgn
    have := (first_index_eq_none _ _).mp hf g hg
    simp [hgn] at this
  | some p =>
    obtain ⟨x, hx, hpx⟩ := first_index_some _ _ _ hf
    simp only [hx, Option.map_some']
    constructor
    · intro hc
      simp at hc
    · intro hall
      exfalso
      refine hall x (List.mem_iff_getElem?.mpr ⟨p, by simpa [List.get?_eq_getElem?] using hx⟩) ?_
      exact (of_decide_eq_true hpx).symm

theorem find_group_of_first (bits : Nat) (gset : pa_policy_groupset) (name : String)
    (pos : Nat) (g : pa_policy_group)
    (hf : first_index (fun x => decide (name = x.name))
      (gset.hash_tbl (hash_value bits (some name))) = some pos)
    (hg : (gset.hash_tbl (hash_value bits (some name))).get? pos = some g) :
    find_group bits gset name = some (hash_value bits (some name), pos, g) := by
  simp only [find_group, find_group_by_name, find_group_by_name_loop_eq, hf, hg,
    Option.map_some']

theorem find_group_modify_self (bits : Nat) (gset : pa_policy_groupset) (name : String)
    (idx pos : Nat) (g : pa_policy_group) (f : pa_policy_group → pa_policy_group)
    (h : find_group bits gset name = some (idx, pos, g)) (hf : (f g).name = g.name) :
    find_group bits (groupset_modify gset idx pos f) name = some (idx, pos, f g) := by
  obtain ⟨hidx, hget, hname, hfirst⟩ := find_group_some bits gset name idx pos g h
  subst hidx
  apply find_group_of_first
  · simp only [groupset_modify, Function.update_same]
    rw [first_index_modify_at _ _ _ _ ?_]
    · exact hfirst
    · intro x hx
      rw [hget] at hx
      simp only [Option.some.injEq] at hx
      subst hx
      rw [hf]
  · simp only [groupset_modify, Function.update_same]
    rw [get_modify_self, hget]
    rfl

theorem pa_policy_group_find_eq (bits : Nat) (u : policy_group_state) (name : String)
    (idx pos : Nat) (g : pa_policy_group)
    (h : find_group bits u.groups name = some (idx, pos, g)) :
    pa_policy_group_find bits u name = some g := by
  simp [pa_policy_group_find, h]

theorem pa_policy_group_find_some (bits : Nat) (u : policy_group_state) (name : String)
    (g : pa_policy_group) (h : pa_policy_group_find bits u name = some g) :
    ∃ idx pos, find_group bits u.groups name = some (idx, pos, g) := by
  simp only [pa_policy_group_find] at h
  cases hf : find_group bits u.groups name with
  | none => rw [hf] at h; simp at h
  | some r =>
    rw [hf] at h
    simp only [Option.map_some', Option.some.injEq] at h
    obtain ⟨idx, pos, g2⟩ := r
    simp only at h
    subst h
    exact ⟨idx, pos, rfl⟩

theorem host_call_made_calls (h : host_state) (c : host_call) :
    (host_call_made h c).calls = h.calls ++ [c] := rfl

/-- C25: bulk actions are gated by the flags of the group. For a group found
by name that lacks the cork flag, `pa_policy_group_cork` returns 0 and leaves
the store and the host as they are (no host call, `corked` unchanged); for a
group that lacks the volume-limit flag, `pa_policy_group_volume_limit` returns
0 and leaves the store and the host as they are; for a group that lacks the
route flag and a destination type that resolves to a sink or to a source,
`pa_policy_group_move_to` returns 0 and leaves the store and the host as they
are. -/
theorem bulk_actions_gated_by_flags (bits : Nat) (core : pa_core)
    (PA_POLICY_GROUP_FLAG_CORK_STREAM PA_POLICY_GROUP_FLAG_LIMIT_VOLUME
      PA_POLICY_GROUP_FLAG_ROUTE_AUDIO : Nat)
    (sink : Option pa_sink) (u : policy_group_state) (h : host_state) (name : String)
    (G : pa_policy_group) (hG : pa_policy_group_find bits u name = some G) :
    (G.flags &&& PA_POLICY_GROUP_FLAG_CORK_STREAM = 0 → ∀ corked : Int,
        pa_policy_group_cork bits PA_POLICY_GROUP_FLAG_CORK_STREAM u h name corked =
          (u, h, 0)) ∧
      (G.flags &&& PA_POLICY_GROUP_FLAG_LIMIT_VOLUME = 0 → ∀ x : Nat,
        pa_policy_group_volume_limit bits core PA_POLICY_GROUP_FLAG_LIMIT_VOLUME u h
          (some name) x = some (u, h, 0)) ∧
      (G.flags &&& PA_POLICY_GROUP_FLAG_ROUTE_AUDIO = 0 → ∀ type : String,
        (∀ s, find_sink_by_type core type = some s →
          pa_policy_group_move_to bits core PA_POLICY_GROUP_FLAG_ROUTE_AUDIO sink u h
            (some name) pa_policy_route_class.pa_policy_route_to_sink type = (u, h, 0)) ∧
        (∀ s, find_source_by_type core type = some s →
          pa_policy_group_move_to bits core PA_POLICY_GROUP_FLAG_ROUTE_AUDIO sink u h
            (some name) pa_policy_route_class.pa_policy_route_to_source type = (u, h, 0))) := by
  obtain ⟨idx, pos, hfind⟩ := pa_policy_group_find_some bits u name G hG
  refine ⟨?_, ?_, ?_⟩
  · intro hflag corked
    simp only [pa_policy_group_cork, hfind, hflag, if_true]
  · intro hflag x
    simp only [pa_policy_group_volume_limit, group_or_dflt, hfind, hflag, if_true]
  · intro hflag type
    constructor
    · intro s hs
      simp only [pa_policy_group_move_to, hs, hfind, hflag, if_true]
      simp
    · intro s hs
      simp only [pa_policy_group_move_to, hs, hfind, hflag, if_true]
      simp

theorem bulk_actions_gated_by_flags_witness :
    pa_policy_group_find 6 example_store "ring" =
        some { flags := 0, name := "ring", sink := none, sinpidx := PA_IDXSET_INVALID,
               source := none, limit := PA_VOLUME_NORM, corked := 0, sinpls := [],
               soutls := [] } ∧
      pa_policy_group_cork 6 8 example_store host_state_new "ring" 1 =
        (example_store, host_state_new, 0) :=
  ⟨by decide,
    (bulk_actions_gated_by_flags 6 example_core 8 4 2 none example_store host_state_new "ring"
      { flags := 0, name := "ring", sink := none, sinpidx := PA_IDXSET_INVALID,
        source := none, limit := PA_VOLUME_NORM, corked := 0, sinpls := [], soutls := [] }
      (by decide)).1 (by decide) 1⟩

theorem find_sink_by_type_none (core : pa_core) (type : String)
    (h : ∀ s ∈ core.sinks, ∀ n, s.name = some n → core.is_sink_typeof n type = false) :
    find_sink_by_type core type = none := by
  simp only [find_sink_by_type, List.find?_eq_none]
  intro s hs
  cases hn : s.name with
  | none => simp
  | some n => simp [h s hs n hn]

theorem find_source_by_type_none (core : pa_core) (type : String)
    (h : ∀ s ∈ core.sources, ∀ n, s.name = some n → core.is_source_typeof n type = false) :
    find_source_by_type core type = none := by
  simp only [find_source_by_type, List.find?_eq_none]
  intro s hs
  cases hn : s.name with
  | none => simp
  | some n => simp [h s hs n hn]

/-- C29 (as stated, refuted): on the example store and host, where no sink is
of the type `nosuch`, `pa_policy_group_move_to` returns -1, not 0, for the
existing group `music` and also for all groups; no host call is made. -/
theorem move_to_unknown_type_not_success :
    ((pa_policy_group_move_to 6 example_core 2 none example_store host_state_new
          (some "music") pa_policy_route_class.pa_policy_route_to_sink "nosuch").2.2,
      (pa_policy_group_move_to 6 example_core 2 none example_store host_state_new
          none pa_policy_route_class.pa_policy_route_to_sink "nosuch").2.2,
      (pa_policy_group_move_to 6 example_core 2 none example_store host_state_new
          (some "music") pa_policy_route_class.pa_policy_route_to_sink "nosuch").2.1.calls) =
      (-1, -1, []) := by
  decide

/-- C29 (amended): a move to an endpoint type that no live endpoint is of is a
no-op that reports failure. For every store, host, route class and type tag
such that no sink and no source of the host is of that type,
`pa_policy_group_move_to`, for a named group or for all groups, returns -1,
makes no host call and leaves the store as it is. -/
theorem move_to_unknown_type_fails (bits : Nat) (core : pa_core)
    ( PA_POLICY_GROUP_FLAG_ROUTE_AUDIO : Nat) (sink : Option pa_sink)
    (u : policy_group_state) (h : host_state) (name : Option String)
    (class_ : pa_policy_route_class) (type : String)
    (hsinks : ∀ s ∈ core.sinks, ∀ n, s.name = some n → core.is_sink_typeof n type = false)
    (hsources : ∀ s ∈ core.sources, ∀ n, s.name = some n →
      core.is_source_typeof n type = false) :
    pa_policy_group_move_to bits core PA_POLICY_GROUP_FLAG_ROUTE_AUDIO sink u h name class_
      type = (u, h, -1) := by
  cases class_ <;>
    simp [pa_policy_group_move_to, find_sink_by_type_none core type hsinks,
      find_source_by_type_none core type hsources]

theorem move_to_unknown_type_fails_witness :
    pa_policy_group_move_to 6 example_core 2 none example_store host_state_new
        (some "ring") pa_policy_route_class.pa_policy_route_to_sink "headset" =
      (example_store, host_state_new, -1) :=
  move_to_unknown_type_fails 6 example_core 2 none example_store host_state_new
    (some "ring") pa_policy_route_class.pa_policy_route_to_sink "headset"
    (by decide) (by decide)

theorem move_group_loop_calls (core : pa_core) (sink : Option pa_sink)
    (l : List pa_sink_input_list) (h : host_state) (ret : Int) :
    (move_group_loop core sink l h ret).1.calls =
      h.calls ++ l.map (fun sl => host_call.sink_input_move_to sl.sink_input sink) := by
  induction l generalizing h ret with
  | nil => simp [move_group_loop]
  | cons sl rest ih =>
    simp only [move_group_loop, ih, host_call_made_calls, List.map_cons, List.append_assoc,
      List.singleton_append]

theorem move_group_loop_ret (core : pa_core) (sink : Option pa_sink)
    (l : List pa_sink_input_list) (h : host_state) (ret : Int) :
    (move_group_loop core sink l h ret).2 =
      if ∃ sl ∈ l, core.sink_input_move_to sl.sink_input sink < 0 then -1 else ret := by
  induction l generalizing h ret with
  | nil => simp [move_group_loop]
  | cons sl rest ih =>
    simp only [move_group_loop, ih, List.mem_cons, exists_eq_or_imp]
    by_cases h1 : core.sink_input_move_to sl.sink_input sink < 0
    · simp [h1]
    · simp [h1]

/-- C28 (as stated, refuted): the group `music` has the route flag and the
members 10, 11, 12; the host moves 10 and 11 and fails on 12, and `sink`, the
unassigned variable of `move_group`, happens to hold the loudspeaker.
`pa_policy_group_move_to(music, sink, "ihf")` makes the three move calls and
returns -1, and the sink of `music` is still NULL, not the loudspeaker. -/
theorem move_partial_failure_keeps_endpoint :
    ((pa_policy_group_move_to 6 example_core 2 (some example_ihf) example_bound.1
          example_bound.2 (some "music")
          pa_policy_route_class.pa_policy_route_to_sink "ihf").2.2,
      (pa_policy_group_find 6
          (pa_policy_group_move_to 6 example_core 2 (some example_ihf) example_bound.1
            example_bound.2 (some "music")
            pa_policy_route_class.pa_policy_route_to_sink "ihf").1 "music").map
        (fun g => (g.sink, g.sinpls.map (fun sl => sl.index))),
      (pa_policy_group_move_to 6 example_core 2 (some example_ihf) example_bound.1
          example_bound.2 (some "music")
          pa_policy_route_class.pa_policy_route_to_sink "ihf").2.1.calls) =
      (-1, some (none, [10, 11, 12]),
        [host_call.sink_input_move_to { index := 10 } (some example_ihf),
         host_call.sink_input_move_to { index := 11 } (some example_ihf),
         host_call.sink_input_move_to { index := 12 } (some example_ihf)]) := by
  decide

/-- C28 (amended): a group move with a failing member. For a group found by
name that has the route flag and a type that resolves to a sink,
`pa_policy_group_move_to` makes one move call for every member sink-input, in
list order, whatever the results; when the host fails on at least one member
the status is -1 and the store, with the sink of the group, is left as it was;
the sink of the group becomes the resolved sink, with status 0, only when no
member move failed. -/
theorem move_to_partial_failure (bits : Nat) (core : pa_core)
    ( PA_POLICY_GROUP_FLAG_ROUTE_AUDIO : Nat) (sink : Option pa_sink)
    (u : policy_group_state) (h : host_state) (name : String) (G : pa_policy_group)
    (type : String) (s : pa_sink)
    (hG : pa_policy_group_find bits u name = some G)
    (hflag : G.flags &&& PA_POLICY_GROUP_FLAG_ROUTE_AUDIO ≠ 0)
    (hs : find_sink_by_type core type = some s) :
    (pa_policy_group_move_to bits core PA_POLICY_GROUP_FLAG_ROUTE_AUDIO sink u h (some name)
        pa_policy_route_class.pa_policy_route_to_sink type).2.1.calls =
        h.calls ++ G.sinpls.map (fun sl => host_call.sink_input_move_to sl.sink_input sink) ∧
      ((∃ sl ∈ G.sinpls, core.sink_input_move_to sl.sink_input sink < 0) →
        (pa_policy_group_move_to bits core PA_POLICY_GROUP_FLAG_ROUTE_AUDIO sink u h
            (some name) pa_policy_route_class.pa_policy_route_to_sink type).2.2 = -1 ∧
          (pa_policy_group_move_to bits core PA_POLICY_GROUP_FLAG_ROUTE_AUDIO sink u h
            (some name) pa_policy_route_class.pa_policy_route_to_sink type).1 = u) ∧
      ((∀ sl ∈ G.sinpls, 0 ≤ core.sink_input_move_to sl.sink_input sink) →
        (pa_policy_group_move_to bits core PA_POLICY_GROUP_FLAG_ROUTE_AUDIO sink u h
            (some name) pa_policy_route_class.pa_policy_route_to_sink type).2.2 = 0 ∧
          pa_policy_group_find bits
            (pa_policy_group_move_to bits core PA_POLICY_GROUP_FLAG_ROUTE_AUDIO sink u h
              (some name) pa_policy_route_class.pa_policy_route_to_sink type).1 name =
            some { G with sink := some s }) := by
  obtain ⟨idx, pos, hfind⟩ := pa_policy_group_find_some bits u name G hG
  have hmove : pa_policy_group_move_to bits core PA_POLICY_GROUP_FLAG_ROUTE_AUDIO sink u h
      (some name) pa_policy_route_class.pa_policy_route_to_sink type =
      if (move_group_loop core sink G.sinpls h 0).2 ≥ 0 then
        ({ u with groups := groupset_modify u.groups idx pos (fun g => { g with sink := some s }) },
          (move_group_loop core sink G.sinpls h 0).1, (move_group_loop core sink G.sinpls h 0).2)
      else (u, (move_group_loop core sink G.sinpls h 0).1,
        (move_group_loop core sink G.sinpls h 0).2) := by
    simp only [pa_policy_group_move_to, hs, hfind, hflag, if_false, move_group, set_endpoint]
    simp
    rfl
  rw [hmove]
  refine ⟨?_, ?_, ?_⟩
  · split <;> exact move_group_loop_calls core sink G.sinpls h 0
  · intro hfail
    have hret : (move_group_loop core sink G.sinpls h 0).2 = -1 := by
      rw [move_group_loop_ret, if_pos hfail]
    simp [hret]
  · intro hok
    have hret : (move_group_loop core sink G.sinpls h 0).2 = 0 := by
      rw [move_group_loop_ret, if_neg]
      rintro ⟨sl, hsl, hlt⟩
      exact absurd (hok sl hsl) (not_le.mpr hlt)
    simp only [hret, ge_iff_le, le_refl, if_true, true_and]
    exact pa_policy_group_find_eq bits _ name idx pos _
      (find_group_modify_self bits u.groups name idx pos G _ hfind rfl)

theorem move_to_partial_failure_witness :
    (pa_policy_group_move_to 6 example_core 2 none example_bound.1 example_bound.2
        (some "music") pa_policy_route_class.pa_policy_route_to_sink "ihf").2.2 = -1 ∧
      (pa_policy_group_move_to 6 example_core 2 none example_bound.1 example_bound.2
        (some "music") pa_policy_route_class.pa_policy_route_to_sink "ihf").1 =
        example_bound.1 :=
  (move_to_partial_failure 6 example_core 2 none example_bound.1 example_bound.2 "music"
    { flags := 14, name := "music", sink := none, sinpidx := PA_IDXSET_INVALID,
      source := none, limit := PA_VOLUME_NORM, corked := 0,
      sinpls := [{ index := 10, sink_input := { index := 10 } },
        { index := 11, sink_input := { index := 11 } },
        { index := 12, sink_input := { index := 12 } }],
      soutls := [] }
    "ihf" example_ihf (by decide) (by decide) (by decide)).2.1
    ⟨{ index := 12, sink_input := { index := 12 } }, by decide, by decide⟩

/-! ## Inserting under a name: claim C24 -/

theorem insert_sink_input_found (bits : Nat) (u : policy_group_state) (h : host_state)
    (name : Option String) (si : pa_sink_input) (idx pos : Nat) (group : pa_policy_group)
    (hg : group_or_dflt bits u.groups name = some (some (idx, pos, group))) :
    pa_policy_group_insert_sink_input bits u h name si =
      some ({ u with
          groups := groupset_modify u.groups idx pos (fun g =>
            { g with sinpls := { index := si.index, sink_input := si } :: g.sinpls }) },
        match group.sink with
        | none => pa_sink_input_ext_set_policy_group h si (some group.name)
        | some sink =>
          host_call_made
            (if group.corked ≠ 0 then
              host_call_made
                (host_call_made (pa_sink_input_ext_set_policy_group h si (some group.name))
                  (host_call.sink_input_move_to si (some sink)))
                (host_call.sink_input_cork si group.corked)
            else
              host_call_made (pa_sink_input_ext_set_policy_group h si (some group.name))
                (host_call.sink_input_move_to si (some sink)))
            (host_call.sink_input_set_volume_limit si group.limit)) := by
  simp only [pa_policy_group_insert_sink_input, hg]

theorem insert_sink_input_found_group (h : host_state) (si : pa_sink_input)
    (group : pa_policy_group) :
    (match group.sink with
      | none => pa_sink_input_ext_set_policy_group h si (some group.name)
      | some sink =>
        host_call_made
          (if group.corked ≠ 0 then
            host_call_made
              (host_call_made (pa_sink_input_ext_set_policy_group h si (some group.name))
                (host_call.sink_input_move_to si (some sink)))
              (host_call.sink_input_cork si group.corked)
          else
            host_call_made (pa_sink_input_ext_set_policy_group h si (some group.name))
              (host_call.sink_input_move_to si (some sink)))
          (host_call.sink_input_set_volume_limit si group.limit)).sink_input_group =
        Function.update h.sink_input_group si (some group.name) ∧
      (match group.sink with
      | none => pa_sink_input_ext_set_policy_group h si (some group.name)
      | some sink =>
        host_call_made
          (if group.corked ≠ 0 then
            host_call_made
              (host_call_made (pa_sink_input_ext_set_policy_group h si (some group.name))
                (host_call.sink_input_move_to si (some sink)))
              (host_call.sink_input_cork si group.corked)
          else
            host_call_made (pa_sink_input_ext_set_policy_group h si (some group.name))
              (host_call.sink_input_move_to si (some sink)))
          (host_call.sink_input_set_volume_limit si group.limit)).source_output_group =
        h.source_output_group := by
  cases group.sink with
  | none => exact ⟨rfl, rfl⟩
  | some sk =>
    by_cases hc : group.corked = 0
    · simp only [hc, ne_eq, not_true_eq_false, if_false]
      exact ⟨rfl, rfl⟩
    · simp only [ne_eq, hc, not_false_eq_true, if_true]
      exact ⟨rfl, rfl⟩

/-- C24 (as stated, refuted): the example store has the default group
`othermedia` and no group `nosuch`. After
`pa_policy_group_insert_sink_input("nosuch", S)` for the sink-input 12 the
default group has no member and the stream has no back-reference. -/
theorem insert_unknown_name_not_in_default :
    (pa_policy_group_insert_sink_input 6 example_store host_state_new (some "nosuch")
        { index := 12 }).map
      (fun r => (r.1.groups.dflt,
        (pa_policy_group_find 6 r.1 "othermedia").map (fun g => g.sinpls),
        r.2.sink_input_group { index := 12 })) =
      some (some "othermedia", some [], none) := by
  decide

/-- C24 (amended): the default group takes the streams inserted with a NULL
name, not those of an unknown name. When `dflt` points to a group of the
store, `pa_policy_group_insert_sink_input(NULL, S)` links S at the head of the
list of that group and sets the back-reference of S to its name. With a name
that matches no group, `pa_policy_group_insert_sink_input` and
`pa_policy_group_insert_source_output` leave the store and the host as they
are: the stream is a member of no group and its back-reference is not set. -/
theorem insert_default_only_for_null_name (bits : Nat) (u : policy_group_state)
    (h : host_state) :
    (∀ (dn : String) (D : pa_policy_group) (S : pa_sink_input),
        u.groups.dflt = some dn → pa_policy_group_find bits u dn = some D →
        ∃ u1 h1, pa_policy_group_insert_sink_input bits u h none S = some (u1, h1) ∧
          pa_policy_group_find bits u1 dn =
            some { D with sinpls := { index := S.index, sink_input := S } :: D.sinpls } ∧
          h1.sink_input_group S = some dn) ∧
      (∀ (name : String) (S : pa_sink_input), pa_policy_group_find bits u name = none →
        pa_policy_group_insert_sink_input bits u h (some name) S = some (u, h)) ∧
      (∀ (name : String) (so : pa_source_output), pa_policy_group_find bits u name = none →
        pa_policy_group_insert_source_output bits u h name so = (u, h)) := by
  have hnone : ∀ name, pa_policy_group_find bits u name = none →
      find_group bits u.groups name = none := by
    intro name hf
    simpa [pa_policy_group_find] using hf
  refine ⟨?_, ?_, ?_⟩
  · intro dn D S hdflt hD
    obtain ⟨idx, pos, hfind⟩ := pa_policy_group_find_some bits u dn D hD
    have hname : D.name = dn := (find_group_some bits u.groups dn idx pos D hfind).2.2.1
    refine ⟨_, _, insert_sink_input_found bits u h none S idx pos D
      (by simp only [group_or_dflt, hdflt, hfind]), ?_, ?_⟩
    · exact pa_policy_group_find_eq bits _ dn idx pos _
        (find_group_modify_self bits u.groups dn idx pos D _ hfind rfl)
    · rw [(insert_sink_input_found_group h S D).1, Function.update_same, hname]
  · intro name S hf
    simp only [pa_policy_group_insert_sink_input, group_or_dflt, hnone name hf]
  · intro name so hf
    simp only [pa_policy_group_insert_source_output, hnone name hf]

theorem insert_default_only_for_null_name_witness :
    ∃ u1 h1, pa_policy_group_insert_sink_input 6 example_store host_state_new none
          { index := 12 } = some (u1, h1) ∧
        pa_policy_group_find 6 u1 "othermedia" =
          some { flags := 14, name := "othermedia", sink := none,
                 sinpidx := PA_IDXSET_INVALID, source := none, limit := PA_VOLUME_NORM,
                 corked := 0,
                 sinpls := [{ index := 12, sink_input := { index := 12 } }], soutls := [] } ∧
        h1.sink_input_group { index := 12 } = some "othermedia" :=
  (insert_default_only_for_null_name 6 example_store host_state_new).1 "othermedia"
    { flags := 14, name := "othermedia", sink := none, sinpidx := PA_IDXSET_INVALID,
      source := none, limit := PA_VOLUME_NORM, corked := 0, sinpls := [], soutls := [] }
    { index := 12 } (by decide) (by decide)

/-! ## The default sink: claim C30 -/

theorem first_index_map {α β : Type} (p : β → Bool) (f : α → β) (l : List α) :
    first_index p (l.map f) = first_index (fun x => p (f x)) l := by
  induction l with
  | nil => rfl
  | cons x rest ih => simp only [List.map_cons, first_index, ih]

theorem find_group_map (bits : Nat) (gset : pa_policy_groupset)
    (f : pa_policy_group → pa_policy_group) (name : String)
    (hf : ∀ g, (f g).name = g.name) :
    find_group bits (groupset_map bits gset f) name =
      (find_group bits gset name).map (fun r => (r.1, r.2.1, f r.2.2)) := by
  have htbl : (groupset_map bits gset f).hash_tbl (hash_value bits (some name)) =
      (gset.hash_tbl (hash_value bits (some name))).map f := by
    simp only [groupset_map]
    rw [if_pos (hash_value_lt bits (some name))]
  simp only [find_group, find_group_by_name, find_group_by_name_loop_eq, htbl,
    first_index_map, hf]
  cases first_index (fun x => decide (name = x.name))
      (gset.hash_tbl (hash_value bits (some name))) with
  | none => rfl
  | some pos =>
    simp only [List.get?_eq_getElem?]
    rw [htbl]
    simp only [List.getElem?_map, Option.map_map]
    rfl

theorem find_group_map_group (bits : Nat) (gset : pa_policy_groupset)
    (f : pa_policy_group → pa_policy_group) (name : String)
    (hf : ∀ g, (f g).name = g.name) :
    (find_group bits (groupset_map bits gset f) name).map (fun r => r.2.2) =
      ((find_group bits gset name).map (fun r => r.2.2)).map f := by
  rw [find_group_map bits gset f name hf, Option.map_map, Option.map_map]
  rfl

theorem pa_policy_group_find_new (bits : Nat) (u : policy_group_state) (N : String) (F : Nat)
    (hN : pa_policy_group_find bits u N = none) :
    pa_policy_group_find bits (pa_policy_group_new bits u N F).1 N =
      some { flags := F, name := N, sink := u.defsink, sinpidx := u.defidx, source := none,
             limit := PA_VOLUME_NORM, corked := 0, sinpls := [], soutls := [] } := by
  have hnone : find_group_by_name_loop N (u.groups.hash_tbl (hash_value bits (some N))) =
      none := by
    have hf : find_group bits u.groups N = none := by
      simpa [pa_policy_group_find] using hN
    rw [find_group_by_name_loop_eq, first_index_eq_none]
    intro g hg
    have := (find_group_none bits u.groups N).mp hf g hg
    simpa using fun h => this h.symm
  rw [pa_policy_group_new_created bits u N F hnone]
  simp [pa_policy_group_find, find_group, find_group_by_name, find_group_by_name_loop]

/-- C30: groups bound implicitly track the default sink. A group created
while the shadow of the default sink is `(D, i)` starts with the sink `D`.
After `pa_policy_groupset_update_default_sink` for the index `i`: when the
host reports the default sink `D2`, the shadow is `(D2, D2.index)` and the
sink of the group is `D2`; when the host reports no default sink, the shadow
is empty and the sink of the group is NULL. -/
theorem default_sink_tracking (bits : Nat) (core : pa_core) (u : policy_group_state)
    (N : String) (F : Nat) (D : pa_sink) (i : Nat)
    (hD : u.defsink = some D) (hi : u.defidx = i)
    (hN : pa_policy_group_find bits u N = none) :
    (pa_policy_group_find bits (pa_policy_group_new bits u N F).1 N).map (fun g => g.sink) =
        some (some D) ∧
      (∀ D2, core.default_sink = some D2 →
        (pa_policy_groupset_update_default_sink bits core
            (pa_policy_group_new bits u N F).1 i).defsink = some D2 ∧
          (pa_policy_groupset_update_default_sink bits core
            (pa_policy_group_new bits u N F).1 i).defidx = D2.index ∧
          (pa_policy_group_find bits
              (pa_policy_groupset_update_default_sink bits core
                (pa_policy_group_new bits u N F).1 i) N).map (fun g => g.sink) =
            some (some D2)) ∧
      (core.default_sink = none →
        (pa_policy_groupset_update_default_sink bits core
            (pa_policy_group_new bits u N F).1 i).defsink = none ∧
          (pa_policy_groupset_update_default_sink bits core
            (pa_policy_group_new bits u N F).1 i).defidx = PA_IDXSET_INVALID ∧
          (pa_policy_group_find bits
              (pa_policy_groupset_update_default_sink bits core
                (pa_policy_group_new bits u N F).1 i) N).map (fun g => g.sink) =
            some none) := by
  have hfind := pa_policy_group_find_new bits u N F hN
  have hdef : (pa_policy_group_new bits u N F).1.defsink = some D ∧
      (pa_policy_group_new bits u N F).1.defidx = i := by
    simp only [pa_policy_group_new, find_group_by_name]
    split <;> exact ⟨hD, hi⟩
  generalize (pa_policy_group_new bits u N F).1 = u1 at hfind hdef
  obtain ⟨hD1, hi1⟩ := hdef
  refine ⟨?_, ?_, ?_⟩
  · rw [hfind, hD]; rfl
  · intro D2 hD2
    simp only [pa_policy_groupset_update_default_sink, hD1, hi1, Option.isSome_some,
      and_self, if_true, hD2]
    refine ⟨trivial, trivial, ?_⟩
    simp only [pa_policy_group_find] at hfind ⊢
    rw [find_group_map_group _ _ _ _ (by intro g; split <;> rfl),
      find_group_map_group _ _ _ _ (by intro g; split <;> rfl), hfind]
    simp [hi]
  · intro hnone
    simp only [pa_policy_groupset_update_default_sink, hD1, hi1, Option.isSome_some,
      and_self, if_true, hnone]
    refine ⟨trivial, trivial, ?_⟩
    simp only [pa_policy_group_find] at hfind ⊢
    rw [find_group_map_group _ _ _ _ (by intro g; split <;> rfl), hfind]
    simp [hi]

theorem default_sink_tracking_witness :
    (pa_policy_group_find 6
        (pa_policy_groupset_update_default_sink 6
          { example_core with default_sink := some { index := 7, name := some "ihf0" } }
          (pa_policy_group_new 6
            { pa_policy_groupset_new with
              defsink := some { index := 5, name := some "earpiece" }, defidx := 5 }
            "H" 0).1 5) "H").map (fun g => g.sink) =
      some (some { index := 7, name := some "ihf0" }) :=
  ((default_sink_tracking 6
    { example_core with default_sink := some { index := 7, name := some "ihf0" } }
    { pa_policy_groupset_new with
      defsink := some { index := 5, name := some "earpiece" }, defidx := 5 }
    "H" 0 { index := 5, name := some "earpiece" } 5 rfl rfl (by decide)).2.1
    { index := 7, name := some "ihf0" } rfl).2.2

/-! ## Deleting a group: claims C21 and C22 -/

theorem reparent_loop_diverges (cells : List pa_sink_input_list) (dnam : String) (d : Nat)
    (fuel : Nat) (a : Nat) (next : Nat → Option Nat) (h : host_state) :
    reparent_loop cells dnam (some d) fuel (some a) next h = none := by
  induction fuel generalizing a next h with
  | zero => rfl
  | succ n ih =>
    rw [reparent_loop]
    by_cases hn : next a = none
    · simp only [hn, if_true, Function.update_same]
      exact ih _ _ _
    · obtain ⟨b, hb⟩ := Option.ne_none_iff_exists'.mp hn
      rw [if_neg hn, hb]
      exact ih _ _ _

theorem pa_policy_group_free_diverges (bits : Nat) (u : policy_group_state) (h : host_state)
    (name : String) (G : pa_policy_group) (dn : String) (D : pa_policy_group)
    (hG : pa_policy_group_find bits u name = some G) (hne : G.sinpls ≠ [])
    (hdflt : u.groups.dflt = some dn) (hdn : dn ≠ name)
    (hD : pa_policy_group_find bits u dn = some D) (hDne : D.sinpls ≠ []) (fuel : Nat) :
    pa_policy_group_free bits fuel u h name = none := by
  obtain ⟨idx, pos, hfind⟩ := pa_policy_group_find_some bits u name G hG
  obtain ⟨didx, dpos, hfindD⟩ := pa_policy_group_find_some bits u dn D hD
  have hname : G.name = name := (find_group_some bits u.groups name idx pos G hfind).2.2.1
  have hnd : ¬ (some dn = some G.name) := by
    rw [hname]
    intro hc
    exact hdn (Option.some.inj hc)
  simp only [pa_policy_group_free, hfind, hne, if_false, hdflt, hnd, hfindD, hDne,
    reparent_loop_diverges]

/-- C21 (the code at the failing input): the default group `othermedia` holds
the sink-input 12 and the group `music` holds the sink-input 10 and the
source-output 20. `pa_policy_group_free` of `music` has no result, however
many iterations its reparenting loop is given: after the member 10 the loop
walks into the list of the default group and links its last node to its
head. -/
theorem delete_group_never_returns :
    example_reparent.1.groups.dflt = some "othermedia" ∧
      (pa_policy_group_find 6 example_reparent.1 "othermedia").map
          (fun g => g.sinpls.map (fun sl => sl.index)) = some [12] ∧
      (pa_policy_group_find 6 example_reparent.1 "music").map
          (fun g => (g.sinpls.map (fun sl => sl.index), g.soutls.map (fun sl => sl.index))) =
        some ([10], [20]) ∧
      ∀ fuel : Nat,
        pa_policy_group_free 6 fuel example_reparent.1 example_reparent.2 "music" = none := by
  refine ⟨by decide, by decide, by decide, ?_⟩
  intro fuel
  exact pa_policy_group_free_diverges 6 example_reparent.1 example_reparent.2 "music"
    { flags := 14, name := "music", sink := none, sinpidx := PA_IDXSET_INVALID,
      source := none, limit := PA_VOLUME_NORM, corked := 0,
      sinpls := [{ index := 10, sink_input := { index := 10 } }],
      soutls := [{ index := 20, source_output := { index := 20 } }] }
    "othermedia"
    { flags := 14, name := "othermedia", sink := none, sinpidx := PA_IDXSET_INVALID,
      source := none, limit := PA_VOLUME_NORM, corked := 0,
      sinpls := [{ index := 12, sink_input := { index := 12 } }], soutls := [] }
    (by decide) (by decide) (by decide) (by decide) (by decide) (by decide) fuel

/-- C22 (the code at the failing input): with the members 10, 11 in the group
`music` and the member 12 in the default group, `pa_policy_group_free` of
`music` has no result, however many iterations the reparenting loop is given,
so no list 10, 11, 12 is ever stored; with the same three members in `music`
and an empty default group it returns after three iterations and the list of
the default group is 10, 11, 12. -/
theorem delete_group_splice_never_returns :
    (pa_policy_group_find 6 example_splice.1 "othermedia").map
          (fun g => g.sinpls.map (fun sl => sl.index)) = some [12] ∧
      (pa_policy_group_find 6 example_splice.1 "music").map
          (fun g => g.sinpls.map (fun sl => sl.index)) = some [10, 11] ∧
      (∀ fuel : Nat,
        pa_policy_group_free 6 fuel example_splice.1 example_splice.2 "music" = none) ∧
      (pa_policy_group_free 6 3 example_bound.1 example_bound.2 "music").map
          (fun r => ((pa_policy_group_find 6 r.1 "othermedia").map
            (fun g => g.sinpls.map (fun sl => sl.index)),
            (pa_policy_group_find 6 r.1 "music").isSome)) =
        some (some [10, 11, 12], false) := by
  refine ⟨by decide, by decide, ?_, by decide⟩
  intro fuel
  exact pa_policy_group_free_diverges 6 example_splice.1 example_splice.2 "music"
    { flags := 14, name := "music", sink := none, sinpidx := PA_IDXSET_INVALID,
      source := none, limit := PA_VOLUME_NORM, corked := 0,
      sinpls := [{ index := 10, sink_input := { index := 10 } },
        { index := 11, sink_input := { index := 11 } }],
      soutls := [] }
    "othermedia"
    { flags := 14, name := "othermedia", sink := none, sinpidx := PA_IDXSET_INVALID,
      source := none, limit := PA_VOLUME_NORM, corked := 0,
      sinpls := [{ index := 12, sink_input := { index := 12 } }], soutls := [] }
    (by decide) (by decide) (by decide) (by decide) (by decide) (by decide) fuel

/-! ## Lemmas on the membership lists and the back-references -/

theorem release_sink_inputs_groups (h : host_state) (l : List pa_sink_input_list) :
    (∀ s, (release_sink_inputs h l).sink_input_group s =
        if ∃ sl ∈ l, sl.sink_input = s then none else h.sink_input_group s) ∧
      (release_sink_inputs h l).source_output_group = h.source_output_group := by
  induction l generalizing h with
  | nil => simp [release_sink_inputs]
  | cons sil rest ih =>
    simp only [release_sink_inputs]
    refine ⟨?_, (ih _).2⟩
    intro s
    rw [(ih _).1 s]
    simp only [List.mem_cons, exists_eq_or_imp, pa_sink_input_ext_set_policy_group]
    by_cases h1 : ∃ sl ∈ rest, sl.sink_input = s
    · simp [h1]
    · by_cases h2 : sil.sink_input = s
      · subst h2
        simp [h1]
      · simp [h1, h2, Function.update_noteq (Ne.symm h2)]

theorem release_source_outputs_groups (h : host_state) (l : List pa_source_output_list) :
    (∀ s, (release_source_outputs h l).source_output_group s =
        if ∃ sl ∈ l, sl.source_output = s then none else h.source_output_group s) ∧
      (release_source_outputs h l).sink_input_group = h.sink_input_group := by
  induction l generalizing h with
  | nil => simp [release_source_outputs]
  | cons sol rest ih =>
    simp only [release_source_outputs]
    refine ⟨?_, (ih _).2⟩
    intro s
    rw [(ih _).1 s]
    simp only [List.mem_cons, exists_eq_or_imp, pa_source_output_ext_set_policy_group]
    by_cases h1 : ∃ sl ∈ rest, sl.source_output = s
    · simp [h1]
    · by_cases h2 : sol.source_output = s
      · subst h2
        simp [h1]
      · simp [h1, h2, Function.update_noteq (Ne.symm h2)]

theorem reparent_host_groups (dnam : String) (h : host_state) (l : List pa_sink_input_list) :
    (∀ s, (reparent_host dnam h l).sink_input_group s =
        if ∃ sl ∈ l, sl.sink_input = s then some dnam else h.sink_input_group s) ∧
      (reparent_host dnam h l).source_output_group = h.source_output_group := by
  induction l generalizing h with
  | nil => simp [reparent_host]
  | cons sil rest ih =>
    simp only [reparent_host]
    refine ⟨?_, (ih _).2⟩
    intro s
    rw [(ih _).1 s]
    simp only [List.mem_cons, exists_eq_or_imp, pa_sink_input_ext_set_policy_group]
    by_cases h1 : ∃ sl ∈ rest, sl.sink_input = s
    · simp [h1]
    · by_cases h2 : sil.sink_input = s
      · subst h2
        simp [h1]
      · simp [h1, h2, Function.update_noteq (Ne.symm h2)]

theorem sil_next_init_zero (n a : Nat) :
    sil_next_init n 0 a = if a + 1 < n then some (a + 1) else none := by
  simp only [sil_next_init, Nat.add_zero]
  by_cases h1 : a + 1 < n
  · simp [h1]
  · have : ¬ (n ≤ a ∧ a + 1 < n) := fun hc => h1 hc.2
    simp [h1, this]

theorem reparent_loop_no_default_members (cells : List pa_sink_input_list) (dnam : String)
    (fuel : Nat) (a : Nat) (h : host_state) (r : (Nat → Option Nat) × host_state)
    (hr : reparent_loop cells dnam none fuel
      (if a < cells.length then some a else none) (sil_next_init cells.length 0) h = some r) :
    r = (sil_next_init cells.length 0, reparent_host dnam h (cells.drop a)) := by
  induction fuel generalizing a h with
  | zero =>
    by_cases ha : a < cells.length
    · rw [if_pos ha] at hr
      simp [reparent_loop] at hr
    · rw [if_neg ha] at hr
      simp only [reparent_loop, Option.some.injEq] at hr
      rw [← hr, List.drop_eq_nil_of_le (Nat.le_of_not_lt ha)]
      rfl
  | succ n ih =>
    by_cases ha : a < cells.length
    · rw [if_pos ha] at hr
      rw [reparent_loop] at hr
      have hget : cells.get? a = some (cells.get ⟨a, ha⟩) := List.get?_eq_get ha
      have hnext : (if sil_next_init cells.length 0 a = none then
          Function.update (sil_next_init cells.length 0) a none
          else sil_next_init cells.length 0) = sil_next_init cells.length 0 := by
        by_cases hn : sil_next_init cells.length 0 a = none
        · rw [if_pos hn]
          conv_lhs => rw [← hn]
          exact Function.update_eq_self a _
        · rw [if_neg hn]
      simp only [hget, hnext] at hr
      rw [sil_next_init_zero cells.length a] at hr
      have := ih (a + 1) _ hr
      rw [this]
      have hdrop : cells.drop a = cells.get ⟨a, ha⟩ :: cells.drop (a + 1) := by
        simp
      rw [hdrop]
      rfl
    · rw [if_neg ha] at hr
      simp only [reparent_loop, Option.some.injEq] at hr
      rw [← hr, List.drop_eq_nil_of_le (Nat.le_of_not_lt ha)]
      rfl

theorem sil_chain_init (cells : List pa_sink_input_list) (fuel a : Nat)
    (hfuel : cells.length - a ≤ fuel) :
    sil_chain cells (sil_next_init cells.length 0) fuel
      (if a < cells.length then some a else none) = cells.drop a := by
  induction fuel generalizing a with
  | zero =>
    have ha : ¬ a < cells.length := by omega
    rw [if_neg ha, List.drop_eq_nil_of_le (Nat.le_of_not_lt ha)]
    rfl
  | succ n ih =>
    by_cases ha : a < cells.length
    · rw [if_pos ha, sil_chain]
      have hget : cells.get? a = some (cells.get ⟨a, ha⟩) := List.get?_eq_get ha
      simp only [hget]
      rw [sil_next_init_zero cells.length a, ih (a + 1) (by omega)]
      have hdrop : cells.drop a = cells.get ⟨a, ha⟩ :: cells.drop (a + 1) := by
        simp
      rw [hdrop]
    · rw [if_neg ha, List.drop_eq_nil_of_le (Nat.le_of_not_lt ha)]
      cases n <;> rfl

theorem pa_policy_group_free_some (bits : Nat) (fuel : Nat) (u : policy_group_state)
    (h : host_state) (name : String) (u1 : policy_group_state) (h1 : host_state)
    (hfree : pa_policy_group_free bits fuel u h name = some (u1, h1)) :
    (find_group bits u.groups name = none ∧ u1 = u ∧ h1 = h) ∨
      ∃ idx pos G, find_group bits u.groups name = some (idx, pos, G) ∧
        ∃ (tbl1 : Nat → List pa_policy_group) (hs : host_state),
          ((tbl1 = u.groups.hash_tbl ∧ hs = release_sink_inputs h G.sinpls) ∨
            (∃ dn didx dpos D, u.groups.dflt = some dn ∧
              find_group bits u.groups dn = some (didx, dpos, D) ∧ D.name ≠ G.name ∧
              D.sinpls = [] ∧
              tbl1 = (groupset_modify u.groups didx dpos
                (fun d => { d with sinpls := G.sinpls })).hash_tbl ∧
              hs = reparent_host D.name h G.sinpls)) ∧
          u1.groups.hash_tbl = Function.update tbl1 idx ((tbl1 idx).eraseIdx pos) ∧
          h1 = release_source_outputs hs G.soutls := by
  cases hfind : find_group bits u.groups name with
  | none =>
    left
    simp only [pa_policy_group_free, hfind, Option.some.injEq, Prod.mk.injEq] at hfree
    exact ⟨rfl, hfree.1.symm, hfree.2.symm⟩
  | some r =>
    obtain ⟨idx, pos, G⟩ := r
    right
    refine ⟨idx, pos, G, rfl, ?_⟩
    have hsout : ∀ hs : host_state,
        (if G.soutls = [] then hs else release_source_outputs hs G.soutls) =
          release_source_outputs hs G.soutls := by
      intro hs
      by_cases hso : G.soutls = []
      · rw [if_pos hso, hso]; rfl
      · rw [if_neg hso]
    simp only [pa_policy_group_free, hfind, hsout] at hfree
    by_cases hsin : G.sinpls = []
    · simp only [hsin, if_true, Option.some.injEq, Prod.mk.injEq] at hfree
      refine ⟨u.groups.hash_tbl, h, Or.inl ⟨rfl, by rw [hsin]; rfl⟩, ?_, hfree.2.symm⟩
      rw [← hfree.1]
    · simp only [hsin, if_false] at hfree
      by_cases hdef : u.groups.dflt = some G.name
      · simp only [hdef, if_true, Option.some.injEq, Prod.mk.injEq] at hfree
        refine ⟨u.groups.hash_tbl, _, Or.inl ⟨rfl, rfl⟩, ?_, hfree.2.symm⟩
        rw [← hfree.1]
      · simp only [hdef, if_false] at hfree
        cases hd : u.groups.dflt with
        | none => simp [hd] at hfree
        | some dn =>
          simp only [hd] at hfree
          cases hfd : find_group bits u.groups dn with
          | none => simp [hfd] at hfree
          | some rd =>
            obtain ⟨didx, dpos, D⟩ := rd
            simp only [hfd] at hfree
            have hDname : D.name = dn :=
              (find_group_some bits u.groups dn didx dpos D hfd).2.2.1
            have hne : D.name ≠ G.name := by
              rw [hDname]
              intro hc
              exact hdef (by rw [hd, hc])
            by_cases hDs : D.sinpls = []
            · simp only [hDs, if_true, List.append_nil, List.length_nil] at hfree
              have h0 : (some 0 : Option Nat) =
                  if 0 < G.sinpls.length then some 0 else none := by
                rw [if_pos (List.length_pos.mpr hsin)]
              rw [h0] at hfree
              cases hloop : reparent_loop G.sinpls D.name none fuel
                  (if 0 < G.sinpls.length then some 0 else none)
                  (sil_next_init G.sinpls.length 0) h with
              | none => simp [hloop] at hfree
              | some rl =>
                have hrl := reparent_loop_no_default_members G.sinpls D.name fuel 0 h rl hloop
                simp only [hloop, hrl, Option.some.injEq, Prod.mk.injEq] at hfree
                rw [sil_chain_init G.sinpls G.sinpls.length 0 (by omega)] at hfree
                simp only [List.drop_zero] at hfree
                refine ⟨_, _, Or.inr ⟨dn, didx, dpos, D, rfl, hfd, hne, hDs, rfl, rfl⟩,
                  ?_, hfree.2.symm⟩
                rw [← hfree.1]
            · simp only [hDs, if_false, reparent_loop_diverges] at hfree
              simp at hfree

theorem mem_modify {α : Type} (f : α → α) (l : List α) (i : Nat) (x : α)
    (hx : x ∈ l.modify f i) : x ∈ l ∨ ∃ y, l.get? i = some y ∧ x = f y := by
  induction l generalizing i with
  | nil => simp at hx
  | cons a rest ih =>
    cases i with
    | zero =>
      simp only [List.modify_zero_cons, List.mem_cons] at hx
      rcases hx with hx | hx
      · exact Or.inr ⟨a, by simp, hx⟩
      · exact Or.inl (List.mem_cons_of_mem a hx)
    | succ n =>
      rw [List.modify_succ_cons] at hx
      rcases List.mem_cons.mp hx with hx | hx
      · exact Or.inl (by rw [hx]; exact List.mem_cons_self a rest)
      · rcases ih n hx with h1 | ⟨y, hy, hxy⟩
        · exact Or.inl (List.mem_cons_of_mem a h1)
        · exact Or.inr ⟨y, by simpa using hy, hxy⟩

theorem map_name_modify (f : pa_policy_group → pa_policy_group) (l : List pa_policy_group)
    (i : Nat) (hf : ∀ g, (f g).name = g.name) :
    (l.modify f i).map (fun g => g.name) = l.map (fun g => g.name) := by
  induction l generalizing i with
  | nil => simp
  | cons a rest ih =>
    cases i with
    | zero => simp [hf]
    | succ n =>
      rw [List.modify_succ_cons]
      simp only [List.map_cons, ih n]

theorem pairwise_name_of_map_eq (l l2 : List pa_policy_group)
    (hmap : l2.map (fun g => g.name) = l.map (fun g => g.name))
    (hl : l.Pairwise (fun a b => a.name ≠ b.name)) :
    l2.Pairwise (fun a b => a.name ≠ b.name) := by
  have h1 : (l.map (fun g => g.name)).Pairwise (fun a b => a ≠ b) :=
    List.pairwise_map.mpr hl
  rw [← hmap] at h1
  exact List.pairwise_map.mp h1

theorem mem_name_of_map_eq (l l2 : List pa_policy_group)
    (hmap : l2.map (fun g => g.name) = l.map (fun g => g.name))
    (g2 : pa_policy_group) (hg : g2 ∈ l2) : ∃ g ∈ l, g.name = g2.name := by
  have : g2.name ∈ l2.map (fun g => g.name) := List.mem_map_of_mem _ hg
  rw [hmap] at this
  obtain ⟨g, hg1, hg2⟩ := List.mem_map.mp this
  exact ⟨g, hg1, hg2⟩

theorem groupset_wf_of_map_eq (bits : Nat) (gset gset2 : pa_policy_groupset)
    (hmap : ∀ i, (gset2.hash_tbl i).map (fun g => g.name) =
      (gset.hash_tbl i).map (fun g => g.name))
    (hwf : pa_policy_groupset_wf bits gset) : pa_policy_groupset_wf bits gset2 := by
  intro i
  refine ⟨?_, pairwise_name_of_map_eq _ _ (hmap i) (hwf i).2⟩
  intro g2 hg2
  obtain ⟨g, hg, hname⟩ := mem_name_of_map_eq _ _ (hmap i) g2 hg2
  rw [← hname]
  exact (hwf i).1 g hg

theorem groupset_modify_map_name (gset : pa_policy_groupset) (idx pos : Nat)
    (f : pa_policy_group → pa_policy_group) (hf : ∀ g, (f g).name = g.name) (i : Nat) :
    ((groupset_modify gset idx pos f).hash_tbl i).map (fun g => g.name) =
      (gset.hash_tbl i).map (fun g => g.name) := by
  simp only [groupset_modify]
  by_cases hi : i = idx
  · subst hi
    rw [Function.update_same, map_name_modify f _ pos hf]
  · rw [Function.update_noteq hi]

theorem mem_groupset_modify (gset : pa_policy_groupset) (idx pos : Nat)
    (f : pa_policy_group → pa_policy_group) (i : Nat) (x : pa_policy_group)
    (hx : x ∈ (groupset_modify gset idx pos f).hash_tbl i) :
    x ∈ gset.hash_tbl i ∨
      (i = idx ∧ ∃ y, (gset.hash_tbl idx).get? pos = some y ∧ x = f y) := by
  simp only [groupset_modify] at hx
  by_cases hi : i = idx
  · subst hi
    rw [Function.update_same] at hx
    rcases mem_modify f _ pos x hx with h1 | h2
    · exact Or.inl h1
    · exact Or.inr ⟨rfl, h2⟩
  · rw [Function.update_noteq hi] at hx
    exact Or.inl hx

theorem name_ne_of_mem_eraseIdx (l : List pa_policy_group) (pos : Nat) (G x : pa_policy_group)
    (hl : l.Pairwise (fun a b => a.name ≠ b.name)) (hG : l.get? pos = some G)
    (hx : x ∈ l.eraseIdx pos) : x.name ≠ G.name := by
  induction l generalizing pos with
  | nil => simp at hx
  | cons a rest ih =>
    rw [List.pairwise_cons] at hl
    cases pos with
    | zero =>
      simp only [List.get?_cons_zero, Option.some.injEq] at hG
      simp only [List.eraseIdx_cons_zero] at hx
      subst hG
      exact fun hc => hl.1 x hx hc.symm
    | succ n =>
      simp only [List.get?_cons_succ] at hG
      simp only [List.eraseIdx_cons_succ, List.mem_cons] at hx
      rcases hx with hx | hx
      · subst hx
        have hGm : G ∈ rest := List.mem_iff_getElem?.mpr
          ⟨n, by simpa [List.get?_eq_getElem?] using hG⟩
        exact hl.1 G hGm
      · exact ih n hl.2 hG hx

theorem groupset_wf_eraseIdx (bits : Nat) (tbl1 : Nat → List pa_policy_group)
    (gset2 : pa_policy_groupset) (idx pos : Nat) (d : Option String)
    (hwf : pa_policy_groupset_wf bits { dflt := d, hash_tbl := tbl1 })
    (htbl : gset2.hash_tbl = Function.update tbl1 idx ((tbl1 idx).eraseIdx pos)) :
    pa_policy_groupset_wf bits gset2 := by
  intro i
  rw [htbl]
  by_cases hi : i = idx
  · subst hi
    rw [Function.update_same]
    refine ⟨?_, List.Pairwise.sublist (List.eraseIdx_sublist _ _) (hwf i).2⟩
    intro g hg
    exact (hwf i).1 g (List.mem_of_mem_eraseIdx hg)
  · rw [Function.update_noteq hi]
    exact hwf i

theorem mem_erased_table (bits : Nat) (tbl1 : Nat → List pa_policy_group) (idx pos : Nat)
    (d : Option String) (G : pa_policy_group)
    (hwf : pa_policy_groupset_wf bits { dflt := d, hash_tbl := tbl1 })
    (hG : (tbl1 idx).get? pos = some G) (i : Nat) (x : pa_policy_group)
    (hx : x ∈ Function.update tbl1 idx ((tbl1 idx).eraseIdx pos) i) :
    x ∈ tbl1 i ∧ x.name ≠ G.name := by
  have hGm : G ∈ tbl1 idx := List.mem_iff_getElem?.mpr
    ⟨pos, by simpa [List.get?_eq_getElem?] using hG⟩
  by_cases hi : i = idx
  · subst hi
    rw [Function.update_same] at hx
    exact ⟨List.mem_of_mem_eraseIdx hx, name_ne_of_mem_eraseIdx _ pos G x (hwf i).2 hG hx⟩
  · rw [Function.update_noteq hi] at hx
    refine ⟨hx, ?_⟩
    intro hc
    have h1 := (hwf i).1 x hx
    have h2 := (hwf idx).1 G hGm
    rw [hc, h2] at h1
    exact hi h1.symm

theorem members_disjoint (gset : pa_policy_groupset) (h : host_state)
    (hag : membership_agrees gset h) (i j : Nat) (g g2 : pa_policy_group)
    (hg : g ∈ gset.hash_tbl i) (hg2 : g2 ∈ gset.hash_tbl j) (hne : g.name ≠ g2.name) :
    (∀ sl ∈ g.sinpls, ¬ ∃ sl2 ∈ g2.sinpls, sl2.sink_input = sl.sink_input) ∧
      (∀ sl ∈ g.soutls, ¬ ∃ sl2 ∈ g2.soutls, sl2.source_output = sl.source_output) := by
  constructor
  · rintro sl hsl ⟨sl2, hsl2, heq⟩
    have h1 := (hag i g hg).1 sl hsl
    have h2 := (hag j g2 hg2).1 sl2 hsl2
    rw [heq, h1] at h2
    exact hne (Option.some.inj h2)
  · rintro sl hsl ⟨sl2, hsl2, heq⟩
    have h1 := (hag i g hg).2 sl hsl
    have h2 := (hag j g2 hg2).2 sl2 hsl2
    rw [heq, h1] at h2
    exact hne (Option.some.inj h2)

theorem membership_free (bits : Nat) (fuel : Nat) (u : policy_group_state) (h : host_state)
    (name : String) (u1 : policy_group_state) (h1 : host_state)
    (hwf : pa_policy_groupset_wf bits u.groups) (hag : membership_agrees u.groups h)
    (hfree : pa_policy_group_free bits fuel u h name = some (u1, h1)) :
    pa_policy_groupset_wf bits u1.groups ∧ membership_agrees u1.groups h1 := by
  rcases pa_policy_group_free_some bits fuel u h name u1 h1 hfree with
    ⟨_, hu, hh⟩ | ⟨idx, pos, G, hfind, tbl1, hs, hcase, htbl, hh1⟩
  · subst hu; subst hh
    exact ⟨hwf, hag⟩
  · obtain ⟨_, hget, _, _⟩ := find_group_some bits u.groups name idx pos G hfind
    have hGm : G ∈ u.groups.hash_tbl idx := List.mem_iff_getElem?.mpr
      ⟨pos, by simpa [List.get?_eq_getElem?] using hget⟩
    rcases hcase with ⟨htbl1, hhs⟩ |
      ⟨dn, didx, dpos, D, _, hfD, hne, _, htbl1, hhs⟩
    · subst htbl1
      have hwf1 : pa_policy_groupset_wf bits
          { dflt := u.groups.dflt, hash_tbl := u.groups.hash_tbl } := hwf
      refine ⟨groupset_wf_eraseIdx bits _ u1.groups idx pos _ hwf1 htbl, ?_⟩
      intro i g2 hg2
      rw [htbl] at hg2
      obtain ⟨hmem, hnn⟩ := mem_erased_table bits _ idx pos _ G hwf1 hget i g2 hg2
      have hdis := members_disjoint u.groups h hag i idx g2 G hmem hGm hnn
      constructor
      · intro sl hsl
        rw [hh1, (release_source_outputs_groups _ _).2, hhs,
          (release_sink_inputs_groups _ _).1, if_neg (hdis.1 sl hsl)]
        exact (hag i g2 hmem).1 sl hsl
      · intro sl hsl
        rw [hh1, (release_source_outputs_groups _ _).1, if_neg (hdis.2 sl hsl), hhs,
          (release_sink_inputs_groups _ _).2]
        exact (hag i g2 hmem).2 sl hsl
    · obtain ⟨_, hgetD, _, _⟩ := find_group_some bits u.groups dn didx dpos D hfD
      have hDm : D ∈ u.groups.hash_tbl didx := List.mem_iff_getElem?.mpr
        ⟨dpos, by simpa [List.get?_eq_getElem?] using hgetD⟩
      have hwfB : pa_policy_groupset_wf bits
          (groupset_modify u.groups didx dpos (fun d => { d with sinpls := G.sinpls })) :=
        groupset_wf_of_map_eq bits u.groups _
          (groupset_modify_map_name u.groups didx dpos _ (fun _ => rfl)) hwf
      have hgetB : ((groupset_modify u.groups didx dpos
          (fun d => { d with sinpls := G.sinpls })).hash_tbl idx).get? pos = some G := by
        simp only [groupset_modify]
        by_cases hi : idx = didx
        · subst hi
          rw [Function.update_same]
          have hpos : dpos ≠ pos := by
            intro hc
            subst hc
            rw [hgetD] at hget
            exact hne (by rw [Option.some.inj hget])
          rw [get_modify_other _ _ _ _ hpos]
          exact hget
        · rw [Function.update_noteq hi]
          exact hget
      subst htbl1
      have hwf1 : pa_policy_groupset_wf bits
          { dflt := u.groups.dflt,
            hash_tbl := (groupset_modify u.groups didx dpos
              (fun d => { d with sinpls := G.sinpls })).hash_tbl } := hwfB
      refine ⟨groupset_wf_eraseIdx bits _ u1.groups idx pos _ hwf1 htbl, ?_⟩
      intro i g2 hg2
      rw [htbl] at hg2
      obtain ⟨hmem, hnn⟩ := mem_erased_table bits _ idx pos _ G hwf1 hgetB i g2 hg2
      rcases mem_groupset_modify u.groups didx dpos _ i g2 hmem with hold |
        ⟨_, y, hy, hgy⟩
      · have hdis := members_disjoint u.groups h hag i idx g2 G hold hGm hnn
        constructor
        · intro sl hsl
          rw [hh1, (release_source_outputs_groups _ _).2, hhs,
            (reparent_host_groups _ _ _).1, if_neg (hdis.1 sl hsl)]
          exact (hag i g2 hold).1 sl hsl
        · intro sl hsl
          rw [hh1, (release_source_outputs_groups _ _).1, if_neg (hdis.2 sl hsl), hhs,
            (reparent_host_groups _ _ _).2]
          exact (hag i g2 hold).2 sl hsl
      · rw [hgetD] at hy
        have hyD : D = y := Option.some.inj hy
        subst hyD
        subst hgy
        have hdis := members_disjoint u.groups h hag didx idx D G hDm hGm hne
        constructor
        · intro sl hsl
          rw [hh1, (release_source_outputs_groups _ _).2, hhs,
            (reparent_host_groups _ _ _).1, if_pos ⟨sl, hsl, rfl⟩]
        · intro sl hsl
          rw [hh1, (release_source_outputs_groups _ _).1, if_neg (hdis.2 sl hsl), hhs,
            (reparent_host_groups _ _ _).2]
          exact (hag didx D hDm).2 sl hsl

theorem group_or_dflt_some (bits : Nat) (gset : pa_policy_groupset) (name : Option String)
    (idx pos : Nat) (G : pa_policy_group)
    (hg : group_or_dflt bits gset name = some (some (idx, pos, G))) :
    ∃ n, find_group bits gset n = some (idx, pos, G) := by
  cases name with
  | some n =>
    simp only [group_or_dflt, Option.some.injEq] at hg
    exact ⟨n, hg⟩
  | none =>
    simp only [group_or_dflt] at hg
    cases hd : gset.dflt with
    | none => simp [hd] at hg
    | some dn =>
      simp only [hd] at hg
      cases hf : find_group bits gset dn with
      | none => simp [hf] at hg
      | some r =>
        simp only [hf, Option.some.injEq] at hg
        exact ⟨dn, by rw [hf, hg]⟩

theorem membership_insert_sink_input (bits : Nat) (u : policy_group_state) (h : host_state)
    (name : Option String) (si : pa_sink_input) (u1 : policy_group_state) (h1 : host_state)
    (hwf : pa_policy_groupset_wf bits u.groups) (hag : membership_agrees u.groups h)
    (hdisc : ∀ i : Nat, ∀ g ∈ u.groups.hash_tbl i, ∀ sl ∈ g.sinpls, sl.sink_input ≠ si)
    (hins : pa_policy_group_insert_sink_input bits u h name si = some (u1, h1)) :
    pa_policy_groupset_wf bits u1.groups ∧ membership_agrees u1.groups h1 := by
  cases hgd : group_or_dflt bits u.groups name with
  | none => simp [pa_policy_group_insert_sink_input, hgd] at hins
  | some r =>
    cases r with
    | none =>
      simp only [pa_policy_group_insert_sink_input, hgd, Option.some.injEq,
        Prod.mk.injEq] at hins
      rw [← hins.1, ← hins.2]
      exact ⟨hwf, hag⟩
    | some r2 =>
      obtain ⟨idx, pos, G⟩ := r2
      rw [insert_sink_input_found bits u h name si idx pos G hgd] at hins
      simp only [Option.some.injEq, Prod.mk.injEq] at hins
      obtain ⟨hu1, hh1⟩ := hins
      obtain ⟨n, hfind⟩ := group_or_dflt_some bits u.groups name idx pos G hgd
      obtain ⟨_, hget, _, _⟩ := find_group_some bits u.groups n idx pos G hfind
      have hGm : G ∈ u.groups.hash_tbl idx := List.mem_iff_getElem?.mpr
        ⟨pos, by simpa [List.get?_eq_getElem?] using hget⟩
      obtain ⟨hsig, hsog⟩ := insert_sink_input_found_group h si G
      rw [hh1] at hsig hsog
      rw [← hu1]
      refine ⟨groupset_wf_of_map_eq bits u.groups _
        (groupset_modify_map_name u.groups idx pos _ (fun _ => rfl)) hwf, ?_⟩
      intro i g2 hg2
      have hold : ∀ g ∈ u.groups.hash_tbl i,
          (∀ sl ∈ g.sinpls, h1.sink_input_group sl.sink_input = some g.name) ∧
            (∀ sl ∈ g.soutls, h1.source_output_group sl.source_output = some g.name) := by
        intro g hg
        constructor
        · intro sl hsl
          rw [hsig, Function.update_noteq (hdisc i g hg sl hsl)]
          exact (hag i g hg).1 sl hsl
        · intro sl hsl
          rw [hsog]
          exact (hag i g hg).2 sl hsl
      rcases mem_groupset_modify u.groups idx pos _ i g2 hg2 with hmem | ⟨hi, y, hy, hgy⟩
      · exact hold g2 hmem
      · rw [hget] at hy
        have hyG : G = y := Option.some.inj hy
        subst hyG
        subst hgy
        subst hi
        constructor
        · intro sl hsl
          rcases List.mem_cons.mp hsl with hnew | hmem
          · rw [hnew, hsig, Function.update_same]
          · exact (hold G hGm).1 sl hmem
        · exact (hold G hGm).2

theorem membership_insert_source_output (bits : Nat) (u : policy_group_state)
    (h : host_state) (name : String) (so : pa_source_output)
    (hwf : pa_policy_groupset_wf bits u.groups) (hag : membership_agrees u.groups h)
    (hdisc : ∀ i : Nat, ∀ g ∈ u.groups.hash_tbl i, ∀ sl ∈ g.soutls, sl.source_output ≠ so) :
    pa_policy_groupset_wf bits (pa_policy_group_insert_source_output bits u h name so).1.groups ∧
      membership_agrees (pa_policy_group_insert_source_output bits u h name so).1.groups
        (pa_policy_group_insert_source_output bits u h name so).2 := by
  cases hfind : find_group bits u.groups name with
  | none =>
    simp only [pa_policy_group_insert_source_output, hfind]
    exact ⟨hwf, hag⟩
  | some r =>
    obtain ⟨idx, pos, G⟩ := r
    obtain ⟨_, hget, _, _⟩ := find_group_some bits u.groups name idx pos G hfind
    have hGm : G ∈ u.groups.hash_tbl idx := List.mem_iff_getElem?.mpr
      ⟨pos, by simpa [List.get?_eq_getElem?] using hget⟩
    simp only [pa_policy_group_insert_source_output, hfind]
    have hhost : ∀ h2 : host_state,
        h2 = (match G.source with
          | none => pa_source_output_ext_set_policy_group h so (some G.name)
          | some source =>
            host_call_made (pa_source_output_ext_set_policy_group h so (some G.name))
              (host_call.source_output_move_to so (some source))) →
        h2.source_output_group = Function.update h.source_output_group so (some G.name) ∧
          h2.sink_input_group = h.sink_input_group := by
      intro h2 hh2
      rw [hh2]
      cases G.source <;> exact ⟨rfl, rfl⟩
    obtain ⟨hsog, hsig⟩ := hhost _ rfl
    refine ⟨groupset_wf_of_map_eq bits u.groups _
      (groupset_modify_map_name u.groups idx pos _ (fun _ => rfl)) hwf, ?_⟩
    intro i g2 hg2
    have hold : ∀ g ∈ u.groups.hash_tbl i,
        (∀ sl ∈ g.sinpls, h.sink_input_group sl.sink_input = some g.name) ∧
          (∀ sl ∈ g.soutls,
            Function.update h.source_output_group so (some G.name) sl.source_output =
              some g.name) := by
      intro g hg
      constructor
      · exact (hag i g hg).1
      · intro sl hsl
        rw [Function.update_noteq (hdisc i g hg sl hsl)]
        exact (hag i g hg).2 sl hsl
    rw [hsog, hsig]
    rcases mem_groupset_modify u.groups idx pos _ i g2 hg2 with hmem | ⟨hi, y, hy, hgy⟩
    · exact hold g2 hmem
    · rw [hget] at hy
      have hyG : G = y := Option.some.inj hy
      subst hyG
      subst hgy
      subst hi
      constructor
      · exact (hold G hGm).1
      · intro sl hsl
        rcases List.mem_cons.mp hsl with hnew | hmem
        · rw [hnew, Function.update_same]
        · exact (hold G hGm).2 sl hmem

theorem membership_group_new (bits : Nat) (u : policy_group_state) (h : host_state)
    (name : String) (flags : Nat)
    (hwf : pa_policy_groupset_wf bits u.groups) (hag : membership_agrees u.groups h) :
    pa_policy_groupset_wf bits (pa_policy_group_new bits u name flags).1.groups ∧
      membership_agrees (pa_policy_group_new bits u name flags).1.groups h := by
  cases hloop : find_group_by_name_loop name
      (u.groups.hash_tbl (hash_value bits (some name))) with
  | some pos =>
    rw [pa_policy_group_new_found bits u name flags pos hloop]
    exact ⟨hwf, hag⟩
  | none =>
    rw [pa_policy_group_new_created bits u name flags hloop]
    have hnot : ∀ g ∈ u.groups.hash_tbl (hash_value bits (some name)), name ≠ g.name := by
      rw [find_group_by_name_loop_eq, first_index_eq_none] at hloop
      intro g hg
      simpa using hloop g hg
    constructor
    · intro i
      simp only
      by_cases hi : i = hash_value bits (some name)
      · subst hi
        rw [Function.update_same]
        constructor
        · intro g hg
          rcases List.mem_cons.mp hg with hnew | hmem
          · rw [hnew]
          · exact (hwf _).1 g hmem
        · rw [List.pairwise_cons]
          exact ⟨fun g hg => hnot g hg, (hwf _).2⟩
      · rw [Function.update_noteq hi]
        exact hwf i
    · intro i g hg
      simp only at hg
      by_cases hi : i = hash_value bits (some name)
      · subst hi
        rw [Function.update_same] at hg
        rcases List.mem_cons.mp hg with hnew | hmem
        · rw [hnew]
          simp
        · exact hag _ g hmem
      · rw [Function.update_noteq hi] at hg
        exact hag i g hg

theorem forall2_group_shrunk_refl (l : List pa_policy_group) :
    List.Forall₂ group_shrunk l l := by
  induction l with
  | nil => exact List.Forall₂.nil
  | cons g rest ih =>
    exact List.Forall₂.cons ⟨rfl, fun _ hsl => hsl, fun _ hsl => hsl⟩ ih

theorem forall2_group_shrunk_mem (l2 l : List pa_policy_group)
    (hf : List.Forall₂ group_shrunk l2 l) (g2 : pa_policy_group) (hg2 : g2 ∈ l2) :
    ∃ g ∈ l, group_shrunk g2 g := by
  induction hf with
  | nil => simp at hg2
  | cons hab _ ih =>
    rcases List.mem_cons.mp hg2 with hnew | hmem
    · subst hnew
      exact ⟨_, List.mem_cons_self _ _, hab⟩
    · obtain ⟨g, hg, hs⟩ := ih hmem
      exact ⟨g, List.mem_cons_of_mem _ hg, hs⟩

theorem forall2_group_shrunk_names (l2 l : List pa_policy_group)
    (hf : List.Forall₂ group_shrunk l2 l) :
    l2.map (fun g => g.name) = l.map (fun g => g.name) := by
  induction hf with
  | nil => rfl
  | cons hab _ ih => simp only [List.map_cons, hab.1, ih]

theorem membership_shrunk (bits : Nat) (gset gset2 : pa_policy_groupset) (h : host_state)
    (hf : ∀ j, List.Forall₂ group_shrunk (gset2.hash_tbl j) (gset.hash_tbl j))
    (hwf : pa_policy_groupset_wf bits gset) (hag : membership_agrees gset h) :
    pa_policy_groupset_wf bits gset2 ∧ membership_agrees gset2 h := by
  refine ⟨groupset_wf_of_map_eq bits gset gset2
    (fun j => forall2_group_shrunk_names _ _ (hf j)) hwf, ?_⟩
  intro i g2 hg2
  obtain ⟨g, hg, hname, hsi, hso⟩ := forall2_group_shrunk_mem _ _ (hf i) g2 hg2
  rw [hname]
  exact ⟨fun sl hsl => (hag i g hg).1 sl (hsi sl hsl),
    fun sl hsl => (hag i g hg).2 sl (hso sl hsl)⟩

theorem remove_sink_input_chain_shrunk (idx : Nat) (chain chain2 : List pa_policy_group)
    (hr : remove_sink_input_chain idx chain = some chain2) :
    List.Forall₂ group_shrunk chain2 chain := by
  induction chain generalizing chain2 with
  | nil => simp [remove_sink_input_chain] at hr
  | cons g rest ih =>
    rw [remove_sink_input_chain] at hr
    by_cases hany : g.sinpls.any (fun sl => decide (idx = sl.index)) = true
    · rw [if_pos hany] at hr
      rw [← Option.some.inj hr]
      exact List.Forall₂.cons
        ⟨rfl, fun _ hsl => List.mem_of_mem_eraseP hsl, fun _ hsl => hsl⟩
        (forall2_group_shrunk_refl rest)
    · rw [if_neg hany] at hr
      cases hrest : remove_sink_input_chain idx rest with
      | none => simp [hrest] at hr
      | some c =>
        rw [hrest] at hr
        rw [← Option.some.inj hr]
        exact List.Forall₂.cons ⟨rfl, fun _ hsl => hsl, fun _ hsl => hsl⟩ (ih c hrest)

theorem remove_sink_input_scan_shrunk (idx : Nat) (gset : pa_policy_groupset) (n i j : Nat) :
    List.Forall₂ group_shrunk ((remove_sink_input_scan idx gset n i).hash_tbl j)
      (gset.hash_tbl j) := by
  induction n generalizing i with
  | zero => exact forall2_group_shrunk_refl _
  | succ m ih =>
    rw [remove_sink_input_scan]
    cases hr : remove_sink_input_chain idx (gset.hash_tbl i) with
    | none => exact ih (i + 1)
    | some chain =>
      simp only
      by_cases hj : j = i
      · subst hj
        rw [Function.update_same]
        exact remove_sink_input_chain_shrunk idx _ chain hr
      · rw [Function.update_noteq hj]
        exact forall2_group_shrunk_refl _

theorem remove_source_output_chain_shrunk (idx : Nat) (chain chain2 : List pa_policy_group)
    (hr : remove_source_output_chain idx chain = some chain2) :
    List.Forall₂ group_shrunk chain2 chain := by
  induction chain generalizing chain2 with
  | nil => simp [remove_source_output_chain] at hr
  | cons g rest ih =>
    rw [remove_source_output_chain] at hr
    by_cases hany : g.soutls.any (fun sl => decide (idx = sl.index)) = true
    · rw [if_pos hany] at hr
      rw [← Option.some.inj hr]
      exact List.Forall₂.cons
        ⟨rfl, fun _ hsl => hsl, fun _ hsl => List.mem_of_mem_eraseP hsl⟩
        (forall2_group_shrunk_refl rest)
    · rw [if_neg hany] at hr
      cases hrest : remove_source_output_chain idx rest with
      | none => simp [hrest] at hr
      | some c =>
        rw [hrest] at hr
        rw [← Option.some.inj hr]
        exact List.Forall₂.cons ⟨rfl, fun _ hsl => hsl, fun _ hsl => hsl⟩ (ih c hrest)

theorem remove_source_output_scan_shrunk (idx : Nat) (gset : pa_policy_groupset)
    (n i j : Nat) :
    List.Forall₂ group_shrunk ((remove_source_output_scan idx gset n i).hash_tbl j)
      (gset.hash_tbl j) := by
  induction n generalizing i with
  | zero => exact forall2_group_shrunk_refl _
  | succ m ih =>
    rw [remove_source_output_scan]
    cases hr : remove_source_output_chain idx (gset.hash_tbl i) with
    | none => exact ih (i + 1)
    | some chain =>
      simp only
      by_cases hj : j = i
      · subst hj
        rw [Function.update_same]
        exact remove_source_output_chain_shrunk idx _ chain hr
      · rw [Function.update_noteq hj]
        exact forall2_group_shrunk_refl _

theorem membership_of_reachable (bits : Nat) (dflt_name : String) (flags_client : Nat)
    (u : policy_group_state) (h : host_state)
    (hr : policy_group_reachable bits dflt_name flags_client u h) :
    pa_policy_groupset_wf bits u.groups ∧ membership_agrees u.groups h := by
  induction hr with
  | new h =>
    refine ⟨pa_policy_groupset_wf_new bits, ?_⟩
    intro i g hg
    simp [pa_policy_groupset_new] at hg
  | create_default_group u h _ ih =>
    have := membership_group_new bits u h dflt_name flags_client ih.1 ih.2
    exact this
  | create_group u h name flags _ ih =>
    exact membership_group_new bits u h name flags ih.1 ih.2
  | delete_group u h fuel name u1 h1 _ hfree ih =>
    exact membership_free bits fuel u h name u1 h1 ih.1 ih.2 hfree
  | insert_sink_input u h name si u1 h1 _ hdisc hins ih =>
    exact membership_insert_sink_input bits u h name si u1 h1 ih.1 ih.2 hdisc hins
  | insert_source_output u h name so _ hdisc ih =>
    exact membership_insert_source_output bits u h name so ih.1 ih.2 hdisc
  | remove_sink_input u h idx _ ih =>
    exact membership_shrunk bits u.groups _ h
      (fun j => remove_sink_input_scan_shrunk idx u.groups _ 0 j) ih.1 ih.2
  | remove_source_output u h idx _ ih =>
    exact membership_shrunk bits u.groups _ h
      (fun j => remove_source_output_scan_shrunk idx u.groups _ 0 j) ih.1 ih.2

theorem eq_of_mem_pairwise_name (l : List pa_policy_group) (a b : pa_policy_group)
    (hl : l.Pairwise (fun x y => x.name ≠ y.name)) (ha : a ∈ l) (hb : b ∈ l)
    (hab : a.name = b.name) : a = b := by
  induction l with
  | nil => simp at ha
  | cons x rest ih =>
    rw [List.pairwise_cons] at hl
    rcases List.mem_cons.mp ha with hax | har
    · rcases List.mem_cons.mp hb with hbx | hbr
      · rw [hax, hbx]
      · subst hax
        exact absurd hab (hl.1 b hbr)
    · rcases List.mem_cons.mp hb with hbx | hbr
      · subst hbx
        exact absurd hab.symm (hl.1 a har)
      · exact ih hl.2 har hbr

/-! ## Membership and back-reference: claim C23 -/

/-- C23 (as stated, refuted): on the example store the sink-input 10 is
inserted into the group `music` and then into the group `ring`. Afterwards
the stream is in the membership lists of both groups, and its back-reference
is `ring` although it is a member of `music`. -/
theorem insert_twice_breaks_membership :
    ((pa_policy_group_insert_sink_input 6 example_store host_state_new (some "music")
        { index := 10 }).bind fun a =>
      (pa_policy_group_insert_sink_input 6 a.1 a.2 (some "ring") { index := 10 }).map fun r =>
        ((pa_policy_group_find 6 r.1 "music").map (fun g => g.sinpls.map (fun sl => sl.index)),
          (pa_policy_group_find 6 r.1 "ring").map (fun g => g.sinpls.map (fun sl => sl.index)),
          r.2.sink_input_group { index := 10 })) =
      some (some [10], some [10], some "ring") := by
  decide

/-- C23 (amended): membership and back-reference agree when no stream is
inserted twice. In every state reached from the empty group set by creating
groups (the default group included), deleting groups, inserting sink-inputs
and source-outputs that are in no membership list at that moment, and removing
them, every stream in a membership list of a group has the name of that group
as its back-reference, and two groups of the store that have a stream in
common are one and the same group; every group sits in the bucket of its name
and no chain holds a name twice. -/
theorem membership_and_back_reference_agree (bits : Nat) (PA_POLICY_DEFAULT_GROUP_NAME : String)
    (PA_POLICY_GROUP_FLAGS_CLIENT : Nat) (u : policy_group_state) (h : host_state)
    (hr : policy_group_reachable bits PA_POLICY_DEFAULT_GROUP_NAME
      PA_POLICY_GROUP_FLAGS_CLIENT u h) :
    membership_agrees u.groups h ∧
      (∀ (i j : Nat) (g g2 : pa_policy_group),
        g ∈ u.groups.hash_tbl i → g2 ∈ u.groups.hash_tbl j →
        ((∃ sl ∈ g.sinpls, ∃ sl2 ∈ g2.sinpls, sl.sink_input = sl2.sink_input) ∨
          (∃ sl ∈ g.soutls, ∃ sl2 ∈ g2.soutls, sl.source_output = sl2.source_output)) →
        i = j ∧ g = g2) ∧
      pa_policy_groupset_wf bits u.groups := by
  obtain ⟨hwf, hag⟩ := membership_of_reachable bits _ _ u h hr
  refine ⟨hag, ?_, hwf⟩
  intro i j g g2 hg hg2 hshare
  have hname : g.name = g2.name := by
    rcases hshare with ⟨sl, hsl, sl2, hsl2, heq⟩ | ⟨sl, hsl, sl2, hsl2, heq⟩
    · have h1 := (hag i g hg).1 sl hsl
      have h2 := (hag j g2 hg2).1 sl2 hsl2
      rw [heq, h2] at h1
      exact (Option.some.inj h1).symm
    · have h1 := (hag i g hg).2 sl hsl
      have h2 := (hag j g2 hg2).2 sl2 hsl2
      rw [heq, h2] at h1
      exact (Option.some.inj h1).symm
  have hij : i = j := by
    rw [← (hwf i).1 g hg, ← (hwf j).1 g2 hg2, hname]
  subst hij
  exact ⟨rfl, eq_of_mem_pairwise_name _ g g2 (hwf i).2 hg hg2 hname⟩

theorem membership_and_back_reference_agree_witness :
    ∃ u1 h1,
      pa_policy_group_insert_sink_input 6
          (pa_policy_group_new 6 pa_policy_groupset_new "music" 14).1 host_state_new
          (some "music") { index := 10 } = some (u1, h1) ∧
        membership_agrees u1.groups h1 := by
  have hr0 : policy_group_reachable 6 "othermedia" 14
      (pa_policy_group_new 6 pa_policy_groupset_new "music" 14).1 host_state_new :=
    policy_group_reachable.create_group _ _ "music" 14
      (policy_group_reachable.new host_state_new)
  have hdisc : ∀ i : Nat,
      ∀ g ∈ (pa_policy_group_new 6 pa_policy_groupset_new "music" 14).1.groups.hash_tbl i,
      ∀ sl ∈ g.sinpls, sl.sink_input ≠ { index := 10 } := by
    intro i g hg sl hsl _
    have := ((membership_of_reachable 6 _ _ _ _ hr0).2 i g hg).1 sl hsl
    simp [host_state_new] at this
  refine ⟨_, _, rfl, ?_⟩
  exact (membership_and_back_reference_agree 6 "othermedia" 14 _ _
    (policy_group_reachable.insert_sink_input _ _ (some "music") { index := 10 } _ _
      hr0 hdisc rfl)).1

/-! ## Deleting a group when the call returns -/

theorem pa_policy_group_find_eq_find (bits : Nat) (u : policy_group_state) (name : String) :
    pa_policy_group_find bits u name =
      (u.groups.hash_tbl (hash_value bits (some name))).find?
        (fun g => decide (name = g.name)) := by
  have hget := first_index_get (fun g : pa_policy_group => decide (name = g.name)) id
    (u.groups.hash_tbl (hash_value bits (some name)))
  simp only [Option.map_id_fun, id_eq] at hget
  rw [← hget]
  simp only [pa_policy_group_find, find_group, find_group_by_name, find_group_by_name_loop_eq]
  cases first_index (fun g : pa_policy_group => decide (name = g.name))
      (u.groups.hash_tbl (hash_value bits (some name))) with
  | none => rfl
  | some pos =>
    simp only [Option.map_map]
    cases (u.groups.hash_tbl (hash_value bits (some name))).get? pos <;> rfl

theorem pa_policy_group_find_of_mem (bits : Nat) (u : policy_group_state) (i : Nat)
    (g : pa_policy_group) (hwf : pa_policy_groupset_wf bits u.groups)
    (hg : g ∈ u.groups.hash_tbl i) : pa_policy_group_find bits u g.name = some g := by
  rw [pa_policy_group_find_eq_find, (hwf i).1 g hg]
  apply find_of_mem_pairwise _ _ g _ hg (by simp)
  refine List.Pairwise.imp ?_ (hwf i).2
  intro a b hab hc
  simp only [decide_eq_true_eq] at hc
  exact hab (hc.1.symm.trans hc.2)

theorem pa_policy_group_find_none_of_not_mem (bits : Nat) (u : policy_group_state)
    (name : String)
    (hno : ∀ g ∈ u.groups.hash_tbl (hash_value bits (some name)), g.name ≠ name) :
    pa_policy_group_find bits u name = none := by
  rw [pa_policy_group_find_eq_find, List.find?_eq_none]
  intro g hg hc
  simp only [decide_eq_true_eq] at hc
  exact hno g hg hc.symm

theorem mem_modify_self {α : Type} (f : α → α) (l : List α) (i : Nat) (y : α)
    (hy : l.get? i = some y) : f y ∈ l.modify f i := by
  have h1 := get_modify_self f l i
  rw [hy] at h1
  exact List.mem_iff_getElem?.mpr ⟨i, by simpa [List.get?_eq_getElem?] using h1⟩

theorem mem_eraseIdx_of_name_ne (l : List pa_policy_group) (pos : Nat)
    (G x : pa_policy_group) (hG : l.get? pos = some G) (hx : x ∈ l)
    (hne : x.name ≠ G.name) : x ∈ l.eraseIdx pos := by
  induction l generalizing pos with
  | nil => simp at hx
  | cons a rest ih =>
    cases pos with
    | zero =>
      simp only [List.get?_cons_zero, Option.some.injEq] at hG
      simp only [List.eraseIdx_cons_zero]
      rcases List.mem_cons.mp hx with hxa | hxr
      · rw [hxa, hG] at hne
        exact absurd rfl hne
      · exact hxr
    | succ n =>
      simp only [List.get?_cons_succ] at hG
      simp only [List.eraseIdx_cons_succ, List.mem_cons]
      rcases List.mem_cons.mp hx with hxa | hxr
      · exact Or.inl hxa
      · exact Or.inr (ih n hG hxr)

theorem reparent_loop_returns (cells : List pa_sink_input_list) (dnam : String)
    (fuel : Nat) (a : Nat) (h : host_state) (hfuel : cells.length - a ≤ fuel) :
    reparent_loop cells dnam none fuel
        (if a < cells.length then some a else none) (sil_next_init cells.length 0) h =
      some (sil_next_init cells.length 0, reparent_host dnam h (cells.drop a)) := by
  induction fuel generalizing a h with
  | zero =>
    have ha : ¬ a < cells.length := by omega
    rw [if_neg ha, List.drop_eq_nil_of_le (Nat.le_of_not_lt ha)]
    rfl
  | succ n ih =>
    by_cases ha : a < cells.length
    · rw [if_pos ha, reparent_loop]
      have hget : cells.get? a = some (cells.get ⟨a, ha⟩) := List.get?_eq_get ha
      have hnext : (if sil_next_init cells.length 0 a = none then
          Function.update (sil_next_init cells.length 0) a none
          else sil_next_init cells.length 0) = sil_next_init cells.length 0 := by
        by_cases hn : sil_next_init cells.length 0 a = none
        · rw [if_pos hn]
          conv_lhs => rw [← hn]
          exact Function.update_eq_self a _
        · rw [if_neg hn]
      simp only [hget, hnext]
      rw [sil_next_init_zero cells.length a, ih (a + 1) _ (by omega)]
      have hdrop : cells.drop a = cells.get ⟨a, ha⟩ :: cells.drop (a + 1) := by
        simp
      rw [hdrop]
      rfl
    · rw [if_neg ha, List.drop_eq_nil_of_le (Nat.le_of_not_lt ha)]
      rfl

theorem pa_policy_group_free_returns (bits : Nat) (fuel : Nat) (u : policy_group_state)
    (h : host_state) (name : String) (G : pa_policy_group) (dn : String)
    (D : pa_policy_group) (hwf : pa_policy_groupset_wf bits u.groups)
    (hG : pa_policy_group_find bits u name = some G)
    (hdflt : u.groups.dflt = some dn) (hdn : dn ≠ name)
    (hD : pa_policy_group_find bits u dn = some D)
    (hempty : G.sinpls = [] ∨ D.sinpls = []) (hfuel : G.sinpls.length ≤ fuel) :
    ∃ u1 h1, pa_policy_group_free bits fuel u h name = some (u1, h1) ∧
      (∀ sl ∈ G.sinpls, h1.sink_input_group sl.sink_input = some dn) ∧
      (∀ sl ∈ G.soutls, h1.source_output_group sl.source_output = none) ∧
      pa_policy_group_find bits u1 name = none ∧
      pa_policy_group_find bits u1 dn = some { D with sinpls := G.sinpls ++ D.sinpls } := by
  obtain ⟨idx, pos, hfind⟩ := pa_policy_group_find_some bits u name G hG
  obtain ⟨didx, dpos, hfindD⟩ := pa_policy_group_find_some bits u dn D hD
  obtain ⟨hidx, hget, hname, _⟩ := find_group_some bits u.groups name idx pos G hfind
  obtain ⟨_, hgetD, hDname, _⟩ := find_group_some bits u.groups dn didx dpos D hfindD
  have hGm : G ∈ u.groups.hash_tbl idx := List.mem_iff_getElem?.mpr
    ⟨pos, by simpa [List.get?_eq_getElem?] using hget⟩
  have hDm : D ∈ u.groups.hash_tbl didx := List.mem_iff_getElem?.mpr
    ⟨dpos, by simpa [List.get?_eq_getElem?] using hgetD⟩
  have hne : D.name ≠ G.name := by rw [hDname, hname]; exact hdn
  have hnd : ¬ (some dn = some G.name) := by
    rw [hname]
    intro hc
    exact hdn (Option.some.inj hc)
  have hsout : ∀ hs : host_state,
      (if G.soutls = [] then hs else release_source_outputs hs G.soutls) =
        release_source_outputs hs G.soutls := by
    intro hs
    by_cases hso : G.soutls = []
    · rw [if_pos hso, hso]; rfl
    · rw [if_neg hso]
  -- the table and the host after the sink-inputs were dealt with
  have hstep : ∃ (gset1 : pa_policy_groupset) (hs : host_state),
      pa_policy_group_free bits fuel u h name =
        some ({ u with
            groups := { gset1 with
              hash_tbl := Function.update gset1.hash_tbl idx
                ((gset1.hash_tbl idx).eraseIdx pos) } },
          release_source_outputs hs G.soutls) ∧
      gset1 = groupset_modify u.groups didx dpos
        (fun d => { d with sinpls := G.sinpls ++ d.sinpls }) ∧
      hs = reparent_host D.name h G.sinpls := by
    by_cases hsin : G.sinpls = []
    · refine ⟨_, _, ?_, rfl, rfl⟩
      simp only [pa_policy_group_free, hfind, hsin, if_true, hsout, List.nil_append,
        reparent_host]
      have hid : groupset_modify u.groups didx dpos (fun d => { d with sinpls := d.sinpls }) =
          u.groups := by
        simp only [groupset_modify]
        have : (u.groups.hash_tbl didx).modify (fun d => { d with sinpls := d.sinpls }) dpos =
            u.groups.hash_tbl didx := by
          have hfid : (fun d : pa_policy_group => { d with sinpls := d.sinpls }) = id := rfl
          rw [hfid, List.modify_id]
        rw [this, Function.update_eq_self]
      rw [hid]
    · have hDs : D.sinpls = [] := by
        rcases hempty with h1 | h1
        · exact absurd h1 hsin
        · exact h1
      refine ⟨_, _, ?_, rfl, rfl⟩
      have h0 : (some 0 : Option Nat) =
          if 0 < G.sinpls.length then some 0 else none := by
        rw [if_pos (List.length_pos.mpr hsin)]
      have hmod : groupset_modify u.groups didx dpos
            (fun d => { d with sinpls := G.sinpls ++ d.sinpls }) =
          groupset_modify u.groups didx dpos (fun d => { d with sinpls := G.sinpls }) := by
        have hl : (u.groups.hash_tbl didx).modify
              (fun d => { d with sinpls := G.sinpls ++ d.sinpls }) dpos =
            (u.groups.hash_tbl didx).modify (fun d => { d with sinpls := G.sinpls }) dpos := by
          apply List.ext_get?
          intro k
          by_cases hk : dpos = k
          · subst hk
            rw [get_modify_self, get_modify_self, hgetD]
            simp [hDs]
          · rw [get_modify_other _ _ _ _ hk, get_modify_other _ _ _ _ hk]
        simp only [groupset_modify, hl]
      rw [hmod]
      simp only [pa_policy_group_free, hfind, hsin, if_false, hdflt, hnd, hfindD, hDs,
        if_true, List.append_nil, List.length_nil, hsout]
      rw [h0, reparent_loop_returns G.sinpls D.name fuel 0 h (by omega)]
      simp only [List.drop_zero]
      rw [sil_chain_init G.sinpls G.sinpls.length 0 (by omega)]
      simp only [List.drop_zero]
  obtain ⟨gset1, hs, hfree, hgset1, hhs⟩ := hstep
  have hwf1 : pa_policy_groupset_wf bits gset1 := by
    rw [hgset1]
    exact groupset_wf_of_map_eq bits u.groups _
      (groupset_modify_map_name u.groups didx dpos _ (fun _ => rfl)) hwf
  have hget1 : (gset1.hash_tbl idx).get? pos = some G := by
    rw [hgset1]
    simp only [groupset_modify]
    by_cases hi : idx = didx
    · subst hi
      rw [Function.update_same]
      have hpos : dpos ≠ pos := by
        intro hc
        subst hc
        rw [hgetD] at hget
        exact hne (by rw [Option.some.inj hget])
      rw [get_modify_other _ _ _ _ hpos]
      exact hget
    · rw [Function.update_noteq hi]
      exact hget
  have hwf2 : pa_policy_groupset_wf bits
      { gset1 with
        hash_tbl := Function.update gset1.hash_tbl idx ((gset1.hash_tbl idx).eraseIdx pos) } :=
    groupset_wf_eraseIdx bits gset1.hash_tbl _ idx pos gset1.dflt hwf1 rfl
  refine ⟨_, _, hfree, ?_, ?_, ?_, ?_⟩
  · intro sl hsl
    rw [(release_source_outputs_groups _ _).2, hhs, (reparent_host_groups _ _ _).1,
      if_pos ⟨sl, hsl, rfl⟩, hDname]
  · intro sl hsl
    rw [(release_source_outputs_groups _ _).1, if_pos ⟨sl, hsl, rfl⟩]
  · apply pa_policy_group_find_none_of_not_mem
    intro g hg
    have := (mem_erased_table bits gset1.hash_tbl idx pos gset1.dflt G hwf1 hget1 _ g hg).2
    rw [hname] at this
    exact this
  · have hmem1 : ({ D with sinpls := G.sinpls ++ D.sinpls } : pa_policy_group) ∈
        gset1.hash_tbl didx := by
      rw [hgset1]
      simp only [groupset_modify, Function.update_same]
      exact mem_modify_self (fun d => { d with sinpls := G.sinpls ++ d.sinpls }) _ dpos D hgetD
    have hmem2 : ({ D with sinpls := G.sinpls ++ D.sinpls } : pa_policy_group) ∈
        Function.update gset1.hash_tbl idx ((gset1.hash_tbl idx).eraseIdx pos) didx := by
      by_cases hi : didx = idx
      · subst hi
        rw [Function.update_same]
        exact mem_eraseIdx_of_name_ne _ pos G _ hget1 hmem1 hne
      · rw [Function.update_noteq hi]
        exact hmem1
    have := pa_policy_group_find_of_mem bits
      { u with
        groups := { gset1 with
          hash_tbl := Function.update gset1.hash_tbl idx
            ((gset1.hash_tbl idx).eraseIdx pos) } }
      didx _ hwf2 hmem2
    rw [← hDname]
    exact this


/-! ## The default sink after a move: claim C31 -/

/-- C31 (the code at the failing input): the shadow of the default sink is the
earpiece, index 1; the group `music`, created under that shadow, was moved to
the loudspeaker with status 0 and has the loudspeaker as its sink, while its
`sinpidx` is still 1, because `pa_policy_group_move_to` stores the sink only.
The notification for index 1 therefore clears `music` too: when the host
reports the new default sink with index 7, the sink of `music` is that sink,
and when it reports none, the sink of `music` is NULL; in neither case it is
the loudspeaker. -/
theorem update_default_sink_clears_moved_group :
    (example_routed.2.2,
      (pa_policy_group_find 6 example_routed.1 "music").map
        (fun g => (g.sink, g.sinpidx, g.sinpls.map (fun sl => sl.index))),
      example_routed.1.defsink, example_routed.1.defidx) =
        (0, some (some example_ihf, 1, [10]), some example_earpiece, 1) ∧
      (pa_policy_group_find 6
          (pa_policy_groupset_update_default_sink 6
            { example_core with default_sink := some { index := 7, name := some "headset" } }
            example_routed.1 1) "music").map (fun g => g.sink) =
        some (some { index := 7, name := some "headset" }) ∧
      (pa_policy_group_find 6
          (pa_policy_groupset_update_default_sink 6
            { example_core with default_sink := none } example_routed.1 1) "music").map
          (fun g => g.sink) = some none := by
  refine ⟨by decide, by decide, by decide⟩

/-! ## Moving to a source: claim C32 -/

/-- C32 (as stated, refuted): the group `music` has the route flag and the
source-output 20 as a member, and the type `mic` resolves to the microphone.
`pa_policy_group_move_to(music, source, "mic")` returns 0 and stores the
microphone as the source of the group, but the host is not asked to move
anything: the list of host calls is empty afterwards. -/
theorem move_to_source_moves_nothing :
    (pa_policy_group_find 6 example_reparent.1 "music").map
        (fun g => (g.flags, g.soutls.map (fun sl => sl.index))) = some (14, [20]) ∧
      find_source_by_type example_capture_core "mic" = some example_mic ∧
      ((pa_policy_group_move_to 6 example_capture_core 2 none example_reparent.1
          example_reparent.2 (some "music")
          pa_policy_route_class.pa_policy_route_to_source "mic").2.2,
        (pa_policy_group_move_to 6 example_capture_core 2 none example_reparent.1
          example_reparent.2 (some "music")
          pa_policy_route_class.pa_policy_route_to_source "mic").2.1.calls,
        (pa_policy_group_find 6
          (pa_policy_group_move_to 6 example_capture_core 2 none example_reparent.1
            example_reparent.2 (some "music")
            pa_policy_route_class.pa_policy_route_to_source "mic").1 "music").map
          (fun g => g.source)) = (0, [], some (some example_mic)) := by
  refine ⟨by decide, by decide, by decide⟩

/-- C32 (amended): a group move to a capture destination only stores the
destination. For a group found by name that has the route flag and a type
that resolves to a source, `pa_policy_group_move_to(G, source, type)` makes no
host call and leaves the host as it is, whatever the members of the
source-output list are, returns 0, and the source of the group is the
resolved source afterwards, the rest of the group being unchanged. A
source-output inserted into the group after the move is moved to that source:
`pa_policy_group_insert_source_output` then makes exactly the host call
`pa_source_output_move_to(so, source)`, links the stream at the head of the
list and sets its back-reference to the name of the group. -/
theorem move_to_source_stores_endpoint_only (bits : Nat) (core : pa_core)
    ( PA_POLICY_GROUP_FLAG_ROUTE_AUDIO : Nat) (sink : Option pa_sink)
    (u : policy_group_state) (h : host_state) (name : String) (G : pa_policy_group)
    (type : String) (s : pa_source)
    (hG : pa_policy_group_find bits u name = some G)
    (hflag : G.flags &&& PA_POLICY_GROUP_FLAG_ROUTE_AUDIO ≠ 0)
    (hs : find_source_by_type core type = some s) :
    (pa_policy_group_move_to bits core PA_POLICY_GROUP_FLAG_ROUTE_AUDIO sink u h (some name)
        pa_policy_route_class.pa_policy_route_to_source type).2 = (h, 0) ∧
      pa_policy_group_find bits
          (pa_policy_group_move_to bits core PA_POLICY_GROUP_FLAG_ROUTE_AUDIO sink u h
            (some name) pa_policy_route_class.pa_policy_route_to_source type).1 name =
        some { G with source := some s } ∧
      ∀ so : pa_source_output,
        (pa_policy_group_insert_source_output bits
            (pa_policy_group_move_to bits core PA_POLICY_GROUP_FLAG_ROUTE_AUDIO sink u h
              (some name) pa_policy_route_class.pa_policy_route_to_source type).1
            (pa_policy_group_move_to bits core PA_POLICY_GROUP_FLAG_ROUTE_AUDIO sink u h
              (some name) pa_policy_route_class.pa_policy_route_to_source type).2.1
            name so).2.calls =
            h.calls ++ [host_call.source_output_move_to so (some s)] ∧
          (pa_policy_group_insert_source_output bits
            (pa_policy_group_move_to bits core PA_POLICY_GROUP_FLAG_ROUTE_AUDIO sink u h
              (some name) pa_policy_route_class.pa_policy_route_to_source type).1
            (pa_policy_group_move_to bits core PA_POLICY_GROUP_FLAG_ROUTE_AUDIO sink u h
              (some name) pa_policy_route_class.pa_policy_route_to_source type).2.1
            name so).2.source_output_group so = some name ∧
          pa_policy_group_find bits
            (pa_policy_group_insert_source_output bits
              (pa_policy_group_move_to bits core PA_POLICY_GROUP_FLAG_ROUTE_AUDIO sink u h
                (some name) pa_policy_route_class.pa_policy_route_to_source type).1
              (pa_policy_group_move_to bits core PA_POLICY_GROUP_FLAG_ROUTE_AUDIO sink u h
                (some name) pa_policy_route_class.pa_policy_route_to_source type).2.1
              name so).1 name =
            some { G with
              source := some s,
              soutls := { index := so.index, source_output := so } :: G.soutls } := by
  obtain ⟨idx, pos, hfind⟩ := pa_policy_group_find_some bits u name G hG
  have hname : G.name = name := (find_group_some bits u.groups name idx pos G hfind).2.2.1
  have hmove : pa_policy_group_move_to bits core PA_POLICY_GROUP_FLAG_ROUTE_AUDIO sink u h
      (some name) pa_policy_route_class.pa_policy_route_to_source type =
      ({ u with
          groups := groupset_modify u.groups idx pos (fun g => { g with source := some s }) },
        h, 0) := by
    simp only [pa_policy_group_move_to, hs, hfind, hflag, if_false, move_group, set_endpoint]
    simp
    rfl
  have hfind1 : find_group bits
      (groupset_modify u.groups idx pos (fun g => { g with source := some s })) name =
      some (idx, pos, { G with source := some s }) :=
    find_group_modify_self bits u.groups name idx pos G _ hfind rfl
  rw [hmove]
  refine ⟨rfl, pa_policy_group_find_eq bits _ name idx pos _ hfind1, ?_⟩
  intro so
  have hins : pa_policy_group_insert_source_output bits
      { u with
        groups := groupset_modify u.groups idx pos (fun g => { g with source := some s }) }
      h name so =
      ({ u with
          groups := groupset_modify
            (groupset_modify u.groups idx pos (fun g => { g with source := some s }))
            idx pos
            (fun g => { g with
              soutls := { index := so.index, source_output := so } :: g.soutls }) },
        host_call_made (pa_source_output_ext_set_policy_group h so (some G.name))
          (host_call.source_output_move_to so (some s))) := by
    simp only [pa_policy_group_insert_source_output, hfind1]
  simp only
  rw [hins]
  refine ⟨rfl, ?_, ?_⟩
  · simp only [host_call_made, pa_source_output_ext_set_policy_group, Function.update_same,
      hname]
  · exact pa_policy_group_find_eq bits _ name idx pos _
      (find_group_modify_self bits _ name idx pos _ _ hfind1 rfl)

theorem move_to_source_stores_endpoint_only_witness :
    (pa_policy_group_move_to 6 example_capture_core 2 none example_reparent.1
        example_reparent.2 (some "music")
        pa_policy_route_class.pa_policy_route_to_source "mic").2 =
      (example_reparent.2, 0) ∧
      (pa_policy_group_insert_source_output 6
          (pa_policy_group_move_to 6 example_capture_core 2 none example_reparent.1
            example_reparent.2 (some "music")
            pa_policy_route_class.pa_policy_route_to_source "mic").1
          (pa_policy_group_move_to 6 example_capture_core 2 none example_reparent.1
            example_reparent.2 (some "music")
            pa_policy_route_class.pa_policy_route_to_source "mic").2.1
          "music" { index := 21 }).2.calls =
        example_reparent.2.calls ++
          [host_call.source_output_move_to { index := 21 } (some example_mic)] :=
  ⟨(move_to_source_stores_endpoint_only 6 example_capture_core 2 none example_reparent.1
      example_reparent.2 "music"
      { flags := 14, name := "music", sink := none, sinpidx := PA_IDXSET_INVALID,
        source := none, limit := PA_VOLUME_NORM, corked := 0,
        sinpls := [{ index := 10, sink_input := { index := 10 } }],
        soutls := [{ index := 20, source_output := { index := 20 } }] }
      "mic" example_mic (by decide) (by decide) (by decide)).1,
    ((move_to_source_stores_endpoint_only 6 example_capture_core 2 none example_reparent.1
      example_reparent.2 "music"
      { flags := 14, name := "music", sink := none, sinpidx := PA_IDXSET_INVALID,
        source := none, limit := PA_VOLUME_NORM, corked := 0,
        sinpls := [{ index := 10, sink_input := { index := 10 } }],
        soutls := [{ index := 20, source_output := { index := 20 } }] }
      "mic" example_mic (by decide) (by decide) (by decide)).2.2 { index := 21 }).1⟩

/-! ## Pid 0: claim C33 -/

/-- C33: pid 0 acts as `no pid` in the registry. For every state, stream-name
`s` (possibly absent) and group `g`: after `pa_classify_register_pid(P, s, g)`
with a non-zero `P` the look-up of `(P, s)` returns `g`; with pid 0
`pa_classify_register_pid` and `pa_classify_unregister_pid` return the state
they were given; and the look-up of `(0, s)` returns no group in every state,
in particular after `pa_classify_register_pid(0, s, g)`. -/
theorem pid_zero_is_no_pid (bits : Nat) (c : pa_classify) (s : Option String) (g : String) :
    (∀ P : Int, P ≠ 0 →
        pid_hash_get_group bits
          (pa_classify_register_pid bits c P s (some g)).streams.pid_hash P s = some g) ∧
      pa_classify_register_pid bits c 0 s (some g) = c ∧
      pa_classify_unregister_pid bits c 0 s = c ∧
      pid_hash_get_group bits c.streams.pid_hash 0 s = none ∧
      pid_hash_get_group bits
        (pa_classify_register_pid bits c 0 s (some g)).streams.pid_hash 0 s = none := by
  refine ⟨?_, ?_, ?_, pid_hash_get_group_zero bits _ s, pid_hash_get_group_zero bits _ s⟩
  · intro P hP
    rw [register_pid_pid_hash bits c P s g hP]
    exact pid_hash_get_group_insert_self bits _ P s g hP
  · simp [pa_classify_register_pid]
  · simp [pa_classify_unregister_pid]

/-! ## Termination of the deletion: claim C34 -/

/-- C34 (the code on the inputs the claim names): when the deleted group is
not the default group and both it and the default group have a sink-input,
`pa_policy_group_free` has no result, however many iterations its reparenting
loop is given. The loop itself never ends once `dflt->sinpls` is not NULL:
every iteration leaves `sil->next` non-NULL, because a NULL link is replaced
by `dflt->sinpls`, so the next `sil` is not NULL either. -/
theorem delete_group_does_not_terminate (bits : Nat) (u : policy_group_state)
    (h : host_state) (name : String) (G : pa_policy_group) (dn : String)
    (D : pa_policy_group)
    (hG : pa_policy_group_find bits u name = some G) (hne : G.sinpls ≠ [])
    (hdflt : u.groups.dflt = some dn) (hdn : dn ≠ name)
    (hD : pa_policy_group_find bits u dn = some D) (hDne : D.sinpls ≠ []) :
    (∀ fuel : Nat, pa_policy_group_free bits fuel u h name = none) ∧
      (∀ (dnam : String) (d fuel a : Nat) (next : Nat → Option Nat) (h2 : host_state),
        reparent_loop (G.sinpls ++ D.sinpls) dnam (some d) fuel (some a) next h2 = none) :=
  ⟨fun fuel => pa_policy_group_free_diverges bits u h name G dn D hG hne hdflt hdn hD hDne fuel,
    fun dnam d fuel a next h2 => reparent_loop_diverges _ dnam d fuel a next h2⟩

theorem delete_group_does_not_terminate_witness :
    (pa_policy_group_find 6 example_cycle.1 "othermedia").map
          (fun g => g.sinpls.map (fun sl => sl.index)) = some [13, 12] ∧
      (pa_policy_group_find 6 example_cycle.1 "music").map
          (fun g => g.sinpls.map (fun sl => sl.index)) = some [10] ∧
      ∀ fuel : Nat,
        pa_policy_group_free 6 fuel example_cycle.1 example_cycle.2 "music" = none :=
  ⟨by decide, by decide,
    (delete_group_does_not_terminate 6 example_cycle.1 example_cycle.2 "music"
      { flags := 14, name := "music", sink := none, sinpidx := PA_IDXSET_INVALID,
        source := none, limit := PA_VOLUME_NORM, corked := 0,
        sinpls := [{ index := 10, sink_input := { index := 10 } }], soutls := [] }
      "othermedia"
      { flags := 14, name := "othermedia", sink := none, sinpidx := PA_IDXSET_INVALID,
        source := none, limit := PA_VOLUME_NORM, corked := 0,
        sinpls := [{ index := 13, sink_input := { index := 13 } },
          { index := 12, sink_input := { index := 12 } }],
        soutls := [] }
      (by decide) (by decide) (by decide) (by decide) (by decide) (by decide)).1⟩

/-! ## The status of a move of all groups: claim C36 -/

/-- C36 (the code at the failing input): the scan visits `ring` (no flag),
`othermedia` (route flag, no member), `music` (route flag, members 10, 11,
12) and `game` (no flag), and the host fails to move the sink-input 12.
`pa_policy_group_move_to` with a NULL name makes the three move calls, the
move of `music` fails and its sink stays NULL, and yet the status is 0: the
visit of `game`, a group without the route flag, sets `ret = 0` again.
Without the group `game` the same move returns -1. -/
theorem move_all_loses_failure :
    example_core.sink_input_move_to { index := 12 } (some example_ihf) = -1 ∧
      ((pa_policy_group_move_to 6 example_core 2 (some example_ihf) example_move_all.1
          example_move_all.2 none
          pa_policy_route_class.pa_policy_route_to_sink "ihf").2.2,
        (pa_policy_group_move_to 6 example_core 2 (some example_ihf) example_move_all.1
          example_move_all.2 none
          pa_policy_route_class.pa_policy_route_to_sink "ihf").2.1.calls,
        (pa_policy_group_find 6
          (pa_policy_group_move_to 6 example_core 2 (some example_ihf) example_move_all.1
            example_move_all.2 none
            pa_policy_route_class.pa_policy_route_to_sink "ihf").1 "music").map
          (fun g => g.sink)) =
        (0,
          [host_call.sink_input_move_to { index := 10 } (some example_ihf),
           host_call.sink_input_move_to { index := 11 } (some example_ihf),
           host_call.sink_input_move_to { index := 12 } (some example_ihf)],
          some none) ∧
      (pa_policy_group_move_to 6 example_core 2 (some example_ihf) example_bound.1
          example_bound.2 none
          pa_policy_route_class.pa_policy_route_to_sink "ihf").2.2 = -1 := by
  refine ⟨by decide, by decide, by decide⟩

/-! ## Lemmas on the sinks of the groups -/

theorem sink_kept_refl (g : pa_policy_group) : sink_kept g g := Or.inl rfl

theorem sink_kept_trans (a b c : pa_policy_group) (hab : sink_kept a b)
    (hbc : sink_kept b c) : sink_kept a c := by
  rcases hab with h1 | h1
  · rcases hbc with h2 | h2
    · exact Or.inl (h1.trans h2)
    · exact Or.inr (by rw [h1]; exact h2)
  · exact Or.inr h1

theorem sinks_kept_refl (tbl : Nat → List pa_policy_group) : sinks_kept tbl tbl :=
  fun _ g hg => ⟨g, hg, sink_kept_refl g⟩

theorem sinks_kept_trans (t3 t2 t1 : Nat → List pa_policy_group)
    (h32 : sinks_kept t3 t2) (h21 : sinks_kept t2 t1) : sinks_kept t3 t1 := by
  intro i g3 hg3
  obtain ⟨g2, hg2, hk2⟩ := h32 i g3 hg3
  obtain ⟨g1, hg1, hk1⟩ := h21 i g2 hg2
  exact ⟨g1, hg1, sink_kept_trans g3 g2 g1 hk2 hk1⟩

theorem sinks_kept_update (tbl : Nat → List pa_policy_group) (idx : Nat)
    (chain : List pa_policy_group)
    (hc : ∀ g2 ∈ chain, ∃ g ∈ tbl idx, sink_kept g2 g) :
    sinks_kept (Function.update tbl idx chain) tbl := by
  intro i g2 hg2
  by_cases hi : i = idx
  · subst hi
    rw [Function.update_same] at hg2
    exact hc g2 hg2
  · rw [Function.update_noteq hi] at hg2
    exact ⟨g2, hg2, sink_kept_refl g2⟩

theorem sinks_kept_groupset_modify (gset : pa_policy_groupset) (idx pos : Nat)
    (f : pa_policy_group → pa_policy_group)
    (hf : ∀ y, (gset.hash_tbl idx).get? pos = some y → sink_kept (f y) y) :
    sinks_kept (groupset_modify gset idx pos f).hash_tbl gset.hash_tbl := by
  intro i g2 hg2
  rcases mem_groupset_modify gset idx pos f i g2 hg2 with hmem | ⟨hi, y, hy, hgy⟩
  · exact ⟨g2, hmem, sink_kept_refl g2⟩
  · subst hi
    subst hgy
    exact ⟨y, List.mem_iff_getElem?.mpr ⟨pos, by simpa [List.get?_eq_getElem?] using hy⟩,
      hf y hy⟩

theorem groups_bound_of_kept (bits : Nat) (u u2 : policy_group_state)
    (hdef : u2.defsink = u.defsink)
    (hkept : sinks_kept u2.groups.hash_tbl u.groups.hash_tbl)
    (hb : groups_bound bits u) : groups_bound bits u2 := by
  intro i g2 hg2
  obtain ⟨g, hg, hk⟩ := hkept i g2 hg2
  refine ⟨(hb i g hg).1, ?_⟩
  intro hd
  rcases hk with h1 | h1
  · rw [h1]
    exact (hb i g hg).2 (by rw [← hdef]; exact hd)
  · exact h1

theorem groups_bound_new (bits : Nat) : groups_bound bits pa_policy_groupset_new := by
  intro i g hg
  simp [pa_policy_groupset_new] at hg

theorem groups_bound_group_new (bits : Nat) (u : policy_group_state) (name : String)
    (flags : Nat) (hb : groups_bound bits u) :
    groups_bound bits (pa_policy_group_new bits u name flags).1 := by
  cases hloop : find_group_by_name_loop name
      (u.groups.hash_tbl (hash_value bits (some name))) with
  | some pos =>
    rw [pa_policy_group_new_found bits u name flags pos hloop]
    exact hb
  | none =>
    rw [pa_policy_group_new_created bits u name flags hloop]
    intro i g hg
    simp only at hg
    by_cases hi : i = hash_value bits (some name)
    · subst hi
      rw [Function.update_same] at hg
      rcases List.mem_cons.mp hg with hnew | hmem
      · rw [hnew]
        exact ⟨hash_value_lt bits (some name), fun hd => hd⟩
      · exact hb _ g hmem
    · rw [Function.update_noteq hi] at hg
      exact hb i g hg

theorem groups_bound_create_default_group (bits : Nat) (dn : String) (fc : Nat)
    (u : policy_group_state) (hb : groups_bound bits u) :
    groups_bound bits (pa_policy_groupset_create_default_group bits dn fc u) :=
  groups_bound_group_new bits u dn fc hb

theorem pa_policy_group_free_defsink (bits : Nat) (fuel : Nat) (u : policy_group_state)
    (h : host_state) (name : String) (u1 : policy_group_state) (h1 : host_state)
    (hfree : pa_policy_group_free bits fuel u h name = some (u1, h1)) :
    u1.defsink = u.defsink ∧ u1.defidx = u.defidx := by
  simp only [pa_policy_group_free] at hfree
  split at hfree
  · simp only [Option.some.injEq, Prod.mk.injEq] at hfree
    rw [← hfree.1]
    exact ⟨rfl, rfl⟩
  · split at hfree
    · simp at hfree
    · simp only [Option.some.injEq, Prod.mk.injEq] at hfree
      rw [← hfree.1]
      exact ⟨rfl, rfl⟩

theorem groups_bound_free (bits : Nat) (fuel : Nat) (u : policy_group_state)
    (h : host_state) (name : String) (u1 : policy_group_state) (h1 : host_state)
    (hb : groups_bound bits u)
    (hfree : pa_policy_group_free bits fuel u h name = some (u1, h1)) :
    groups_bound bits u1 := by
  have hdef := (pa_policy_group_free_defsink bits fuel u h name u1 h1 hfree).1
  rcases pa_policy_group_free_some bits fuel u h name u1 h1 hfree with
    ⟨_, hu, _⟩ | ⟨idx, pos, G, _, tbl1, hs, hcase, htbl, _⟩
  · rw [hu]; exact hb
  · apply groups_bound_of_kept bits u u1 hdef _ hb
    have herase : sinks_kept u1.groups.hash_tbl tbl1 := by
      rw [htbl]
      apply sinks_kept_update
      intro g2 hg2
      exact ⟨g2, List.mem_of_mem_eraseIdx hg2, sink_kept_refl g2⟩
    rcases hcase with ⟨htbl1, _⟩ | ⟨dn, didx, dpos, D, _, _, _, _, htbl1, _⟩
    · rw [htbl1] at herase
      exact herase
    · rw [htbl1] at herase
      exact sinks_kept_trans _ _ _ herase
        (sinks_kept_groupset_modify u.groups didx dpos _ (fun y _ => Or.inl rfl))

theorem set_endpoint_sink_kept (target : target) (grp : pa_policy_group) :
    sink_kept (set_endpoint target grp) grp := by
  simp only [set_endpoint]
  cases target.any with
  | null => exact Or.inl rfl
  | sink s => exact Or.inr rfl
  | source s => exact Or.inl rfl

theorem move_all_chain_kept (core : pa_core) (F : Nat) (sink : Option pa_sink)
    (target : target) (chain : List pa_policy_group) (h : host_state) (ret : Int) :
    ∀ g2 ∈ (move_all_chain core F sink target chain h ret).1,
      ∃ g ∈ chain, sink_kept g2 g := by
  induction chain generalizing h ret with
  | nil =>
    intro g2 hg2
    simp [move_all_chain] at hg2
  | cons grp rest ih =>
    intro g2 hg2
    rw [move_all_chain] at hg2
    by_cases hflag : grp.flags &&& F = 0
    · rw [if_pos hflag] at hg2
      rcases List.mem_cons.mp hg2 with hnew | hmem
      · exact ⟨grp, List.mem_cons_self _ _, by rw [hnew]; exact sink_kept_refl grp⟩
      · obtain ⟨g, hg, hk⟩ := ih _ _ g2 hmem
        exact ⟨g, List.mem_cons_of_mem _ hg, hk⟩
    · rw [if_neg hflag] at hg2
      by_cases hm : (move_group core sink grp target h).2 < 0
      · simp only [hm, if_true] at hg2
        rcases List.mem_cons.mp hg2 with hnew | hmem
        · exact ⟨grp, List.mem_cons_self _ _, by rw [hnew]; exact sink_kept_refl grp⟩
        · obtain ⟨g, hg, hk⟩ := ih _ _ g2 hmem
          exact ⟨g, List.mem_cons_of_mem _ hg, hk⟩
      · simp only [hm, if_false] at hg2
        rcases List.mem_cons.mp hg2 with hnew | hmem
        · exact ⟨grp, List.mem_cons_self _ _,
            by rw [hnew]; exact set_endpoint_sink_kept target grp⟩
        · obtain ⟨g, hg, hk⟩ := ih _ _ g2 hmem
          exact ⟨g, List.mem_cons_of_mem _ hg, hk⟩

theorem move_all_scan_kept (core : pa_core) (F : Nat) (sink : Option pa_sink)
    (target : target) (n i : Nat) (gset : pa_policy_groupset) (h : host_state) (ret : Int) :
    sinks_kept (move_all_scan core F sink target n i gset h ret).1.hash_tbl gset.hash_tbl := by
  induction n generalizing i gset h ret with
  | zero => exact sinks_kept_refl _
  | succ m ih =>
    rw [move_all_scan]
    refine sinks_kept_trans _ _ _ (ih _ _ _ _) ?_
    exact sinks_kept_update gset.hash_tbl i _
      (move_all_chain_kept core F sink target (gset.hash_tbl i) h ret)

theorem groups_bound_move_to (bits : Nat) (core : pa_core) (F : Nat) (sink : Option pa_sink)
    (u : policy_group_state) (h : host_state) (name : Option String)
    (class_ : pa_policy_route_class) (type : String) (hb : groups_bound bits u) :
    groups_bound bits (pa_policy_group_move_to bits core F sink u h name class_ type).1 := by
  simp only [pa_policy_group_move_to]
  split
  · exact hb
  · cases name with
    | none =>
      simp only
      exact groups_bound_of_kept bits u _ rfl (move_all_scan_kept _ _ _ _ _ _ _ _ _) hb
    | some n =>
      simp only
      split
      · exact hb
      · split
        · exact hb
        · split
          · exact groups_bound_of_kept bits u _ rfl
              (sinks_kept_groupset_modify u.groups _ _ _
                (fun y _ => set_endpoint_sink_kept _ y)) hb
          · exact hb

theorem groups_bound_insert_sink_input (bits : Nat) (u : policy_group_state) (h : host_state)
    (name : Option String) (si : pa_sink_input) (u1 : policy_group_state) (h1 : host_state)
    (hb : groups_bound bits u)
    (hins : pa_policy_group_insert_sink_input bits u h name si = some (u1, h1)) :
    groups_bound bits u1 := by
  cases hgd : group_or_dflt bits u.groups name with
  | none => simp [pa_policy_group_insert_sink_input, hgd] at hins
  | some r =>
    cases r with
    | none =>
      simp only [pa_policy_group_insert_sink_input, hgd, Option.some.injEq,
        Prod.mk.injEq] at hins
      rw [← hins.1]
      exact hb
    | some r2 =>
      obtain ⟨idx, pos, G⟩ := r2
      rw [insert_sink_input_found bits u h name si idx pos G hgd] at hins
      simp only [Option.some.injEq, Prod.mk.injEq] at hins
      rw [← hins.1]
      exact groups_bound_of_kept bits u _ rfl
        (sinks_kept_groupset_modify u.groups idx pos _ (fun y _ => Or.inl rfl)) hb

theorem groups_bound_insert_source_output (bits : Nat) (u : policy_group_state)
    (h : host_state) (name : String) (so : pa_source_output) (hb : groups_bound bits u) :
    groups_bound bits (pa_policy_group_insert_source_output bits u h name so).1 := by
  simp only [pa_policy_group_insert_source_output]
  split
  · exact hb
  · exact groups_bound_of_kept bits u _ rfl
      (sinks_kept_groupset_modify u.groups _ _ _ (fun y _ => Or.inl rfl)) hb

theorem remove_sink_input_chain_kept (idx : Nat) (chain chain2 : List pa_policy_group)
    (hr : remove_sink_input_chain idx chain = some chain2) :
    ∀ g2 ∈ chain2, ∃ g ∈ chain, sink_kept g2 g := by
  induction chain generalizing chain2 with
  | nil => simp [remove_sink_input_chain] at hr
  | cons grp rest ih =>
    rw [remove_sink_input_chain] at hr
    intro g2 hg2
    by_cases hany : grp.sinpls.any (fun sl => decide (idx = sl.index)) = true
    · rw [if_pos hany] at hr
      rw [← Option.some.inj hr] at hg2
      rcases List.mem_cons.mp hg2 with hnew | hmem
      · exact ⟨grp, List.mem_cons_self _ _, by rw [hnew]; exact Or.inl rfl⟩
      · exact ⟨g2, List.mem_cons_of_mem _ hmem, sink_kept_refl g2⟩
    · rw [if_neg hany] at hr
      cases hrest : remove_sink_input_chain idx rest with
      | none => simp [hrest] at hr
      | some c =>
        rw [hrest] at hr
        rw [← Option.some.inj hr] at hg2
        rcases List.mem_cons.mp hg2 with hnew | hmem
        · exact ⟨grp, List.mem_cons_self _ _, by rw [hnew]; exact sink_kept_refl grp⟩
        · obtain ⟨g, hg, hk⟩ := ih c hrest g2 hmem
          exact ⟨g, List.mem_cons_of_mem _ hg, hk⟩

theorem remove_sink_input_scan_kept (idx : Nat) (gset : pa_policy_groupset) (n i : Nat) :
    sinks_kept (remove_sink_input_scan idx gset n i).hash_tbl gset.hash_tbl := by
  induction n generalizing i with
  | zero => exact sinks_kept_refl _
  | succ m ih =>
    rw [remove_sink_input_scan]
    cases hr : remove_sink_input_chain idx (gset.hash_tbl i) with
    | none => exact ih (i + 1)
    | some chain =>
      exact sinks_kept_update gset.hash_tbl i chain
        (remove_sink_input_chain_kept idx _ chain hr)

theorem remove_source_output_chain_kept (idx : Nat) (chain chain2 : List pa_policy_group)
    (hr : remove_source_output_chain idx chain = some chain2) :
    ∀ g2 ∈ chain2, ∃ g ∈ chain, sink_kept g2 g := by
  induction chain generalizing chain2 with
  | nil => simp [remove_source_output_chain] at hr
  | cons grp rest ih =>
    rw [remove_source_output_chain] at hr
    intro g2 hg2
    by_cases hany : grp.soutls.any (fun sl => decide (idx = sl.index)) = true
    · rw [if_pos hany] at hr
      rw [← Option.some.inj hr] at hg2
      rcases List.mem_cons.mp hg2 with hnew | hmem
      · exact ⟨grp, List.mem_cons_self _ _, by rw [hnew]; exact Or.inl rfl⟩
      · exact ⟨g2, List.mem_cons_of_mem _ hmem, sink_kept_refl g2⟩
    · rw [if_neg hany] at hr
      cases hrest : remove_source_output_chain idx rest with
      | none => simp [hrest] at hr
      | some c =>
        rw [hrest] at hr
        rw [← Option.some.inj hr] at hg2
        rcases List.mem_cons.mp hg2 with hnew | hmem
        · exact ⟨grp, List.mem_cons_self _ _, by rw [hnew]; exact sink_kept_refl grp⟩
        · obtain ⟨g, hg, hk⟩ := ih c hrest g2 hmem
          exact ⟨g, List.mem_cons_of_mem _ hg, hk⟩

theorem remove_source_output_scan_kept (idx : Nat) (gset : pa_policy_groupset) (n i : Nat) :
    sinks_kept (remove_source_output_scan idx gset n i).hash_tbl gset.hash_tbl := by
  induction n generalizing i with
  | zero => exact sinks_kept_refl _
  | succ m ih =>
    rw [remove_source_output_scan]
    cases hr : remove_source_output_chain idx (gset.hash_tbl i) with
    | none => exact ih (i + 1)
    | some chain =>
      exact sinks_kept_update gset.hash_tbl i chain
        (remove_source_output_chain_kept idx _ chain hr)

theorem groups_bound_cork (bits : Nat) (F : Nat) (u : policy_group_state) (h : host_state)
    (name : String) (corked : Int) (hb : groups_bound bits u) :
    groups_bound bits (pa_policy_group_cork bits F u h name corked).1 := by
  simp only [pa_policy_group_cork]
  split
  · exact hb
  · split
    · exact hb
    · exact groups_bound_of_kept bits u _ rfl
        (sinks_kept_groupset_modify u.groups _ _ _ (fun y _ => Or.inl rfl)) hb

theorem groups_bound_volume_limit (bits : Nat) (core : pa_core) (F : Nat)
    (u : policy_group_state) (h : host_state) (name : Option String) (limit : Nat)
    (u1 : policy_group_state) (h1 : host_state) (ret : Int) (hb : groups_bound bits u)
    (hv : pa_policy_group_volume_limit bits core F u h name limit = some (u1, h1, ret)) :
    groups_bound bits u1 := by
  cases hgd : group_or_dflt bits u.groups name with
  | none => simp [pa_policy_group_volume_limit, hgd] at hv
  | some r =>
    cases r with
    | none =>
      simp only [pa_policy_group_volume_limit, hgd, Option.some.injEq,
        Prod.mk.injEq] at hv
      rw [← hv.1]
      exact hb
    | some r2 =>
      obtain ⟨idx, pos, G⟩ := r2
      obtain ⟨n, hfind⟩ := group_or_dflt_some bits u.groups name idx pos G hgd
      obtain ⟨_, hget, _, _⟩ := find_group_some bits u.groups n idx pos G hfind
      simp only [pa_policy_group_volume_limit, hgd] at hv
      by_cases hflag : G.flags &&& F = 0
      · simp only [hflag, if_true, Option.some.injEq, Prod.mk.injEq] at hv
        rw [← hv.1]
        exact hb
      · simp only [hflag, if_false, Option.some.injEq, Prod.mk.injEq] at hv
        rw [← hv.1]
        refine groups_bound_of_kept bits u _ rfl ?_ hb
        apply sinks_kept_groupset_modify
        intro y hy
        rw [hget] at hy
        rw [← Option.some.inj hy]
        left
        simp only [volset_group]
        split <;> rfl

theorem groups_bound_update_default_sink (bits : Nat) (core : pa_core)
    (u : policy_group_state) (idx : Nat) (hb : groups_bound bits u) :
    groups_bound bits (pa_policy_groupset_update_default_sink bits core u idx) := by
  have hmap : ∀ (gset : pa_policy_groupset) (f : pa_policy_group → pa_policy_group)
      (i : Nat) (g2 : pa_policy_group),
      (∀ j, ∀ g ∈ gset.hash_tbl j, j < PA_POLICY_GROUP_HASH_DIM bits) →
      g2 ∈ (groupset_map bits gset f).hash_tbl i →
      i < PA_POLICY_GROUP_HASH_DIM bits ∧ ∃ g ∈ gset.hash_tbl i, g2 = f g := by
    intro gset f i g2 hlt hg2
    simp only [groupset_map] at hg2
    by_cases hi : i < PA_POLICY_GROUP_HASH_DIM bits
    · rw [if_pos hi] at hg2
      obtain ⟨g, hg, hfg⟩ := List.mem_map.mp hg2
      exact ⟨hi, g, hg, hfg.symm⟩
    · rw [if_neg hi] at hg2
      exact absurd (hlt i g2 hg2) hi
  have hlt0 : ∀ j, ∀ g ∈ u.groups.hash_tbl j, j < PA_POLICY_GROUP_HASH_DIM bits :=
    fun j g hg => (hb j g hg).1
  -- the state after the first part of the function
  have hfirst : ∀ u1 : policy_group_state,
      (∀ j, ∀ g ∈ u1.groups.hash_tbl j, j < PA_POLICY_GROUP_HASH_DIM bits) →
      (u1.defsink.isSome = true → groups_bound bits u1) →
      groups_bound bits
        (match u1.defsink with
        | some _ => u1
        | none =>
          match core.default_sink with
          | none => u1
          | some defsink =>
            { groups := groupset_map bits u1.groups (fun group =>
                match group.sink with
                | none => { group with sink := some defsink, sinpidx := defsink.index }
                | some _ => group),
              defsink := some defsink, defidx := defsink.index }) := by
    intro u1 hlt1 hb1
    cases hd : u1.defsink with
    | some d =>
      simp only
      exact hb1 (by rw [hd]; rfl)
    | none =>
      cases hc : core.default_sink with
      | none =>
        simp only
        intro i g hg
        exact ⟨hlt1 i g hg, fun hsome => by rw [hd] at hsome; simp at hsome⟩
      | some D =>
        simp only
        intro i g2 hg2
        obtain ⟨hi, g, _, hfg⟩ := hmap u1.groups _ i g2 hlt1 hg2
        refine ⟨hi, fun _ => ?_⟩
        rw [hfg]
        cases hs : g.sink <;> simp [hs]
  simp only [pa_policy_groupset_update_default_sink]
  by_cases hcond : u.defsink.isSome = true ∧ u.defidx = idx
  · rw [if_pos hcond]
    exact hfirst
      { groups := groupset_map bits u.groups (fun group =>
          if group.sinpidx = u.defidx then
            { group with sink := none, sinpidx := PA_IDXSET_INVALID }
          else group),
        defsink := none, defidx := PA_IDXSET_INVALID }
      (fun j g hg => (hmap u.groups _ j g hlt0 hg).1)
      (fun hsome => by simp at hsome)
  · rw [if_neg hcond]
    exact hfirst u hlt0 (fun _ => hb)

theorem groups_bound_of_reachable (bits : Nat) (dn : String) (fc fr fl fk : Nat)
    (u : policy_group_state) (h : host_state)
    (hr : policy_store_reachable bits dn fc fr fl fk u h) : groups_bound bits u := by
  induction hr with
  | new h => exact groups_bound_new bits
  | update_default_sink core u h idx _ ih =>
    exact groups_bound_update_default_sink bits core u idx ih
  | create_default_group u h _ ih =>
    exact groups_bound_create_default_group bits dn fc u ih
  | create_group u h name flags _ ih =>
    exact groups_bound_group_new bits u name flags ih
  | delete_group u h fuel name u1 h1 _ hfree ih =>
    exact groups_bound_free bits fuel u h name u1 h1 ih hfree
  | move_to core sink u h name class_ type _ ih =>
    exact groups_bound_move_to bits core fr sink u h name class_ type ih
  | insert_sink_input u h name si u1 h1 _ hins ih =>
    exact groups_bound_insert_sink_input bits u h name si u1 h1 ih hins
  | insert_source_output u h name so _ ih =>
    exact groups_bound_insert_source_output bits u h name so ih
  | remove_sink_input u h idx _ ih =>
    exact groups_bound_of_kept bits u _ rfl
      (remove_sink_input_scan_kept idx u.groups _ 0) ih
  | remove_source_output u h idx _ ih =>
    exact groups_bound_of_kept bits u _ rfl
      (remove_source_output_scan_kept idx u.groups _ 0) ih
  | cork u h name corked _ ih =>
    exact groups_bound_cork bits fk u h name corked ih
  | volume_limit core u h name limit u1 h1 ret _ hv ih =>
    exact groups_bound_volume_limit bits core fl u h name limit u1 h1 ret ih hv

/-! ## No group without a sink while the default sink is known: claim C35 -/

/-- C35: no group is left unbound while a default sink is known. In every
state that the functions of policy-group.c reach from the initial state
(empty group set, empty shadow), by creating and deleting groups, moving
groups, notifications of a changed default sink, and also by inserting and
removing members, corking and limiting the volume, when the shadow `defsink`
of the default sink is set every group of the store has a non-NULL sink. -/
theorem no_group_unbound_while_default_known (bits : Nat)
    (PA_POLICY_DEFAULT_GROUP_NAME : String) (PA_POLICY_GROUP_FLAGS_CLIENT : Nat)
    ( PA_POLICY_GROUP_FLAG_ROUTE_AUDIO : Nat) (PA_POLICY_GROUP_FLAG_LIMIT_VOLUME : Nat)
    (PA_POLICY_GROUP_FLAG_CORK_STREAM : Nat) (u : policy_group_state) (h : host_state)
    (hr : policy_store_reachable bits PA_POLICY_DEFAULT_GROUP_NAME
      PA_POLICY_GROUP_FLAGS_CLIENT PA_POLICY_GROUP_FLAG_ROUTE_AUDIO
      PA_POLICY_GROUP_FLAG_LIMIT_VOLUME PA_POLICY_GROUP_FLAG_CORK_STREAM u h)
    (hshadow : u.defsink ≠ none) :
    ∀ (i : Nat) (g : pa_policy_group), g ∈ u.groups.hash_tbl i → g.sink ≠ none := by
  intro i g hg
  have hb := groups_bound_of_reachable bits _ _ _ _ _ u h hr i g hg
  have hsome : u.defsink.isSome = true := Option.isSome_iff_ne_none.mpr hshadow
  exact Option.isSome_iff_ne_none.mp (hb.2 hsome)

theorem no_group_unbound_while_default_known_witness :
    example_shadow.defsink = some example_earpiece ∧
      pa_policy_group_find 6 example_shadow "music" =
        some { flags := 14, name := "music", sink := some example_earpiece, sinpidx := 1,
               source := none, limit := PA_VOLUME_NORM, corked := 0, sinpls := [],
               soutls := [] } ∧
      ∀ (i : Nat) (g : pa_policy_group), g ∈ example_shadow.groups.hash_tbl i →
        g.sink ≠ none :=
  ⟨by decide, by decide,
    no_group_unbound_while_default_known 6 "othermedia" 14 2 4 8 example_shadow
      host_state_new
      (policy_store_reachable.create_group _ _ "music" 14
        (policy_store_reachable.update_default_sink example_core _ _ 0
          (policy_store_reachable.new host_state_new)))
      (by decide)⟩


/-! ## The methods a device or card rule can have: claim C17 -/

theorem devices_wf_of_append (A : List pa_classify_device_def) (z : pa_classify_device_def)
    (B : List pa_classify_device_def) (hA : ∀ a ∈ A, a.type.isSome = true)
    (hz : z.type = none) : devices_wf { ndef := A.length, defs := A ++ z :: B } := by
  refine ⟨by simp, ?_, ?_⟩
  · intro i d hi hget
    simp only [List.get?_eq_getElem?] at hget
    rw [List.getElem?_append_left hi] at hget
    have hmem : d ∈ A := List.mem_iff_getElem?.mpr ⟨i, hget⟩
    have := hA d hmem
    intro hnone
    rw [hnone] at this
    exact Bool.noConfusion this
  · intro d hget
    simp only [List.get?_eq_getElem?] at hget
    rw [List.getElem?_append_right (Nat.le_refl _)] at hget
    simp at hget
    rw [← hget]; exact hz

theorem cards_wf_of_append (A : List pa_classify_card_def) (z : pa_classify_card_def)
    (B : List pa_classify_card_def) (hA : ∀ a ∈ A, a.type.isSome = true)
    (hz : z.type = none) : cards_wf { ndef := A.length, defs := A ++ z :: B } := by
  refine ⟨by simp, ?_, ?_⟩
  · intro i d hi hget
    simp only [List.get?_eq_getElem?] at hget
    rw [List.getElem?_append_left hi] at hget
    have hmem : d ∈ A := List.mem_iff_getElem?.mpr ⟨i, hget⟩
    have := hA d hmem
    intro hnone
    rw [hnone] at this
    exact Bool.noConfusion this
  · intro d hget
    simp only [List.get?_eq_getElem?] at hget
    rw [List.getElem?_append_right (Nat.le_refl _)] at hget
    simp at hget
    rw [← hget]; exact hz

theorem devices_add_appended (devs : pa_classify_device) (hwf : devices_wf devs)
    (x : pa_classify_device_def) (hx : x.type.isSome = true) :
    device_rules
        ((devs.defs.take (devs.ndef + 1) ++ [pa_classify_device_def_zero]).set devs.ndef x) =
        device_rules devs.defs ++ [x] ∧
      devices_wf
        { ndef := devs.ndef + 1,
          defs := (devs.defs.take (devs.ndef + 1) ++ [pa_classify_device_def_zero]).set
            devs.ndef x } := by
  obtain ⟨A, z, B, hl, hlen, hA, hz⟩ := devices_wf_split devs hwf
  have hAx : ∀ a ∈ A ++ [x], a.type.isSome = true := by
    intro a ha
    rcases List.mem_append.mp ha with h1 | h1
    · exact hA a h1
    · rw [List.mem_singleton.mp h1]; exact hx
  have harr : (devs.defs.take (devs.ndef + 1) ++ [pa_classify_device_def_zero]).set devs.ndef x
      = (A ++ [x]) ++ pa_classify_device_def_zero :: [] := by
    rw [hl, ← hlen, realloc_set]
    simp
  rw [harr]
  constructor
  · simp only [device_rules]
    rw [takeWhile_append_stop _ (A ++ [x]) [] pa_classify_device_def_zero hAx rfl, hl,
      takeWhile_append_stop _ A B z hA hz]
  · have := devices_wf_of_append (A ++ [x]) pa_classify_device_def_zero [] hAx rfl
    rw [List.length_append, List.length_singleton, hlen] at this
    exact this

theorem cards_add_appended (cards : pa_classify_card) (hwf : cards_wf cards)
    (x : pa_classify_card_def) (hx : x.type.isSome = true) :
    card_rules
        ((cards.defs.take (cards.ndef + 1) ++ [pa_classify_card_def_zero]).set cards.ndef x) =
        card_rules cards.defs ++ [x] ∧
      cards_wf
        { ndef := cards.ndef + 1,
          defs := (cards.defs.take (cards.ndef + 1) ++ [pa_classify_card_def_zero]).set
            cards.ndef x } := by
  obtain ⟨A, z, B, hl, hlen, hA, hz⟩ := cards_wf_split cards hwf
  have hAx : ∀ a ∈ A ++ [x], a.type.isSome = true := by
    intro a ha
    rcases List.mem_append.mp ha with h1 | h1
    · exact hA a h1
    · rw [List.mem_singleton.mp h1]; exact hx
  have harr : (cards.defs.take (cards.ndef + 1) ++ [pa_classify_card_def_zero]).set cards.ndef x
      = (A ++ [x]) ++ pa_classify_card_def_zero :: [] := by
    rw [hl, ← hlen, realloc_set]
    simp
  rw [harr]
  constructor
  · simp only [card_rules]
    rw [takeWhile_append_stop _ (A ++ [x]) [] pa_classify_card_def_zero hAx rfl, hl,
      takeWhile_append_stop _ A B z hA hz]
  · have := cards_wf_of_append (A ++ [x]) pa_classify_card_def_zero [] hAx rfl
    rw [List.length_append, List.length_singleton, hlen] at this
    exact this

theorem devices_add_rejected (devs : pa_classify_device) (hwf : devices_wf devs) :
    device_rules
        ((devs.defs.take (devs.ndef + 1) ++ [pa_classify_device_def_zero]).set devs.ndef
          pa_classify_device_def_zero) = device_rules devs.defs ∧
      devices_wf
        { ndef := devs.ndef,
          defs := (devs.defs.take (devs.ndef + 1) ++ [pa_classify_device_def_zero]).set
            devs.ndef pa_classify_device_def_zero } := by
  obtain ⟨A, z, B, hl, hlen, hA, hz⟩ := devices_wf_split devs hwf
  have harr : (devs.defs.take (devs.ndef + 1) ++ [pa_classify_device_def_zero]).set devs.ndef
      pa_classify_device_def_zero =
      A ++ pa_classify_device_def_zero :: [pa_classify_device_def_zero] := by
    rw [hl, ← hlen, realloc_set]
  rw [harr]
  constructor
  · simp only [device_rules]
    rw [takeWhile_append_stop _ A _ pa_classify_device_def_zero hA rfl, hl,
      takeWhile_append_stop _ A B z hA hz]
  · have := devices_wf_of_append A pa_classify_device_def_zero [pa_classify_device_def_zero]
      hA rfl
    rw [hlen] at this
    exact this

theorem cards_add_rejected (cards : pa_classify_card) (hwf : cards_wf cards) :
    card_rules
        ((cards.defs.take (cards.ndef + 1) ++ [pa_classify_card_def_zero]).set cards.ndef
          pa_classify_card_def_zero) = card_rules cards.defs ∧
      cards_wf
        { ndef := cards.ndef,
          defs := (cards.defs.take (cards.ndef + 1) ++ [pa_classify_card_def_zero]).set
            cards.ndef pa_classify_card_def_zero } := by
  obtain ⟨A, z, B, hl, hlen, hA, hz⟩ := cards_wf_split cards hwf
  have harr : (cards.defs.take (cards.ndef + 1) ++ [pa_classify_card_def_zero]).set cards.ndef
      pa_classify_card_def_zero =
      A ++ pa_classify_card_def_zero :: [pa_classify_card_def_zero] := by
    rw [hl, ← hlen, realloc_set]
  rw [harr]
  constructor
  · simp only [card_rules]
    rw [takeWhile_append_stop _ A _ pa_classify_card_def_zero hA rfl, hl,
      takeWhile_append_stop _ A B z hA hz]
  · have := cards_wf_of_append A pa_classify_card_def_zero [pa_classify_card_def_zero]
      hA rfl
    rw [hlen] at this
    exact this

/-- C17 (amended): a device or card rule can be added with three of the four
predicate kinds. For a well-formed table, `devices_add` / `cards_add` with the
method equals, startswith, or matches with an argument that `regcomp`
compiles, appends the rule: the count grows by one, the rules before the
sentinel are the old ones followed by the new rule, which carries the method
function and the argument of its kind, and the table is well formed again.
With the method true (as with `pa_method_unknown` and `pa_method_max`) the
definition is rejected: count and rules are unchanged, the table is well
formed, and every result of the classification and of the type test is the
one of the table before. -/
theorem add_accepts_three_methods (regcomp : String → Option regex_t)
    (devs : pa_classify_device) (hdevs : devices_wf devs) (cards : pa_classify_card)
    (hcards : cards_wf cards) (type prop arg : String) (profile : Option String)
    (flags : Nat) :
    (∀ (method : pa_classify_method) (fn : pa_classify_method_fn) (a : pa_classify_arg),
        ((method = pa_classify_method.pa_method_equals ∧ fn = pa_classify_method_equals ∧
            a = pa_classify_arg.string (some arg)) ∨
          (method = pa_classify_method.pa_method_startswith ∧
            fn = pa_classify_method_startswith ∧ a = pa_classify_arg.string (some arg)) ∨
          (method = pa_classify_method.pa_method_matches ∧ fn = pa_classify_method_matches ∧
            ∃ re, regcomp arg = some re ∧ a = pa_classify_arg.rexp re)) →
        ((devices_add regcomp devs type prop method arg flags).ndef = devs.ndef + 1 ∧
          device_rules (devices_add regcomp devs type prop method arg flags).defs =
            device_rules devs.defs ++
              [{ type := some type, prop := some prop, method := some fn, arg := a,
                 data := { flags := flags } }] ∧
          devices_wf (devices_add regcomp devs type prop method arg flags)) ∧
        ((cards_add regcomp cards type method arg profile flags).ndef = cards.ndef + 1 ∧
          card_rules (cards_add regcomp cards type method arg profile flags).defs =
            card_rules cards.defs ++
              [{ type := some type, method := some fn, arg := a,
                 data := { profile := profile, flags := flags } }] ∧
          cards_wf (cards_add regcomp cards type method arg profile flags))) ∧
      (∀ method : pa_classify_method,
        (method = pa_classify_method.pa_method_true ∨
          method = pa_classify_method.pa_method_unknown ∨
          method = pa_classify_method.pa_method_max) →
        ((devices_add regcomp devs type prop method arg flags).ndef = devs.ndef ∧
          device_rules (devices_add regcomp devs type prop method arg flags).defs =
            device_rules devs.defs ∧
          devices_wf (devices_add regcomp devs type prop method arg flags) ∧
          (∀ (pl : Option pa_proplist) (name : Option String)
              (flag_mask flag_value len : Nat),
            devices_classify (devices_add regcomp devs type prop method arg flags).defs pl
                name flag_mask flag_value len =
              devices_classify devs.defs pl name flag_mask flag_value len) ∧
          (∀ (pl : Option pa_proplist) (name : Option String) (t : String),
            devices_is_typeof (devices_add regcomp devs type prop method arg flags).defs pl
                name t = devices_is_typeof devs.defs pl name t)) ∧
        ((cards_add regcomp cards type method arg profile flags).ndef = cards.ndef ∧
          card_rules (cards_add regcomp cards type method arg profile flags).defs =
            card_rules cards.defs ∧
          cards_wf (cards_add regcomp cards type method arg profile flags) ∧
          (∀ (name : Option String) (profiles : List String)
              (flag_mask flag_value len : Nat),
            cards_classify (cards_add regcomp cards type method arg profile flags).defs name
                profiles flag_mask flag_value len =
              cards_classify cards.defs name profiles flag_mask flag_value len) ∧
          (∀ (name : Option String) (t : String),
            card_is_typeof (cards_add regcomp cards type method arg profile flags).defs name
                t = card_is_typeof cards.defs name t))) := by
  constructor
  · intro method fn a hcase
    rcases hcase with ⟨hm, hfn, ha⟩ | ⟨hm, hfn, ha⟩ | ⟨hm, hfn, re, hre, ha⟩
    · subst hm; subst hfn; subst ha
      exact ⟨⟨rfl, devices_add_appended devs hdevs _ rfl⟩,
        ⟨rfl, cards_add_appended cards hcards _ rfl⟩⟩
    · subst hm; subst hfn; subst ha
      exact ⟨⟨rfl, devices_add_appended devs hdevs _ rfl⟩,
        ⟨rfl, cards_add_appended cards hcards _ rfl⟩⟩
    · subst hm; subst hfn; subst ha
      have hd : devices_add regcomp devs type prop pa_classify_method.pa_method_matches arg
          flags =
          { ndef := devs.ndef + 1,
            defs := (devs.defs.take (devs.ndef + 1) ++ [pa_classify_device_def_zero]).set
              devs.ndef
              { type := some type, prop := some prop,
                method := some pa_classify_method_matches,
                arg := pa_classify_arg.rexp re, data := { flags := flags } } } := by
        simp only [devices_add, hre]
      have hc : cards_add regcomp cards type pa_classify_method.pa_method_matches arg profile
          flags =
          { ndef := cards.ndef + 1,
            defs := (cards.defs.take (cards.ndef + 1) ++ [pa_classify_card_def_zero]).set
              cards.ndef
              { type := some type, method := some pa_classify_method_matches,
                arg := pa_classify_arg.rexp re,
                data := { profile := profile, flags := flags } } } := by
        simp only [cards_add, hre]
      rw [hd, hc]
      exact ⟨⟨rfl, devices_add_appended devs hdevs _ rfl⟩,
        ⟨rfl, cards_add_appended cards hcards _ rfl⟩⟩
  · intro method hcase
    have hd : (devices_add regcomp devs type prop method arg flags).ndef = devs.ndef ∧
        device_rules (devices_add regcomp devs type prop method arg flags).defs =
          device_rules devs.defs ∧
        devices_wf (devices_add regcomp devs type prop method arg flags) := by
      rcases hcase with hm | hm | hm <;> subst hm <;>
        exact ⟨rfl, devices_add_rejected devs hdevs⟩
    have hc : (cards_add regcomp cards type method arg profile flags).ndef = cards.ndef ∧
        card_rules (cards_add regcomp cards type method arg profile flags).defs =
          card_rules cards.defs ∧
        cards_wf (cards_add regcomp cards type method arg profile flags) := by
      rcases hcase with hm | hm | hm <;> subst hm <;>
        exact ⟨rfl, cards_add_rejected cards hcards⟩
    refine ⟨⟨hd.1, hd.2.1, hd.2.2, ?_, ?_⟩, ⟨hc.1, hc.2.1, hc.2.2, ?_, ?_⟩⟩
    · intro pl name flag_mask flag_value len
      exact devices_classify_congr _ _ hd.2.1 pl name flag_mask flag_value len
    · intro pl name t
      rw [devices_is_typeof_eq, devices_is_typeof_eq, hd.2.1]
    · intro name profiles flag_mask flag_value len
      exact cards_classify_congr _ _ hc.2.1 name profiles flag_mask flag_value len
    · intro name t
      rw [card_is_typeof_eq, card_is_typeof_eq, hc.2.1]

theorem add_accepts_three_methods_witness :
    (devices_add (fun _ => none) pa_classify_device_new "bt" "name"
        pa_classify_method.pa_method_startswith "bluez_" 0x02).ndef = 1 ∧
      (cards_add (fun _ => none) pa_classify_card_new "bt"
        pa_classify_method.pa_method_startswith "bluez_" none 0x02).ndef = 1 ∧
      (devices_add (fun _ => none) pa_classify_device_new "any" "name"
        pa_classify_method.pa_method_true "" 0).ndef = 0 :=
  ⟨((add_accepts_three_methods (fun _ => none) pa_classify_device_new devices_wf_new
      pa_classify_card_new cards_wf_new "bt" "name" "bluez_" none 0x02).1
      pa_classify_method.pa_method_startswith pa_classify_method_startswith
      (pa_classify_arg.string (some "bluez_")) (Or.inr (Or.inl ⟨rfl, rfl, rfl⟩))).1.1,
    ((add_accepts_three_methods (fun _ => none) pa_classify_device_new devices_wf_new
      pa_classify_card_new cards_wf_new "bt" "name" "bluez_" none 0x02).1
      pa_classify_method.pa_method_startswith pa_classify_method_startswith
      (pa_classify_arg.string (some "bluez_")) (Or.inr (Or.inl ⟨rfl, rfl, rfl⟩))).2.1,
    ((add_accepts_three_methods (fun _ => none) pa_classify_device_new devices_wf_new
      pa_classify_card_new cards_wf_new "any" "name" "" none 0).2
      pa_classify_method.pa_method_true (Or.inl rfl)).1.1⟩

end Classify
